import Mathlib

/-!
Self-update subsystem of `aw` (package `internal/update`).

A shallow embedding of `internal/update`:

* `semver.go`  : `parseVersion`, `isNewer`
* `github.go`  : `FetchLatestRelease`, `FindAssetURL`
* `update.go`  : `Execute`, `download`, `extractBinary`, `executablePath`,
  `replaceBinary`

Go strings are modelled as `List Char`.  The only separators and prefixes the
code looks for are ASCII (`v`, `.`, `/`, `+`, `-`, the digits), so the
character view and Go's byte view of a string split at the same places.

Go's `int` is the 64-bit one (`strconv.IntSize = 64`), the size on every
platform a release asset is built for; integers are `Int`/`Nat` with the range
checks of `strconv` written out.

The stateful code passes its state explicitly.  The filesystem is a map from
paths to files, and a run of `replaceBinary` returns the filesystem after each
of its calls.  `Execute` runs in a `World`: the filesystem, the requests sent
to the transport and the lines written to the diagnostic stream.  What the
environment decides (the answers of the transport, the failures of the
operating system, the random name of the temporary file) is an argument of the
functions.  The bytes of a response are modelled by what the readers of the
Go library (`encoding/json`, `compress/gzip`, `archive/tar`) deliver for them.
-/

namespace Update

/-- Equality of results is decidable when it is for errors and values. -/
instance instDecidableEqExcept {ε α : Type} [DecidableEq ε] [DecidableEq α] :
    DecidableEq (Except ε α)
  | .ok a, .ok b => if h : a = b then isTrue (by rw [h]) else isFalse (fun h2 => h (by cases h2; rfl))
  | .error a, .error b =>
    if h : a = b then isTrue (by rw [h]) else isFalse (fun h2 => h (by cases h2; rfl))
  | .ok _, .error _ => isFalse (fun h => by cases h)
  | .error _, .ok _ => isFalse (fun h => by cases h)

/-! ## Library functions used by `semver.go` -/

/-- Go's `strings.TrimPrefix(s, pre)`: `s` without the leading `pre` when `s`
starts with it, `s` itself otherwise.  At most one occurrence is removed. -/
def trimLeading (s pre : List Char) : List Char :=
  if pre.isPrefixOf s then s.drop pre.length else s

/-- Go's `strings.Split(s, sep)` for a one-byte separator: the segments between
the occurrences of `sep`, in order.  The result is never empty: a string
without separator (the empty one too) gives one segment. -/
def splitOnByte (sep : Char) : List Char → List (List Char)
  | [] => [[]]
  | c :: cs =>
    if c = sep then [] :: splitOnByte sep cs
    else
      match splitOnByte sep cs with
      | [] => [[c]]
      | p :: ps => (c :: p) :: ps

/-- The two causes a `*strconv.NumError` can carry: `ErrSyntax`, `ErrRange`. -/
inductive NumErrKind
  | badSyntax
  | outOfRange
  deriving DecidableEq, Repr

/-- Go's `*strconv.NumError` of `Atoi`: the offending input and the cause. -/
structure NumError where
  num : List Char
  err : NumErrKind
  deriving DecidableEq, Repr

/-- Go's `strconv.IntSize`. -/
def intSize : Nat := 64

/-- Largest `uint64`, `1<<64 - 1`. -/
def maxUint64 : Nat := 2 ^ 64 - 1

/-- The digit loop of `strconv.ParseUint(s, 10, 64)`: `n` is the value read so
far.  A byte that is not a decimal digit stops with `ErrSyntax`; a value that
leaves `uint64` stops with `ErrRange` (`n >= cutoff`, or `n*10 + d` wraps or
exceeds `maxVal`). -/
def parseUintLoop (n : Nat) : List Char → Except NumErrKind Nat
  | [] => .ok n
  | c :: cs =>
    if '0' ≤ c ∧ c ≤ '9' then
      let d := c.toNat - '0'.toNat
      if n ≥ maxUint64 / 10 + 1 then .error .outOfRange
      else
        let n1 := n * 10 + d
        if n1 > maxUint64 then .error .outOfRange
        else parseUintLoop n1 cs
    else .error .badSyntax

/-- Go's `strconv.ParseUint(s, 10, 64)`: the empty string is a syntax error. -/
def parseUint (s : List Char) : Except NumErrKind Nat :=
  match s with
  | [] => .error .badSyntax
  | _ => parseUintLoop 0 s

/-- The body of `strconv.ParseInt(s, 10, 0)` after the sign has been removed:
`neg` tells whether the sign was `-`, `digits` is the rest.  A syntax error of
`ParseUint` is returned as it is; a range error, or a magnitude that does not
fit the `int`, gives `ErrRange`. -/
def parseIntSigned (neg : Bool) (digits : List Char) : Except NumErrKind Int :=
  match parseUint digits with
  | .error .badSyntax => .error .badSyntax
  | .error .outOfRange => .error .outOfRange
  | .ok un =>
    let cutoff : Nat := 2 ^ (intSize - 1)
    if !neg && un ≥ cutoff then .error .outOfRange
    else if neg && un > cutoff then .error .outOfRange
    else if neg then .ok (-(un : Int)) else .ok (un : Int)

/-- Go's `strconv.Atoi(s)`, which is `ParseInt(s, 10, 0)` (the fast path for
short inputs returns the same results): an optional sign `+` or `-`, then one
or more decimal digits, whose value fits the `int`. -/
def atoi (s : List Char) : Except NumError Int :=
  match s with
  | [] => .error ⟨s, .badSyntax⟩
  | c :: cs =>
    let r :=
      if c = '+' then parseIntSigned false cs
      else if c = '-' then parseIntSigned true cs
      else parseIntSigned false s
    match r with
    | .ok v => .ok v
    | .error k => .error ⟨s, k⟩

/-! ## `semver.go` -/

/-- The errors of `parseVersion`, one per `fmt.Errorf` of the function, with
the values it formats. -/
inductive VersionError
  /-- Format `invalid version format %q: expected X.Y.Z`. -/
  | invalidFormat (s : List Char)
  /-- Format `invalid major version %q: %w`. -/
  | invalidMajor (part : List Char) (cause : NumError)
  /-- Format `invalid minor version %q: %w`. -/
  | invalidMinor (part : List Char) (cause : NumError)
  /-- Format `invalid patch version %q: %w`. -/
  | invalidPatch (part : List Char) (cause : NumError)
  deriving DecidableEq, Repr

/-- Function `parseVersion` of `semver.go`: strips a leading "v" and splits "X.Y.Z" into
major, minor, patch.  (On an error Go returns zeros next to it; they are not
kept.) -/
def parseVersion (s : List Char) : Except VersionError (Int × Int × Int) :=
  let s := trimLeading s ['v']
  let parts := splitOnByte '.' s
  match parts with
  | [p0, p1, p2] =>
    match atoi p0 with
    | .error e => .error (.invalidMajor p0 e)
    | .ok major =>
      match atoi p1 with
      | .error e => .error (.invalidMinor p1 e)
      | .ok minor =>
        match atoi p2 with
        | .error e => .error (.invalidPatch p2 e)
        | .ok patch => .ok (major, minor, patch)
  | _ => .error (.invalidFormat s)

/-- The errors of `isNewer`: the error of `parseVersion`, wrapped with the
argument it comes from. -/
inductive NewerError
  /-- Format `parsing latest version: %w`. -/
  | parsingLatest (cause : VersionError)
  /-- Format `parsing current version: %w`. -/
  | parsingCurrent (cause : VersionError)
  deriving DecidableEq, Repr

/-- Function `isNewer` of `semver.go`: the pair `(bool, error)` Go returns, the error
being `none` for `nil`. -/
def isNewer (latest current : List Char) : Bool × Option NewerError :=
  match parseVersion latest with
  | .error e => (false, some (.parsingLatest e))
  | .ok (lMaj, lMin, lPat) =>
    match parseVersion current with
    | .error e => (false, some (.parsingCurrent e))
    | .ok (cMaj, cMin, cPat) =>
      if lMaj ≠ cMaj then (decide (lMaj > cMaj), none)
      else if lMin ≠ cMin then (decide (lMin > cMin), none)
      else (decide (lPat > cPat), none)

/-! ## `github.go` -/

/-- Type `Asset` of `github.go`: a downloadable file in a release. -/
structure Asset where
  Name : List Char
  BrowserDownloadURL : List Char
  deriving DecidableEq, Repr

/-- Type `ReleaseInfo` of `github.go`: the relevant fields of a GitHub release. -/
structure ReleaseInfo where
  TagName : List Char
  Assets : List Asset
  deriving DecidableEq, Repr

/-- The error of `FindAssetURL`, `no release asset found for %s/%s`, with the
two values it formats. -/
structure AssetError where
  goos : List Char
  goarch : List Char
  deriving DecidableEq, Repr

/-- The text of an `AssetError`, as `fmt.Errorf` formats it. -/
def AssetError.message (e : AssetError) : List Char :=
  "no release asset found for ".toList ++ e.goos ++ "/".toList ++ e.goarch

/-- The asset name `FindAssetURL` looks for,
`fmt.Sprintf("aw_%s_%s.tar.gz", goos, goarch)`. -/
def expectedAssetName (goos goarch : List Char) : List Char :=
  "aw_".toList ++ goos ++ "_".toList ++ goarch ++ ".tar.gz".toList

/-- The `for ... range release.Assets` loop of `FindAssetURL`: the URL of the
first asset whose name equals `expected`. -/
def findAssetLoop (expected : List Char) : List Asset → Option (List Char)
  | [] => none
  | a :: rest =>
    if a.Name = expected then some a.BrowserDownloadURL
    else findAssetLoop expected rest

/-- Function `FindAssetURL` of `github.go`: finds the download URL for the given OS/arch
from the release assets. -/
def FindAssetURL (release : ReleaseInfo) (goos goarch : List Char) :
    Except AssetError (List Char) :=
  let expected := expectedAssetName goos goarch
  match findAssetLoop expected release.Assets with
  | some url => .ok url
  | none => .error ⟨goos, goarch⟩

/-! ## `update.go` -/

/-- Constant `binaryName` of `update.go`. -/
def binaryName : List Char := "aw".toList

/-- The first loop of Go's `filepath.Base`: strip trailing slashes. -/
def stripTrailingSlashes (path : List Char) : List Char :=
  (path.reverse.dropWhile (fun c => c = '/')).reverse

/-- The second loop of Go's `filepath.Base`: what follows the last slash, the
whole path when it has none. -/
def lastElement (path : List Char) : List Char :=
  (path.reverse.takeWhile (fun c => c ≠ '/')).reverse

/-- Go's `filepath.Base` where the separator is `/` and there is no volume
name (linux, darwin): the last element of the path, trailing slashes removed
first; "." for the empty path and "/" for a path of slashes only. -/
def filepathBase (path : List Char) : List Char :=
  if path = [] then ['.']
  else
    let p := lastElement (stripTrailingSlashes path)
    if p = [] then ['/'] else p

/-- The field of `tar.Header` that `extractBinary` reads. -/
structure TarHeader where
  Name : List Char
  deriving DecidableEq, Repr

/-- What a `tar.Reader` over the uncompressed stream still has to deliver.
The archive is finite, so the sequence of results of `Next` is finite:
* `eof`: `Next` returns `io.EOF`;
* `failed e`: `Next` returns another error (bad framing, truncated or corrupt
  stream);
* `entry hdr body rest`: `Next` returns `hdr`; `body` is what `io.ReadAll`
  returns for this entry when it is called, the content or a read error; `rest`
  is the reader after this entry, whether the body was read or skipped. -/
inductive TarReader
  | eof
  | failed (e : List Char)
  | entry (hdr : TarHeader) (body : Except (List Char) (List UInt8)) (rest : TarReader)

/-- The argument of `extractBinary`, as the library readers see it:
* `notGzip e`: `gzip.NewReader` rejects the bytes with error `e`;
* `gzip tr`: the gzip header is accepted and the tar reader over the
  uncompressed stream behaves as `tr`. -/
inductive ArchiveData
  | notGzip (e : List Char)
  | gzip (tr : TarReader)

/-- The errors of `extractBinary`, one per `fmt.Errorf` of the function. -/
inductive ExtractError
  /-- Format `opening gzip: %w`. -/
  | openingGzip (cause : List Char)
  /-- Format `reading tar: %w`. -/
  | readingTar (cause : List Char)
  /-- Format `reading binary from archive: %w`. -/
  | readingBinary (cause : List Char)
  /-- Format `binary %q not found in archive`. -/
  | notFound (name : List Char)
  deriving DecidableEq, Repr

/-- Go's `%q` for a string of printable ASCII characters: the string between
double quotes, a double quote or backslash in it escaped by a backslash. -/
def quoteASCII (s : List Char) : List Char :=
  let dq := Char.ofNat 34
  let bs := Char.ofNat 92
  dq :: (s.flatMap (fun c => if c = dq ∨ c = bs then [bs, c] else [c])) ++ [dq]

/-- The text of an `ExtractError`, as `fmt.Errorf` formats it. -/
def ExtractError.message : ExtractError → List Char
  | .openingGzip cause => "opening gzip: ".toList ++ cause
  | .readingTar cause => "reading tar: ".toList ++ cause
  | .readingBinary cause => "reading binary from archive: ".toList ++ cause
  | .notFound name => "binary ".toList ++ quoteASCII name ++ " not found in archive".toList

/-- The `for` loop of `extractBinary` over the results of `tr.Next()`. -/
def extractLoop : TarReader → Except ExtractError (List UInt8)
  | .eof => .error (.notFound binaryName)
  | .failed e => .error (.readingTar e)
  | .entry hdr body rest =>
    if filepathBase hdr.Name = binaryName then
      match body with
      | .error e => .error (.readingBinary e)
      | .ok data => .ok data
    else extractLoop rest

/-- Function `extractBinary` of `update.go`: extracts the binary named "aw" from a
tar.gz archive. -/
def extractBinary (archiveData : ArchiveData) : Except ExtractError (List UInt8) :=
  match archiveData with
  | .notGzip e => .error (.openingGzip e)
  | .gzip tr => extractLoop tr

/-- A well-formed tar stream: the given entries, each readable in full, then
the end of the archive. -/
def TarReader.ofEntries : List (List Char × List UInt8) → TarReader
  | [] => .eof
  | (name, content) :: rest => .entry ⟨name⟩ (.ok content) (TarReader.ofEntries rest)

/-- The stream `tr` behind the given well-formed entries. -/
def TarReader.after : List (List Char × List UInt8) → TarReader → TarReader
  | [], tr => tr
  | (name, content) :: rest, tr => .entry ⟨name⟩ (.ok content) (TarReader.after rest tr)

/-- Helper `createTestArchive` of `update_test.go`: a tar.gz archive containing a
single file named "aw" with the given content. -/
def createTestArchive (content : List UInt8) : ArchiveData :=
  .gzip (TarReader.ofEntries [("aw".toList, content)])

/-! ## The filesystem, as `replaceBinary` uses it -/

/-- The loop step of Go's `filepath.Clean` for one path element: `out` holds the
elements kept so far, the last one first.  An empty element and "." are
dropped; ".." removes the last kept element when there is one to remove, is
kept in a path that is not rooted, and is dropped at the root. -/
def cleanStep (rooted : Bool) (out : List (List Char)) (elem : List Char) :
    List (List Char) :=
  if elem = [] ∨ elem = ['.'] then out
  else if elem = ['.', '.'] then
    match out with
    | [] => if rooted then [] else [elem]
    | top :: rest =>
      if top = ['.', '.'] then (if rooted then out else elem :: out) else rest
  else elem :: out

/-- Go's `filepath.Clean` where the separator is `/` and there is no volume
name: the shortest path equivalent to `path` by purely lexical processing. -/
def filepathClean (path : List Char) : List Char :=
  match path with
  | [] => ['.']
  | c :: _ =>
    let rooted : Bool := decide (c = '/')
    let kept := ((splitOnByte '/' path).foldl (cleanStep rooted) []).reverse
    let body := List.intercalate ['/'] kept
    if rooted then '/' :: body
    else if body = [] then ['.'] else body

/-- Go's `filepath.Dir` where the separator is `/` and there is no volume name:
the path up to and including its last slash, cleaned. -/
def filepathDir (path : List Char) : List Char :=
  filepathClean (path.reverse.dropWhile (fun c => c ≠ '/')).reverse

/-- The `joinPath` of Go's package `os`: `dir` and `name` with one separator
between them. -/
def joinPath (dir name : List Char) : List Char :=
  if dir.getLast? = some '/' then dir ++ name else dir ++ '/' :: name

/-- A regular file: its bytes and its permission bits. -/
structure FileData where
  content : List UInt8
  mode : Nat
  deriving DecidableEq, Repr

/-- A filesystem: the regular file behind each path, if there is one.  Paths
are compared as strings: the model has no links and no two spellings of one
path. -/
abbrev FS := List Char → Option FileData

/-- The filesystem with `file` at `path`. -/
def fsPut (fs : FS) (path : List Char) (file : FileData) : FS :=
  fun p => if p = path then some file else fs p

/-- The filesystem without a file at `path`. -/
def fsDel (fs : FS) (path : List Char) : FS :=
  fun p => if p = path then none else fs p

/-- A successful `Write` of `data` to the open file at `path`. -/
def fsWrite (fs : FS) (path : List Char) (data : List UInt8) : FS :=
  match fs path with
  | none => fs
  | some f => fsPut fs path ⟨f.content ++ data, f.mode⟩

/-- A successful `Chmod` of the open file at `path`. -/
def fsChmod (fs : FS) (path : List Char) (mode : Nat) : FS :=
  match fs path with
  | none => fs
  | some f => fsPut fs path ⟨f.content, mode⟩

/-- A successful `os.Rename`: in one step the file of `src` becomes the file of
`dst` and `src` names nothing. -/
def fsRename (fs : FS) (src dst : List Char) : FS :=
  match fs src with
  | none => fs
  | some f => fsPut (fsDel fs src) dst f

/-- What the operating system does to the calls of `replaceBinary`: the values
`nextRandom` draws for the name of the temporary file, and for each call the
error it fails with, if it fails. -/
structure FsFaults where
  /-- The value of the `i`-th call of `nextRandom`. -/
  randoms : Nat → Nat
  /-- `OpenFile` fails with an error other than "file exists". -/
  openErr : Option (List Char)
  /-- `Write` fails after writing that many bytes. -/
  writeErr : Option (Nat × List Char)
  chmodErr : Option (List Char)
  closeErr : Option (List Char)
  renameErr : Option (List Char)
  removeErr : Option (List Char)

/-- The `prefixAndSuffix` of `os.CreateTemp`: the pattern, split at its last
"*". -/
def patternParts (pattern : List Char) : List Char × List Char :=
  if '*' ∈ pattern then
    ((pattern.reverse.dropWhile (fun c => c ≠ '*')).reverse.dropLast,
      (pattern.reverse.takeWhile (fun c => c ≠ '*')).reverse)
  else (pattern, [])

/-- The retry loop of `os.CreateTemp`: `fuel` tries are left and `tries` have
been made.  A name that exists is tried again with the next random value. -/
def createTempLoop (faults : FsFaults) (fs : FS) (pre suf : List Char) :
    Nat → Nat → Except (List Char) (List Char)
  | 0, _ => .error ("createtemp ".toList ++ pre ++ "*".toList ++ suf ++ ": file exists".toList)
  | fuel + 1, tries =>
    let name := pre ++ Nat.toDigits 10 (faults.randoms tries % 2 ^ 32) ++ suf
    if (fs name).isSome then createTempLoop faults fs pre suf fuel (tries + 1)
    else
      match faults.openErr with
      | some e => .error e
      | none => .ok name

/-- Go's `os.CreateTemp(dir, pattern)` for a non-empty `dir`: the path of the
file it creates (exclusively, so the path names no file before), or its error.
The file is created by the caller of this function, with `fsPut`. -/
def createTemp (faults : FsFaults) (fs : FS) (dir pattern : List Char) :
    Except (List Char) (List Char) :=
  if '/' ∈ pattern then
    .error ("createtemp ".toList ++ pattern ++ ": pattern contains path separator".toList)
  else
    let parts := patternParts pattern
    createTempLoop faults fs (joinPath dir parts.1) parts.2 10000 0

/-- The errors of `replaceBinary`, one per `fmt.Errorf` of the function. -/
inductive ReplaceError
  /-- Format `creating temp file: %w`. -/
  | creatingTemp (cause : List Char)
  /-- Format `writing temp file: %w`. -/
  | writingTemp (cause : List Char)
  /-- Format `setting permissions: %w`. -/
  | settingPermissions (cause : List Char)
  /-- Format `closing temp file: %w`. -/
  | closingTemp (cause : List Char)
  /-- Format `renaming: %w`. -/
  | renaming (cause : List Char)
  deriving DecidableEq, Repr

/-- The filesystem calls of `replaceBinary`, each with the paths it is applied
to. -/
inductive FsOp
  | createTemp (path : List Char)
  | write (path : List Char)
  | chmod (path : List Char) (mode : Nat)
  | close (path : List Char)
  | rename (src dst : List Char)
  | remove (path : List Char)
  deriving DecidableEq, Repr

/-- The paths a filesystem call is applied to. -/
def FsOp.paths : FsOp → List (List Char)
  | .createTemp p => [p]
  | .write p => [p]
  | .chmod p _ => [p]
  | .close p => [p]
  | .rename s d => [s, d]
  | .remove p => [p]

/-- A run of `replaceBinary`: the error it returns (`none` for `nil`), the
filesystem it leaves, and the calls it made, in order, each with the
filesystem right after it. -/
structure ReplaceOutcome where
  err : Option ReplaceError
  fs : FS
  trace : List (FsOp × FS)

/-- The deferred clean-up of `replaceBinary`, `_ = os.Remove(tmpPath)`: the
temporary file is removed unless `os.Remove` fails; its error is discarded. -/
def removeTemp (faults : FsFaults) (fs : FS) (tmpPath : List Char) : FS :=
  match faults.removeErr with
  | some _ => fs
  | none => fsDel fs tmpPath

/-- Function `replaceBinary` of `update.go`: atomically replaces the binary at
`targetPath` with `newBinary`. -/
def replaceBinary (faults : FsFaults) (fs : FS) (targetPath : List Char)
    (newBinary : List UInt8) : ReplaceOutcome :=
  let dir := filepathDir targetPath
  match createTemp faults fs dir (binaryName ++ ".update.*".toList) with
  | .error e => ⟨some (.creatingTemp e), fs, []⟩
  | .ok tmpPath =>
    let fs1 := fsPut fs tmpPath ⟨[], 0o600⟩
    let t1 := [(FsOp.createTemp tmpPath, fs1)]
    match faults.writeErr with
    | some (n, e) =>
      let fs2 := fsWrite fs1 tmpPath (newBinary.take n)
      let fs3 := removeTemp faults fs2 tmpPath
      ⟨some (.writingTemp e), fs3,
        t1 ++ [(.write tmpPath, fs2), (.close tmpPath, fs2), (.remove tmpPath, fs3)]⟩
    | none =>
      let fs2 := fsWrite fs1 tmpPath newBinary
      let t2 := t1 ++ [(FsOp.write tmpPath, fs2)]
      match faults.chmodErr with
      | some e =>
        let fs3 := removeTemp faults fs2 tmpPath
        ⟨some (.settingPermissions e), fs3,
          t2 ++ [(.chmod tmpPath 0o755, fs2), (.close tmpPath, fs2), (.remove tmpPath, fs3)]⟩
      | none =>
        let fs3 := fsChmod fs2 tmpPath 0o755
        let t3 := t2 ++ [(FsOp.chmod tmpPath 0o755, fs3)]
        match faults.closeErr with
        | some e =>
          let fs4 := removeTemp faults fs3 tmpPath
          ⟨some (.closingTemp e), fs4, t3 ++ [(.close tmpPath, fs3), (.remove tmpPath, fs4)]⟩
        | none =>
          let t4 := t3 ++ [(FsOp.close tmpPath, fs3)]
          match faults.renameErr with
          | some e =>
            let fs4 := removeTemp faults fs3 tmpPath
            ⟨some (.renaming e), fs4,
              t4 ++ [(.rename tmpPath targetPath, fs3), (.remove tmpPath, fs4)]⟩
          | none =>
            let fs4 := fsRename fs3 tmpPath targetPath
            ⟨none, fs4, t4 ++ [(.rename tmpPath targetPath, fs4)]⟩

/-! ## The transport and the release metadata (`github.go`) -/

/-- A JSON value, as `encoding/json` reads it from a body. -/
inductive Json
  | null
  | bool (b : Bool)
  | num (literal : List Char)
  | str (s : List Char)
  | arr (items : List Json)
  | obj (members : List (List Char × Json))

/-- The name `encoding/json` gives a JSON value in a type error. -/
def Json.kind : Json → List Char
  | .null => "null".toList
  | .bool _ => "bool".toList
  | .num _ => "number".toList
  | .str _ => "string".toList
  | .arr _ => "array".toList
  | .obj _ => "object".toList

/-- The errors of `json.Decoder.Decode` into a `ReleaseInfo`:
* `invalid cause`: the body is not a JSON value, or cannot be read;
* `mismatch value target`: a JSON value of kind `value` stands where a Go value
  of type `target` is decoded (Go's `UnmarshalTypeError`, of which the fields
  `Value` and `Type` are kept; the position, which it also carries, is not
  represented).  Decoding goes on after such an error and `Decode` returns the
  first one, in the order of the body. -/
inductive DecodeError
  | invalid (cause : List Char)
  | mismatch (value target : List Char)
  deriving DecidableEq, Repr

/-- Case folding of one character of an object key, as `encoding/json` compares
keys with field names: an ASCII capital is its small letter, and the two
characters outside ASCII that fold to an ASCII letter (U+017F to "s", U+212A
to "k") are that letter. -/
def foldRune (c : Char) : Char :=
  if 'A' ≤ c ∧ c ≤ 'Z' then Char.ofNat (c.toNat + 32)
  else if c = Char.ofNat 0x17F then 's'
  else if c = Char.ofNat 0x212A then 'k'
  else c

/-- An object key names the field with JSON tag `tag`: equal, or equal up to
case. -/
def keyMatches (key tag : List Char) : Bool :=
  key.map foldRune = tag.map foldRune

/-- Decoding a JSON value into a `string` field that holds `cur`: `null` leaves
the field alone, a string sets it, anything else is a type error. -/
def decodeStringField (cur : List Char) : Json → Except DecodeError (List Char)
  | .null => .ok cur
  | .str s => .ok s
  | v => .error (.mismatch v.kind "string".toList)

/-- Decoding the members of a JSON object into the `Asset` `a`, in the order of
the object: the tags `name` and `browser_download_url` of `github.go` select
the fields, any other key is skipped. -/
def decodeAssetMembers (a : Asset) : List (List Char × Json) → Except DecodeError Asset
  | [] => .ok a
  | (k, v) :: rest =>
    if keyMatches k "name".toList then
      match decodeStringField a.Name v with
      | .error e => .error e
      | .ok s => decodeAssetMembers ⟨s, a.BrowserDownloadURL⟩ rest
    else if keyMatches k "browser_download_url".toList then
      match decodeStringField a.BrowserDownloadURL v with
      | .error e => .error e
      | .ok s => decodeAssetMembers ⟨a.Name, s⟩ rest
    else decodeAssetMembers a rest

/-- Decoding a JSON value into an element of the slice `Assets` that holds `a`:
`null` leaves the element alone, an object sets the fields it names and leaves
the others, anything else is a type error. -/
def decodeAsset (a : Asset) : Json → Except DecodeError Asset
  | .null => .ok a
  | .obj members => decodeAssetMembers a members
  | v => .error (.mismatch v.kind "update.Asset".toList)

/-- The loop of `encoding/json` over the elements of a JSON array decoded into
a slice of `Asset`: element `i` of the array is decoded into element `i` of the
backing array of the slice, whose elements are `mem` and, behind them, zero
values. -/
def decodeAssetItems : List Asset → List Json → Except DecodeError (List Asset)
  | _, [] => .ok []
  | mem, v :: rest =>
    match decodeAsset (mem.headD ⟨[], []⟩) v with
    | .error e => .error e
    | .ok a =>
      match decodeAssetItems mem.tail rest with
      | .error e => .error e
      | .ok more => .ok (a :: more)

/-- Decoding a JSON value into the field `Assets`, a slice that holds `cur` and
whose backing array holds `spare` behind its length (what an earlier, longer
array of the same body has left there).  `null` sets the slice to `nil`; an
empty array sets it to a new empty slice; another array is decoded element by
element into the backing array and the length of the slice becomes the length
of the array; anything else is a type error.  The result is the slice and what
its backing array holds behind it. -/
def decodeAssetsField (cur spare : List Asset) :
    Json → Except DecodeError (List Asset × List Asset)
  | .null => .ok ([], [])
  | .arr items =>
    match decodeAssetItems (cur ++ spare) items with
    | .error e => .error e
    | .ok assets =>
      .ok (assets, if items.isEmpty then [] else (cur ++ spare).drop items.length)
  | v => .error (.mismatch v.kind "[]update.Asset".toList)

/-- Decoding the members of a JSON object into the `ReleaseInfo` `r`, in the
order of the object: the tags `tag_name` and `assets` of `github.go` select the
fields, any other key is skipped; `spare` is what the backing array of
`r.Assets` holds behind its length. -/
def decodeReleaseMembers (r : ReleaseInfo) (spare : List Asset) :
    List (List Char × Json) → Except DecodeError ReleaseInfo
  | [] => .ok r
  | (k, v) :: rest =>
    if keyMatches k "tag_name".toList then
      match decodeStringField r.TagName v with
      | .error e => .error e
      | .ok s => decodeReleaseMembers ⟨s, r.Assets⟩ spare rest
    else if keyMatches k "assets".toList then
      match decodeAssetsField r.Assets spare v with
      | .error e => .error e
      | .ok (assets, spare2) => decodeReleaseMembers ⟨r.TagName, assets⟩ spare2 rest
    else decodeReleaseMembers r spare rest

/-- What `Decode(&release)` of `FetchLatestRelease` does with the JSON value of
the body, `release` being the zero `ReleaseInfo`: an object fills the fields,
`null` leaves them, any other value is a type error. -/
def decodeRelease : Json → Except DecodeError ReleaseInfo
  | .null => .ok ⟨[], []⟩
  | .obj members => decodeReleaseMembers ⟨[], []⟩ [] members
  | v => .error (.mismatch v.kind "update.ReleaseInfo".toList)

/-- The body of a response, as its readers see it:
* `text`: the bytes `io.ReadAll` delivers, as the string `string(body)`;
* `readErr`: the error `io.ReadAll` returns, if any;
* `json`: what `json.Decoder` finds at the start of the body, the first JSON
  value or the error of the scanner;
* `archive`: what the gzip and tar readers make of the bytes. -/
structure Body where
  text : List Char
  readErr : Option (List Char)
  json : Except (List Char) Json
  archive : ArchiveData

/-- The fields of `http.Response` that the package reads. -/
structure Response where
  StatusCode : Nat
  Body : Body

/-- The fields of `http.Request` that the package sets. -/
structure Request where
  method : List Char
  url : List Char
  header : List (List Char × List Char)
  deriving DecidableEq, Repr

/-- Interface `HTTPClient` of `github.go`: `Do` answers a request with a
response or an error; the answer may depend on the requests made before. -/
abbrev HTTPClient := List Request → Request → Except (List Char) Response

/-- Constant `repoOwner` of `github.go`. -/
def repoOwner : List Char := "hiragram".toList

/-- Constant `repoName` of `github.go`. -/
def repoName : List Char := "agent-workspace".toList

/-- The request `FetchLatestRelease` builds: a GET of the latest release of the
repository, with the `Accept` header of the GitHub API. -/
def metadataRequest : Request :=
  ⟨"GET".toList,
    "https://api.github.com/repos/".toList ++ repoOwner ++ "/".toList ++ repoName
      ++ "/releases/latest".toList,
    [("Accept".toList, "application/vnd.github+json".toList)]⟩

/-- The errors of `FetchLatestRelease`, one per `fmt.Errorf` of the function
that can be reached (`http.NewRequest` does not fail on the constant URL). -/
inductive FetchError
  /-- Format `fetching latest release: %w`. -/
  | fetching (cause : List Char)
  /-- Format `GitHub API returned status %d: %s`. -/
  | badStatus (status : Nat) (body : List Char)
  /-- Format `parsing release info: %w`. -/
  | parsing (cause : DecodeError)
  deriving DecidableEq, Repr

/-- Function `FetchLatestRelease` of `github.go`: queries the GitHub API for the
latest release.  `log` holds the requests made so far; the result comes with
the log after the call. -/
def FetchLatestRelease (client : HTTPClient) (log : List Request) :
    Except FetchError ReleaseInfo × List Request :=
  let req := metadataRequest
  match client log req with
  | .error e => (.error (.fetching e), log ++ [req])
  | .ok resp =>
    if resp.StatusCode ≠ 200 then
      (.error (.badStatus resp.StatusCode resp.Body.text), log ++ [req])
    else
      match resp.Body.json with
      | .error e => (.error (.parsing (.invalid e)), log ++ [req])
      | .ok v =>
        match decodeRelease v with
        | .error e => (.error (.parsing e), log ++ [req])
        | .ok release => (.ok release, log ++ [req])

/-! ## The orchestrator (`update.go`) -/

/-- Type `Updater` of `update.go`: the dependencies of the update workflow.
The writer `Stderr` is the field `stderr` of the `World`. -/
structure Updater where
  HTTPClient : HTTPClient
  CurrentVersion : List Char
  GOOS : List Char
  GOARCH : List Char
  ExecPath : List Char

/-- What the operating system and the library answer to the calls of the
package other than the transport:
* `urlErr url`: the error of `http.NewRequest` for `url`, if it rejects it;
* `executable`: the result of `os.Executable()`;
* `evalSymlinks`: the result of `filepath.EvalSymlinks`;
* `faults`: the failures of the filesystem calls. -/
structure OsEnv where
  urlErr : List Char → Option (List Char)
  executable : Except (List Char) (List Char)
  evalSymlinks : List Char → Except (List Char) (List Char)
  faults : FsFaults

/-- What a run of the updater can change or leave a trace in: the filesystem,
the requests sent to the transport, the lines written to the diagnostic
stream, and the filesystem calls made. -/
structure World where
  fs : FS
  requests : List Request
  stderr : List (List Char)
  fsCalls : List FsOp

/-- A write to the diagnostic stream (`fmt.Fprintln`, `fmt.Fprintf` on
`u.Stderr`). -/
def World.print (w : World) (text : List Char) : World :=
  ⟨w.fs, w.requests, w.stderr ++ [text], w.fsCalls⟩

/-- The errors of `download`. -/
inductive DownloadError
  /-- The error of `http.NewRequest`. -/
  | badRequest (cause : List Char)
  /-- The error of `HTTPClient.Do`. -/
  | transport (cause : List Char)
  /-- Format `unexpected status %d`. -/
  | unexpectedStatus (status : Nat)
  /-- The error of `io.ReadAll`. -/
  | reading (cause : List Char)
  deriving DecidableEq, Repr

/-- The request `download` builds for a URL. -/
def downloadRequest (url : List Char) : Request := ⟨"GET".toList, url, []⟩

/-- Method `download` of `update.go`: fetches data from the given URL. -/
def download (os : OsEnv) (u : Updater) (url : List Char) (log : List Request) :
    Except DownloadError ArchiveData × List Request :=
  match os.urlErr url with
  | some e => (.error (.badRequest e), log)
  | none =>
    let req := downloadRequest url
    match u.HTTPClient log req with
    | .error e => (.error (.transport e), log ++ [req])
    | .ok resp =>
      if resp.StatusCode ≠ 200 then (.error (.unexpectedStatus resp.StatusCode), log ++ [req])
      else
        match resp.Body.readErr with
        | some e => (.error (.reading e), log ++ [req])
        | none => (.ok resp.Body.archive, log ++ [req])

/-- Method `executablePath` of `update.go`: returns the resolved path of the
currently running binary. -/
def executablePath (os : OsEnv) (u : Updater) : Except (List Char) (List Char) :=
  if u.ExecPath ≠ [] then .ok u.ExecPath
  else
    match os.executable with
    | .error e => .error e
    | .ok exe => os.evalSymlinks exe

/-- The errors of `Execute`, one per `return` of an error in the function. -/
inductive ExecuteError
  /-- Format `checking latest release: %w`. -/
  | checkingLatestRelease (cause : FetchError)
  /-- Format `comparing versions: %w`. -/
  | comparingVersions (cause : NewerError)
  /-- The error of `FindAssetURL`, returned as it is (`return err`). -/
  | assetNotFound (cause : AssetError)
  /-- Format `downloading release: %w`. -/
  | downloadingRelease (cause : DownloadError)
  /-- Format `extracting binary: %w`. -/
  | extractingBinary (cause : ExtractError)
  /-- Format `determining executable path: %w`. -/
  | determiningPath (cause : List Char)
  /-- Format `replacing binary: %w`. -/
  | replacingBinary (cause : ReplaceError)
  deriving DecidableEq, Repr

/-- The text `Execute` puts in front of the error of a step when it wraps it
with `fmt.Errorf("<text>: %w", err)`; `none` when it returns the error of the
step as it is. -/
def ExecuteError.stepText : ExecuteError → Option (List Char)
  | .checkingLatestRelease _ => some "checking latest release".toList
  | .comparingVersions _ => some "comparing versions".toList
  | .assetNotFound _ => none
  | .downloadingRelease _ => some "downloading release".toList
  | .extractingBinary _ => some "extracting binary".toList
  | .determiningPath _ => some "determining executable path".toList
  | .replacingBinary _ => some "replacing binary".toList

/-- Method `Execute` of `update.go`: performs the update workflow.  The result
is the error (`none` for `nil`) and the world after the run. -/
def Execute (os : OsEnv) (u : Updater) (w : World) : Option ExecuteError × World :=
  let w := w.print "Checking for updates...\n".toList
  -- 1. Fetch latest release
  let fetched := FetchLatestRelease u.HTTPClient w.requests
  let w : World := ⟨w.fs, fetched.2, w.stderr, w.fsCalls⟩
  match fetched.1 with
  | .error e => (some (.checkingLatestRelease e), w)
  | .ok release =>
    let latestVersion := trimLeading release.TagName "v".toList
    -- 2. Compare versions
    match isNewer latestVersion u.CurrentVersion with
    | (_, some e) => (some (.comparingVersions e), w)
    | (newer, none) =>
      if !newer then
        (none, w.print ("aw ".toList ++ u.CurrentVersion
          ++ " is already the latest version.\n".toList))
      else
        let w := w.print ("Updating aw: ".toList ++ u.CurrentVersion ++ " → ".toList
          ++ latestVersion ++ "\n".toList)
        -- 3. Find asset URL
        match FindAssetURL release u.GOOS u.GOARCH with
        | .error e => (some (.assetNotFound e), w)
        | .ok assetURL =>
          -- 4. Download archive
          let w := w.print ("Downloading for ".toList ++ u.GOOS ++ "/".toList ++ u.GOARCH
            ++ "...\n".toList)
          let downloaded := download os u assetURL w.requests
          let w : World := ⟨w.fs, downloaded.2, w.stderr, w.fsCalls⟩
          match downloaded.1 with
          | .error e => (some (.downloadingRelease e), w)
          | .ok archiveData =>
            -- 5. Extract binary
            match extractBinary archiveData with
            | .error e => (some (.extractingBinary e), w)
            | .ok binaryData =>
              -- 6. Determine current binary path
              match executablePath os u with
              | .error e => (some (.determiningPath e), w)
              | .ok targetPath =>
                -- 7. Replace binary
                let run := replaceBinary os.faults w.fs targetPath binaryData
                let w : World :=
                  ⟨run.fs, w.requests, w.stderr, w.fsCalls ++ run.trace.map (fun s => s.1)⟩
                match run.err with
                | some e => (some (.replacingBinary e), w)
                | none =>
                  (none, w.print
                    "Updated successfully! Run 'aw --version' to verify.\n".toList)

/-! ## Package `profile` (`types.go`, `validate.go`) -/

/-- Type `WorktreeConfig` of `types.go`: controls git worktree creation. -/
structure WorktreeConfig where
  Base : List Char
  deriving DecidableEq, Repr

/-- Type `ZellijConfig` of `types.go`: controls zellij session settings. -/
structure ZellijConfig where
  Layout : List Char
  deriving DecidableEq, Repr

/-- Constant `EnvironmentHost` of `types.go`. -/
def EnvironmentHost : List Char := "host".toList

/-- Constant `EnvironmentDocker` of `types.go`. -/
def EnvironmentDocker : List Char := "docker".toList

/-- Constant `LaunchShell` of `types.go`. -/
def LaunchShell : List Char := "shell".toList

/-- Constant `LaunchClaude` of `types.go`. -/
def LaunchClaude : List Char := "claude".toList

/-- Constant `LaunchZellij` of `types.go`. -/
def LaunchZellij : List Char := "zellij".toList

/-- Type `Profile` of `types.go`: a single named workspace profile.  The two
pointer fields are `none` for `nil`; `Environment` and `Launch` are the strings
behind the types `Environment` and `LaunchMode`. -/
structure Profile where
  Worktree : Option WorktreeConfig
  Environment : List Char
  Launch : List Char
  Zellij : Option ZellijConfig
  deriving DecidableEq, Repr

/-- Type `Config` of `types.go`: the top-level configuration.  The map
`Profiles` is the list of its entries in the order in which a `range` loop
visits them; a map has each key once. -/
structure Config where
  Default : List Char
  Profiles : List (List Char × Profile)
  deriving DecidableEq, Repr

/-- The errors of `Validate`, one per `fmt.Errorf` of the function. -/
inductive ValidateError
  /-- Format `environment is required ("host" or "docker")`. -/
  | environmentRequired
  /-- Format `unknown environment: %q (must be "host" or "docker")`. -/
  | unknownEnvironment (environment : List Char)
  /-- Format `launch is required ("shell", "claude", or "zellij")`. -/
  | launchRequired
  /-- Format `unknown launch mode: %q (must be "shell", "claude", or "zellij")`. -/
  | unknownLaunchMode (launch : List Char)
  /-- Format `zellij config is only valid with launch: zellij`. -/
  | zellijWithoutZellijLaunch
  deriving DecidableEq, Repr

/-- The text of a `ValidateError`, as `fmt.Errorf` formats it; `quote` is Go's
`%q`. -/
def ValidateError.message (quote : List Char → List Char) : ValidateError → List Char
  | .environmentRequired => "environment is required (\"host\" or \"docker\")".toList
  | .unknownEnvironment e =>
    "unknown environment: ".toList ++ quote e ++ " (must be \"host\" or \"docker\")".toList
  | .launchRequired => "launch is required (\"shell\", \"claude\", or \"zellij\")".toList
  | .unknownLaunchMode l =>
    "unknown launch mode: ".toList ++ quote l
      ++ " (must be \"shell\", \"claude\", or \"zellij\")".toList
  | .zellijWithoutZellijLaunch => "zellij config is only valid with launch: zellij".toList

/-- The first `switch` of `Validate`, on the environment. -/
def validateEnvironment (p : Profile) : Option ValidateError :=
  if p.Environment = EnvironmentHost ∨ p.Environment = EnvironmentDocker then none
  else if p.Environment = [] then some .environmentRequired
  else some (.unknownEnvironment p.Environment)

/-- The second `switch` of `Validate`, on the launch mode. -/
def validateLaunch (p : Profile) : Option ValidateError :=
  if p.Launch = LaunchShell ∨ p.Launch = LaunchClaude ∨ p.Launch = LaunchZellij then none
  else if p.Launch = [] then some .launchRequired
  else some (.unknownLaunchMode p.Launch)

/-- Function `Validate` of `validate.go`: checks that a profile configuration
is semantically valid.  The result is `none` for `nil`. -/
def Validate (p : Profile) : Option ValidateError :=
  -- Validate environment
  match validateEnvironment p with
  | some e => some e
  | none =>
    -- Validate launch mode
    match validateLaunch p with
    | some e => some e
    | none =>
      -- Validate zellij config is only used with launch: zellij
      if p.Zellij ≠ none ∧ p.Launch ≠ LaunchZellij then some .zellijWithoutZellijLaunch
      else none

/-- The errors of `ValidateConfig`, one per `fmt.Errorf` of the function. -/
inductive ConfigError
  /-- Format `no profiles defined`. -/
  | noProfiles
  /-- Format `default profile %q not found in profiles`. -/
  | defaultNotFound (name : List Char)
  /-- Format `config validation errors:` followed by one line `profile %q: %v`
  for each element of `errs`. -/
  | validationErrors (errs : List (List Char × ValidateError))
  deriving DecidableEq, Repr

/-- The `range` loop of `ValidateConfig`: the profiles that `Validate`
rejects, each with its name and its error, in the order of the loop. -/
def collectErrors : List (List Char × Profile) → List (List Char × ValidateError)
  | [] => []
  | (name, p) :: rest =>
    match Validate p with
    | some err => (name, err) :: collectErrors rest
    | none => collectErrors rest

/-- Function `ValidateConfig` of `validate.go`: checks the entire config for
errors. -/
def ValidateConfig (cfg : Config) : Option ConfigError :=
  if cfg.Profiles.length = 0 then some .noProfiles
  else
    -- Check that default profile exists if specified
    if cfg.Default ≠ [] ∧ (cfg.Profiles.lookup cfg.Default).isNone then
      some (.defaultNotFound cfg.Default)
    else
      -- Validate each profile
      let errs := collectErrors cfg.Profiles
      if errs.length > 0 then some (.validationErrors errs) else none

/-- The text of a `ConfigError`, as `fmt.Errorf` formats it; `quote` is Go's
`%q`. -/
def ConfigError.message (quote : List Char → List Char) : ConfigError → List Char
  | .noProfiles => "no profiles defined".toList
  | .defaultNotFound name =>
    "default profile ".toList ++ quote name ++ " not found in profiles".toList
  | .validationErrors errs =>
    "config validation errors:\n  ".toList ++
      List.intercalate "\n  ".toList
        (errs.map fun ne => "profile ".toList ++ quote ne.1 ++ ": ".toList ++ ne.2.message quote)

/-! ## Package `pipeline` (`pipeline.go`, `context.go`) -/

/-- Type `ExecutionContext` of `context.go`: the mutable state carried through
the pipeline stages.  `μ` is the type `docker.Mount`, of a package that is not
part of the sources at hand. -/
structure ExecutionContext (μ : Type) where
  Profile : Profile
  ProfileName : List Char
  HomeDir : List Char
  OrigWorkDir : List Char
  WorkDir : List Char
  WorktreePath : List Char
  WorktreeBranch : List Char
  DockerImage : List Char
  DockerMounts : List μ
  DockerVolume : List Char

/-- Interface `Stage` of `pipeline.go`: a single step of the pipeline.  `Run`
reads and writes the state `σ` (the `ExecutionContext` and whatever else the
stage touches) and returns an error of type `ε` or `none` for `nil`. -/
structure Stage (σ ε : Type) where
  Name : List Char
  Run : σ → Option ε × σ

/-- Type `Pipeline` of `pipeline.go`: a sequence of stages. -/
structure Pipeline (σ ε : Type) where
  stages : List (Stage σ ε)

/-- Function `New` of `pipeline.go`: creates a pipeline from the given stages. -/
def New {σ ε : Type} (stages : List (Stage σ ε)) : Pipeline σ ε := ⟨stages⟩

/-- The error of `Pipeline.Execute`, format `%s: %w`: the name of the stage and
the error of its `Run`. -/
structure PipelineError (ε : Type) where
  stage : List Char
  cause : ε

/-- The text of a `PipelineError`, as `fmt.Errorf` formats it; `text` gives the
text of the error of the stage. -/
def PipelineError.message {ε : Type} (text : ε → List Char) (e : PipelineError ε) : List Char :=
  e.stage ++ ": ".toList ++ text e.cause

/-- A run of `Pipeline.Execute`: the error it returns, the state it leaves,
the positions of the stages whose `Run` was called, in the order of the calls,
and the lines written to the diagnostic stream. -/
structure PipelineRun (σ ε : Type) where
  err : Option (PipelineError ε)
  state : σ
  ran : List Nat
  stderr : List (List Char)

/-- The `range` loop of `Pipeline.Execute`; `i` is the position of the first
stage of the list in the pipeline. -/
def executeLoop {σ ε : Type} : List (Stage σ ε) → Nat → σ → PipelineRun σ ε
  | [], _, st => ⟨none, st, [], []⟩
  | s :: rest, i, st =>
    let line := "[".toList ++ s.Name ++ "]\n".toList
    match s.Run st with
    | (some err, st1) => ⟨some ⟨s.Name, err⟩, st1, [i], [line]⟩
    | (none, st1) =>
      let run := executeLoop rest (i + 1) st1
      ⟨run.err, run.state, i :: run.ran, line :: run.stderr⟩

/-- Method `Execute` of `pipeline.go`: runs all stages in sequence. -/
def Pipeline.Execute {σ ε : Type} (p : Pipeline σ ε) (ec : σ) : PipelineRun σ ε :=
  executeLoop p.stages 0 ec

/-! ## Packages `stage` and `launcher` (`launch.go`, `shell.go`, `claude.go`) -/

/-- The three stage types of package `stage`: `WorktreeStage`, `DockerStage`,
`LaunchStage`. -/
inductive StageKind
  | worktree
  | docker
  | launch
  deriving DecidableEq, Repr

/-- The methods `Name` of the three stage types. -/
def StageKind.Name : StageKind → List Char
  | .worktree => "worktree".toList
  | .docker => "docker".toList
  | .launch => "launch".toList

/-- The three launchers of package `launcher`. -/
inductive LauncherKind
  | ShellLauncher
  | ClaudeLauncher
  | ZellijLauncher
  deriving DecidableEq, Repr

/-- The error of `defaultLauncherFactory`, format `unknown launch mode: %q`. -/
structure FactoryError where
  mode : List Char
  deriving DecidableEq, Repr

/-- Function `defaultLauncherFactory` of `launch.go`: the launcher of a launch
mode. -/
def defaultLauncherFactory (mode : List Char) : Except FactoryError LauncherKind :=
  if mode = LaunchShell then .ok .ShellLauncher
  else if mode = LaunchClaude then .ok .ClaudeLauncher
  else if mode = LaunchZellij then .ok .ZellijLauncher
  else .error ⟨mode⟩

/-- The errors of the methods `Launch`:
* `unsupportedEnvironment`: format `unsupported environment: %q`, the
  `default` branch of the `switch`;
* `failed cause`: the error of the launch that the `switch` selects. -/
inductive LaunchError
  | unsupportedEnvironment (environment : List Char)
  | failed (cause : List Char)
  deriving DecidableEq, Repr

/-- What the launches that a `switch` of `Launch` selects return, for a host
and for a docker environment: they start processes, outside this model. -/
structure LaunchOutcomes (μ : Type) where
  host : ExecutionContext μ → Option (List Char)
  docker : ExecutionContext μ → Option (List Char)

/-- The `switch` on `ec.Profile.Environment` that the methods `Launch` of
`ShellLauncher` and of `ClaudeLauncher` share. -/
def launchDispatch {μ : Type} (out : LaunchOutcomes μ) (ec : ExecutionContext μ) :
    Option LaunchError :=
  if ec.Profile.Environment = EnvironmentHost then (out.host ec).map .failed
  else if ec.Profile.Environment = EnvironmentDocker then (out.docker ec).map .failed
  else some (.unsupportedEnvironment ec.Profile.Environment)

/-- Method `Launch` of `ShellLauncher` (`shell.go`); `out` gives the results of
`launchHostShell` and `launchDockerShell`. -/
def ShellLauncher.Launch {μ : Type} (out : LaunchOutcomes μ) (ec : ExecutionContext μ) :
    Option LaunchError :=
  launchDispatch out ec

/-- Method `Launch` of `ClaudeLauncher` (`claude.go`); `out` gives the results
of `launchHostClaude` and `launchDockerClaude`. -/
def ClaudeLauncher.Launch {μ : Type} (out : LaunchOutcomes μ) (ec : ExecutionContext μ) :
    Option LaunchError :=
  launchDispatch out ec

/-! ## Package `cmd` (`root.go`) -/

/-- Function `buildStages` of `root.go`: creates the pipeline stages based on
the profile configuration. -/
def buildStages (p : Profile) : List StageKind :=
  let stages : List StageKind := []
  -- Stage 1: Worktree (conditional)
  let stages := if p.Worktree ≠ none then stages ++ [.worktree] else stages
  -- Stage 2: Docker setup (conditional)
  let stages := if p.Environment = EnvironmentDocker then stages ++ [.docker] else stages
  -- Stage 3: Launch (always)
  let stages := stages ++ [.launch]
  stages

/-- Function `hasVersionFlag` of `root.go`: checks if the args contain
--version or -v. -/
def hasVersionFlag : List (List Char) → Bool
  | [] => false
  | a :: rest => if a = "--version".toList ∨ a = "-v".toList then true else hasVersionFlag rest

/-- What `update.Run` reads from the process: `http.DefaultClient`,
`runtime.GOOS`, `runtime.GOARCH`, and the operating system. -/
structure RunEnv where
  DefaultClient : HTTPClient
  GOOS : List Char
  GOARCH : List Char
  os : OsEnv

/-- Function `Run` of `update.go`: the package-level entry point called from
`cmd.Run()`.  `ExecPath` is left empty and `Stderr` is `os.Stderr`. -/
def Run (env : RunEnv) (currentVersion : List Char) (w : World) : Option ExecuteError × World :=
  Execute env.os ⟨env.DefaultClient, currentVersion, env.GOOS, env.GOARCH, []⟩ w

/-- What a run of the command can change: the world of the updater, whose
diagnostic stream is `os.Stderr`, and the lines written to standard output. -/
structure CmdWorld where
  world : World
  stdout : List (List Char)

/-- What `cmd.Run` reads besides its arguments: the constant
`version.Version` (of a package that is not part of the sources at hand), the
environment of `update.Run`, and the text `err.Error()` of an error of the
updater, which `%v` prints. -/
structure CmdEnv where
  Version : List Char
  run : RunEnv
  errorText : ExecuteError → List Char

/-- Function `Run` of `root.go`: the top-level entry point; returns an exit
code.  The lines of the function after the `update` branch, which load the
configuration, select and validate a profile and run the pipeline, are the
argument `profilePath`. -/
def Cmd.Run (env : CmdEnv) (profilePath : List (List Char) → CmdWorld → Nat × CmdWorld)
    (args : List (List Char)) (w : CmdWorld) : Nat × CmdWorld :=
  if hasVersionFlag args then
    (0, ⟨w.world, w.stdout ++ ["aw ".toList ++ env.Version ++ "\n".toList]⟩)
  else if args.head? = some "update".toList then
    match Update.Run env.run env.Version w.world with
    | (some err, world) =>
      (1, ⟨world.print ("Error: ".toList ++ env.errorText err ++ "\n".toList), w.stdout⟩)
    | (none, world) => (0, ⟨world, w.stdout⟩)
  else profilePath args w

/-! ## Package `worktree` (`name.go`) -/

/-- Constant `maxWordLen` of `name.go`. -/
def maxWordLen : Nat := 6

/-- Constant `wordCount` of `name.go`. -/
def wordCount : Nat := 3

/-- Go's `unicode.IsSpace`: the white space characters of Unicode. -/
def isSpace (c : Char) : Bool :=
  let n := c.toNat
  (9 ≤ n && n ≤ 13) || n = 0x20 || n = 0x85 || n = 0xA0 || n = 0x1680 ||
    (0x2000 ≤ n && n ≤ 0x200A) || n = 0x2028 || n = 0x2029 || n = 0x202F || n = 0x205F ||
    n = 0x3000

/-- Go's `strings.TrimSpace`: the string without its leading and trailing
white space. -/
def TrimSpace (s : List Char) : List Char :=
  ((s.dropWhile isSpace).reverse.dropWhile isSpace).reverse

/-- Go's `len` of a string: the number of bytes of its UTF-8 encoding. -/
def byteLen (s : List Char) : Nat := (s.map Char.utf8Size).sum

/-- The file `/usr/share/dict/words`, as `os.Open` and `bufio.Scanner` deliver
it: the error of `os.Open` if it fails, the lines `scanner.Scan` yields, and
the error `scanner.Err()` reports after them, if any. -/
structure Dictionary where
  openErr : Option (List Char)
  lines : List (List Char)
  scanErr : Option (List Char)

/-- The errors of `GenerateName`, one per `fmt.Errorf` of the function. -/
inductive NameError
  /-- Format `opening dictionary %s: %w`. -/
  | opening (cause : List Char)
  /-- Format `reading dictionary: %w`. -/
  | reading (cause : List Char)
  /-- Format `not enough words in dictionary (found %d, need %d)`. -/
  | notEnoughWords (found : Nat)
  deriving DecidableEq, Repr

/-- The `for scanner.Scan()` loop of `GenerateName`: the trimmed lines of 1 to
`maxWordLen` bytes, lower-cased; `toLower` is `unicode.ToLower`, which
`strings.ToLower` applies to each character. -/
def scanWords (toLower : Char → Char) : List (List Char) → List (List Char)
  | [] => []
  | line :: rest =>
    let w := TrimSpace line
    if byteLen w > 0 ∧ byteLen w ≤ maxWordLen then w.map toLower :: scanWords toLower rest
    else scanWords toLower rest

/-- The `for i := 0; i < wordCount; i++` loop of `GenerateName`: `count` words
are still to be picked and `i` is the number of the next call of `rand.Intn`,
which returns `draws i` reduced below `len(words)`. -/
def pickWords (words : List (List Char)) (draws : Nat → Nat) : Nat → Nat → List (List Char)
  | 0, _ => []
  | count + 1, i => words.getD (draws i % words.length) [] :: pickWords words draws count (i + 1)

/-- Function `GenerateName` of `name.go`: creates a random branch name by
picking 3 short words from the system dictionary, joined by hyphens. -/
def GenerateName (dict : Dictionary) (toLower : Char → Char) (draws : Nat → Nat) :
    Except NameError (List Char) :=
  match dict.openErr with
  | some e => .error (.opening e)
  | none =>
    let words := scanWords toLower dict.lines
    match dict.scanErr with
    | some e => .error (.reading e)
    | none =>
      if words.length < wordCount then .error (.notEnoughWords words.length)
      else
        let picked := pickWords words draws wordCount 0
        .ok (List.intercalate "-".toList picked)

/-! ## Example filesystems -/

/-- An operating system on which every call succeeds and `nextRandom` draws 123. -/
def noFaults : FsFaults := ⟨fun _ => 123, none, none, none, none, none, none⟩

/-- An operating system on which `Write` fails after one byte and every other
call succeeds. -/
def writeFailFaults : FsFaults :=
  ⟨fun _ => 123, none, some (1, "no space left on device".toList), none, none, none, none⟩

/-- An operating system whose disk is full and then read-only: `Write` fails
after one byte and `os.Remove` fails. -/
def diskFullFaults : FsFaults :=
  ⟨fun _ => 123, none, some (1, "no space left on device".toList), none, none, none,
    some "read-only file system".toList⟩

/-- A filesystem whose one file is the installed executable "/opt/bin/aw". -/
def installedFS : FS := fsPut (fun _ => none) "/opt/bin/aw".toList ⟨[1, 2], 0o755⟩

/-! ## Example transports and worlds, after the tests of the package -/

/-- A body that holds the JSON value `v`. -/
def jsonBody (v : Json) : Body :=
  ⟨[], none, .ok v, .notGzip "gzip: invalid header".toList⟩

/-- A body that holds the archive `a`. -/
def archiveBody (a : ArchiveData) : Body :=
  ⟨[], none, .error "invalid character".toList, a⟩

/-- The body `not json` of `TestFetchLatestRelease_BadJSON`. -/
def notJsonBody : Body :=
  ⟨"not json".toList, none,
    .error "invalid character 'o' in literal null (expecting 'u')".toList,
    .notGzip "gzip: invalid header".toList⟩

/-- The body of `TestFetchLatestRelease`: tag "v0.2.0" and two assets. -/
def twoAssetsJson : Json :=
  .obj [("tag_name".toList, .str "v0.2.0".toList),
    ("assets".toList, .arr [
      .obj [("name".toList, .str "aw_darwin_arm64.tar.gz".toList),
        ("browser_download_url".toList, .str "https://example.com/darwin_arm64.tar.gz".toList)],
      .obj [("name".toList, .str "aw_linux_amd64.tar.gz".toList),
        ("browser_download_url".toList, .str "https://example.com/linux_amd64.tar.gz".toList)]])]

/-- A body with the key "assets" twice: first one asset with name "a" and
download URL "u", then one asset with the name "b" alone. -/
def repeatedAssetsJson : Json :=
  .obj [("assets".toList, .arr [
      .obj [("name".toList, .str "a".toList), ("browser_download_url".toList, .str "u".toList)]]),
    ("assets".toList, .arr [.obj [("name".toList, .str "b".toList)]])]

/-- A body with extra keys, a key in capitals, the assets before the tag, an
asset without download URL and a `null` asset. -/
def looseReleaseJson : Json :=
  .obj [("id".toList, .num "42".toList),
    ("assets".toList, .arr [
      .obj [("size".toList, .num "7".toList), ("name".toList, .str "aw_linux_amd64.tar.gz".toList)],
      .null]),
    ("TAG_NAME".toList, .str "v0.3.0".toList)]

/-- The body of `TestFetchLatestRelease_HTTPError`, the JSON object with the
one member "message": "Not Found". -/
def notFoundBody : Body :=
  ⟨"\x7b\"message\":\"Not Found\"\x7d".toList, none,
    .ok (.obj [("message".toList, .str "Not Found".toList)]),
    .notGzip "gzip: invalid header".toList⟩

/-- The client of `mockHTTPClient`: the same response to every request. -/
def mockHTTPClient (status : Nat) (body : Body) : HTTPClient :=
  fun _ _ => .ok ⟨status, body⟩

/-- The metadata of `TestExecute_NewVersionAvailable`: tag "v0.2.0" and one
asset, for testOS/testArch. -/
def newVersionJson : Json :=
  .obj [("tag_name".toList, .str "v0.2.0".toList),
    ("assets".toList, .arr [
      .obj [("name".toList, .str "aw_testOS_testArch.tar.gz".toList),
        ("browser_download_url".toList,
          .str "http://127.0.0.1/download/archive.tar.gz".toList)]])]

/-- The server of `TestExecute_NewVersionAvailable`: it answers the metadata
request with `newVersionJson` and the URL of the asset with the archive of
`createTestArchive` for the bytes 7, 8, 9. -/
def newVersionClient : HTTPClient :=
  fun _ req =>
    if req.url = metadataRequest.url then .ok ⟨200, jsonBody newVersionJson⟩
    else if req.url = "http://127.0.0.1/download/archive.tar.gz".toList then
      .ok ⟨200, archiveBody (createTestArchive [7, 8, 9])⟩
    else .ok ⟨404, ⟨"404 page not found".toList, none, .error "invalid character".toList,
      .notGzip "gzip: invalid header".toList⟩⟩

/-- The server of `TestExecute_AlreadyUpToDate`: tag "v0.1.0", no assets. -/
def upToDateClient : HTTPClient :=
  mockHTTPClient 200
    (jsonBody (.obj [("tag_name".toList, .str "v0.1.0".toList), ("assets".toList, .arr [])]))

/-- The server of `TestExecute_NoMatchingAsset`: tag "v0.2.0" and one asset,
for linux/amd64. -/
def linuxOnlyClient : HTTPClient :=
  mockHTTPClient 200
    (jsonBody (.obj [("tag_name".toList, .str "v0.2.0".toList),
      ("assets".toList, .arr [
        .obj [("name".toList, .str "aw_linux_amd64.tar.gz".toList),
          ("browser_download_url".toList, .str "https://example.com/linux.tar.gz".toList)]])]))

/-- The server of `TestExecute_NetworkError`: status 500 for every request. -/
def serverErrorClient : HTTPClient :=
  mockHTTPClient 500
    ⟨"Internal Server Error\n".toList, none, .error "invalid character".toList,
      .notGzip "gzip: invalid header".toList⟩

/-- An operating system that accepts every URL, knows the running executable
as "/opt/bin/aw" and fails no filesystem call. -/
def plainOs : OsEnv :=
  ⟨fun _ => none, .ok "/opt/bin/aw".toList, fun p => .ok p, noFaults⟩

/-- A world with the installed executable "/opt/bin/aw" in which nothing has
been requested or written yet. -/
def freshWorld : World := ⟨installedFS, [], [], []⟩

/-- The server of `TestExecute_NoMatchingAsset` with the tag "vv0.2.0". -/
def doubleVClient : HTTPClient :=
  mockHTTPClient 200
    (jsonBody (.obj [("tag_name".toList, .str "vv0.2.0".toList),
      ("assets".toList, .arr [
        .obj [("name".toList, .str "aw_linux_amd64.tar.gz".toList),
          ("browser_download_url".toList, .str "https://example.com/linux.tar.gz".toList)]])]))

/-- A command environment of version "0.1.0" on windows/amd64 whose transport
answers every request with status 500; the text of an error of the updater is
left as "update failed". -/
def failingCmdEnv : CmdEnv :=
  ⟨"0.1.0".toList, ⟨serverErrorClient, "windows".toList, "amd64".toList, plainOs⟩,
    fun _ => "update failed".toList⟩

/-- A command environment of version "0.1.0" whose transport reports the
release "v0.1.0". -/
def upToDateCmdEnv : CmdEnv :=
  ⟨"0.1.0".toList, ⟨upToDateClient, "darwin".toList, "arm64".toList, plainOs⟩,
    fun _ => "update failed".toList⟩

/-- A profile path that must not run: it returns exit code 7. -/
def noProfilePath : List (List Char) → CmdWorld → Nat × CmdWorld :=
  fun _ w => (7, w)

/-- The configuration of `TestValidateConfig` with one valid and one invalid
profile, and a second invalid profile. -/
def mixedConfig : Config :=
  ⟨[], [("good".toList, ⟨none, "host".toList, "shell".toList, none⟩),
    ("bad".toList, ⟨none, [], "shell".toList, none⟩),
    ("worse".toList, ⟨none, "host".toList, "vim".toList, none⟩)]⟩

/-- The stages of `TestPipeline_Execute_StopsOnError`: each stage appends its
name to the list of the executed stages; "stage-2" fails with "boom". -/
def mockStages : List (Stage (List (List Char)) (List Char)) :=
  [⟨"stage-1".toList, fun executed => (none, executed ++ ["stage-1".toList])⟩,
    ⟨"stage-2".toList, fun executed => (some "boom".toList, executed ++ ["stage-2".toList])⟩,
    ⟨"stage-3".toList, fun executed => (none, executed ++ ["stage-3".toList])⟩]

/-- The stages of `TestPipeline_Execute_Success`: two stages that succeed. -/
def mockStagesOk : List (Stage (List (List Char)) (List Char)) :=
  [⟨"stage-1".toList, fun executed => (none, executed ++ ["stage-1".toList])⟩,
    ⟨"stage-2".toList, fun executed => (none, executed ++ ["stage-2".toList])⟩]

/-- Lower-casing of ASCII letters, the part of `unicode.ToLower` on ASCII. -/
def asciiToLower (c : Char) : Char :=
  if 'A' ≤ c ∧ c ≤ 'Z' then Char.ofNat (c.toNat + 32) else c

/-- Lower-casing of ASCII letters and of the letter U+023A (capital A with
stroke, 2 bytes in UTF-8), which `unicode.ToLower` maps to U+2C65 (3 bytes). -/
def strokeToLower (c : Char) : Char :=
  if c = Char.ofNat 0x23A then Char.ofNat 0x2C65 else asciiToLower c

/-- A dictionary of three lines, the first with a hyphen. -/
def hyphenDictionary : Dictionary := ⟨none, ["a-b".toList, "c".toList, "d".toList], none⟩

/-- A dictionary of three lines, the first being three times U+023A (6 bytes). -/
def strokeDictionary : Dictionary :=
  ⟨none, [[Char.ofNat 0x23A, Char.ofNat 0x23A, Char.ofNat 0x23A], "c".toList, "d".toList], none⟩

/-- A dictionary as `/usr/share/dict/words` has it: proper names, a word with
trailing white space, a long word, an empty line. -/
def sampleDictionary : Dictionary :=
  ⟨none, ["Aaron".toList, "abandonment".toList, "apple ".toList, [], "Zebra".toList,
    "kiwi".toList], none⟩

/-! ## Notions of the specification, used to state the properties -/

/-- The strict order on version triples in the specification's words: compare
major, then minor, then patch. -/
def tripleGreater (l c : Int × Int × Int) : Prop :=
  l.1 > c.1 ∨ (l.1 = c.1 ∧ (l.2.1 > c.2.1 ∨ (l.2.1 = c.2.1 ∧ l.2.2 > c.2.2)))

instance instDecidableTripleGreater (l c : Int × Int × Int) : Decidable (tripleGreater l c) := by
  unfold tripleGreater; infer_instance

/-- A decimal digit. -/
def isDecimalDigit (c : Char) : Bool := decide ('0' ≤ c) && decide (c ≤ '9')

/-- One or more decimal digits. -/
def isDigitString (s : List Char) : Bool := !s.isEmpty && s.all isDecimalDigit

/-- An integer written in decimal: an optional sign `+` or `-`, then one or
more decimal digits. -/
def isDecimalInteger (seg : List Char) : Bool :=
  match seg with
  | [] => false
  | c :: cs => if c = '+' ∨ c = '-' then isDigitString cs else isDigitString seg

/-- The decimal value of a digit string read after the value `n`: each digit
multiplies what was read by ten and adds itself. -/
def decValue (n : Nat) (s : List Char) : Nat :=
  s.foldl (fun n c => n * 10 + (c.toNat - '0'.toNat)) n

/-- The version string "X.Y.Z" of three natural numbers written in decimal. -/
def versionString (x y z : Nat) : List Char :=
  Nat.toDigits 10 x ++ '.' :: (Nat.toDigits 10 y ++ '.' :: Nat.toDigits 10 z)

/-- A string of the form "X.Y.Z", each of X, Y, Z one or more decimal digits. -/
def isPlainVersion (s : List Char) : Bool :=
  match splitOnByte '.' s with
  | [x, y, z] => isDigitString x && isDigitString y && isDigitString z
  | _ => false

/-- The JSON object of an asset, with the keys of the GitHub API. -/
def assetJson (a : Asset) : Json :=
  .obj [("name".toList, .str a.Name), ("browser_download_url".toList, .str a.BrowserDownloadURL)]

/-- The JSON object of a release, with the keys of the GitHub API: the tag
name, then the assets in their order. -/
def releaseJson (r : ReleaseInfo) : Json :=
  .obj [("tag_name".toList, .str r.TagName), ("assets".toList, .arr (r.Assets.map assetJson))]

/-- A JSON value that a string field of a release accepts: a string, or
`null`. -/
def isStringOrNull : Json → Bool
  | .null => true
  | .str _ => true
  | _ => false

/-- The string a member of a JSON object gives for the field of tag `tag`, if
its key names that field and its value is a string. -/
def stringAt (tag : List Char) (member : List Char × Json) : Option (List Char) :=
  if keyMatches member.1 tag then
    match member.2 with
    | .str s => some s
    | _ => none
  else none

/-- The string of the last member of a JSON object whose key names the field
of tag `tag` and whose value is a string. -/
def lastStringOf (tag : List Char) : List (List Char × Json) → Option (List Char)
  | [] => none
  | member :: rest =>
    match lastStringOf tag rest with
    | some s => some s
    | none => stringAt tag member

/-- The value of the last member of a JSON object whose key names the field of
tag `tag`. -/
def lastValueOf (tag : List Char) : List (List Char × Json) → Option Json
  | [] => none
  | member :: rest =>
    match lastValueOf tag rest with
    | some v => some v
    | none => if keyMatches member.1 tag then some member.2 else none

/-- A member that an asset object may have: under the keys "name" and
"browser_download_url" a string or `null`, under any other key any value. -/
def isAssetMember (member : List Char × Json) : Bool :=
  if keyMatches member.1 "name".toList || keyMatches member.1 "browser_download_url".toList then
    isStringOrNull member.2
  else true

/-- A JSON value that stands for an asset: an object of such members, or
`null`. -/
def isAssetBody : Json → Bool
  | .null => true
  | .obj members => members.all isAssetMember
  | _ => false

/-- A JSON value that stands for the assets of a release: an array of assets,
or `null`. -/
def isAssetsBody : Json → Bool
  | .null => true
  | .arr items => items.all isAssetBody
  | _ => false

/-- A member that a release object may have: under the key "tag_name" a string
or `null`, under the key "assets" the assets, under any other key any value. -/
def isReleaseMember (member : List Char × Json) : Bool :=
  if keyMatches member.1 "tag_name".toList then isStringOrNull member.2
  else if keyMatches member.1 "assets".toList then isAssetsBody member.2
  else true

/-- A JSON value that decodes as a release: an object of such members, or
`null`. -/
def isReleaseBody : Json → Bool
  | .null => true
  | .obj members => members.all isReleaseMember
  | _ => false

/-- The tag name of a body: the last string under the key "tag_name", the
empty string when there is none. -/
def bodyTagName : Json → List Char
  | .obj members => (lastStringOf "tag_name".toList members).getD []
  | _ => []

/-- The elements of a JSON array, none for another value. -/
def arrayItems : Json → List Json
  | .arr items => items
  | _ => []

/-- The assets of a body: the elements of the array under the last key
"assets", none when there is no such key or its value is not an array. -/
def bodyAssets : Json → List Json
  | .obj members =>
    match lastValueOf "assets".toList members with
    | some v => arrayItems v
    | none => []
  | _ => []

/-- The name an element of the assets gives, if it gives one. -/
def bodyAssetName : Json → Option (List Char)
  | .obj members => lastStringOf "name".toList members
  | _ => none

/-- The download URL an element of the assets gives, if it gives one. -/
def bodyAssetURL : Json → Option (List Char)
  | .obj members => lastStringOf "browser_download_url".toList members
  | _ => none

/-- The asset `a` with the name and the download URL that `item` gives in
place of its own. -/
def mergeAsset (a : Asset) (item : Json) : Asset :=
  ⟨(bodyAssetName item).getD a.Name, (bodyAssetURL item).getD a.BrowserDownloadURL⟩

/-- The asset an element of the assets stands for: its name and its download
URL, each the empty string when the element gives none. -/
def bodyAsset (item : Json) : Asset := mergeAsset ⟨[], []⟩ item

/-- The elements `items`, each merged into the asset at its position in `mem`,
the zero asset behind the end of `mem`. -/
def mergeAssets : List Asset → List Json → List Asset
  | _, [] => []
  | mem, item :: rest => mergeAsset (mem.headD ⟨[], []⟩) item :: mergeAssets mem.tail rest

/-- The assets that the JSON value `v` under the key "assets" gives when the
backing array of the slice holds `mem`: its elements merged into `mem` when it
is an array, none otherwise. -/
def assetsFrom (mem : List Asset) : Json → List Asset
  | .arr items => mergeAssets mem items
  | _ => []

/-- The number of members of a body whose key names the field `Assets`. -/
def assetsKeyCount : Json → Nat
  | .obj members => (members.filter fun member => keyMatches member.1 "assets".toList).length
  | _ => 0

/-- The diagnostic lines of a run that has reached the download. -/
def linesAtDownload (u : Updater) (release : ReleaseInfo) (w : World) : List (List Char) :=
  w.stderr ++ ["Checking for updates...\n".toList] ++
    ["Updating aw: ".toList ++ u.CurrentVersion ++ " → ".toList
      ++ trimLeading release.TagName "v".toList ++ "\n".toList] ++
    ["Downloading for ".toList ++ u.GOOS ++ "/".toList ++ u.GOARCH ++ "...\n".toList]

/-- An entry of a tar archive, as its writer put it: the name and the type flag
of its header, and its content. -/
structure TarMember where
  name : List Char
  typeflag : Char
  content : List UInt8

/-- The `isHeaderOnlyType` of `archive/tar`: the type flags of entries without
a data section (link, symlink, character and block device, directory, fifo). -/
def isHeaderOnlyType (flag : Char) : Bool :=
  flag = '1' || flag = '2' || flag = '3' || flag = '4' || flag = '5' || flag = '6'

/-- What `io.ReadAll` reads from a `tar.Reader` at a well-formed entry: its
content, which is empty for a type without data section. -/
def TarMember.body (m : TarMember) : List UInt8 :=
  if isHeaderOnlyType m.typeflag then [] else m.content

/-- The stream `tr` behind the given well-formed entries, each of any type. -/
def TarReader.ofMembers : List TarMember → TarReader → TarReader
  | [], tr => tr
  | m :: rest, tr => .entry ⟨m.name⟩ (.ok m.body) (TarReader.ofMembers rest tr)

/-- The stream `tr` behind the given entries, each with its header and with
what reading its content gives. -/
def TarReader.behind : List (TarHeader × Except (List Char) (List UInt8)) → TarReader → TarReader
  | [], tr => tr
  | (hdr, body) :: rest, tr => .entry hdr body (TarReader.behind rest tr)

/-- An eligible line of the dictionary: without its leading and trailing white
space it has between 1 and `maxWordLen` bytes. -/
def isEligible (line : List Char) : Bool :=
  decide (0 < byteLen (TrimSpace line) ∧ byteLen (TrimSpace line) ≤ maxWordLen)

/-- The comparison `Execute` makes between the tag of the release and the
current version (`update.go`, lines 51 to 54): one leading "v" is removed
from the tag, then `isNewer` is called. -/
def executeComparison (tag current : List Char) : Bool × Option NewerError :=
  isNewer (trimLeading tag "v".toList) current

/-- The state after the first `n` stages of a list have run one after the
other from `st`. -/
def stateAfter {σ ε : Type} (stages : List (Stage σ ε)) (n : Nat) (st : σ) : σ :=
  (stages.take n).foldl (fun s stage => (stage.Run s).2) st

/-! ## Lemmas on `isNewer` -/

theorem isNewer_of_parsed {a b : List Char} {ta tb : Int × Int × Int}
    (ha : parseVersion a = .ok ta) (hb : parseVersion b = .ok tb) :
    isNewer a b = (decide (tripleGreater ta tb), none) := by
  obtain ⟨a1, a2, a3⟩ := ta
  obtain ⟨b1, b2, b3⟩ := tb
  simp only [isNewer, ha, hb, tripleGreater]
  split_ifs with h1 h2
  · simp only [Prod.mk.injEq, and_true, decide_eq_decide]
    constructor
    · intro h; exact Or.inl h
    · rintro (h | ⟨h, _⟩)
      · exact h
      · exact absurd h h1
  · simp only [Prod.mk.injEq, and_true, decide_eq_decide]
    have e1 : a1 = b1 := not_not.mp h1
    constructor
    · intro h; exact Or.inr ⟨e1, Or.inl h⟩
    · rintro (h | ⟨_, h | ⟨h, _⟩⟩)
      · omega
      · exact h
      · exact absurd h h2
  · simp only [Prod.mk.injEq, and_true, decide_eq_decide]
    have e1 : a1 = b1 := not_not.mp h1
    have e2 : a2 = b2 := not_not.mp h2
    constructor
    · intro h; exact Or.inr ⟨e1, Or.inr ⟨e2, h⟩⟩
    · rintro (h | ⟨_, h | ⟨_, h⟩⟩)
      · omega
      · omega
      · exact h

theorem isNewer_latest_error {a : List Char} (b : List Char) {e : VersionError}
    (ha : parseVersion a = .error e) :
    isNewer a b = (false, some (.parsingLatest e)) := by
  simp only [isNewer, ha]

theorem isNewer_current_error {a b : List Char} {ta : Int × Int × Int} {e : VersionError}
    (ha : parseVersion a = .ok ta) (hb : parseVersion b = .error e) :
    isNewer a b = (false, some (.parsingCurrent e)) := by
  obtain ⟨a1, a2, a3⟩ := ta
  simp only [isNewer, ha, hb]

theorem tripleGreater_irrefl (t : Int × Int × Int) : ¬ tripleGreater t t := by
  unfold tripleGreater; omega

theorem tripleGreater_asymm {s t : Int × Int × Int} :
    tripleGreater s t → ¬ tripleGreater t s := by
  unfold tripleGreater; omega

theorem tripleGreater_total {s t : Int × Int × Int} (h : s ≠ t) :
    tripleGreater s t ∨ tripleGreater t s := by
  obtain ⟨s1, s2, s3⟩ := s
  obtain ⟨t1, t2, t3⟩ := t
  have : ¬ (s1 = t1 ∧ s2 = t2 ∧ s3 = t3) := by
    rintro ⟨rfl, rfl, rfl⟩; exact h rfl
  unfold tripleGreater
  simp only
  omega

theorem tripleGreater_trans {r s t : Int × Int × Int} :
    tripleGreater r s → tripleGreater s t → tripleGreater r t := by
  unfold tripleGreater; omega

/-! ## Lemmas on the string functions -/

theorem splitOnByte_ne_nil (sep : Char) (s : List Char) : splitOnByte sep s ≠ [] := by
  induction s with
  | nil => simp [splitOnByte]
  | cons c cs ih =>
    unfold splitOnByte
    split_ifs
    · simp
    · split <;> simp

theorem splitOnByte_cons_ne {sep c : Char} (h : c ≠ sep) (cs : List Char) :
    ∃ p ps, splitOnByte sep cs = p :: ps ∧ splitOnByte sep (c :: cs) = (c :: p) :: ps := by
  cases hs : splitOnByte sep cs with
  | nil => exact absurd hs (splitOnByte_ne_nil sep cs)
  | cons p ps =>
    refine ⟨p, ps, rfl, ?_⟩
    rw [splitOnByte, if_neg h, hs]

theorem splitOnByte_no_sep {sep : Char} {a : List Char} (h : sep ∉ a) :
    splitOnByte sep a = [a] := by
  induction a with
  | nil => rfl
  | cons c cs ih =>
    have hc : c ≠ sep := fun e => h (by simp [e])
    have hcs : sep ∉ cs := fun e => h (List.mem_cons_of_mem _ e)
    rw [splitOnByte, if_neg hc, ih hcs]

theorem splitOnByte_append_sep {sep : Char} {a : List Char} (h : sep ∉ a) (rest : List Char) :
    splitOnByte sep (a ++ sep :: rest) = a :: splitOnByte sep rest := by
  induction a with
  | nil => simp [splitOnByte]
  | cons c cs ih =>
    have hc : c ≠ sep := fun e => h (by simp [e])
    have hcs : sep ∉ cs := fun e => h (List.mem_cons_of_mem _ e)
    rw [List.cons_append, splitOnByte, if_neg hc, ih hcs]

theorem trimLeading_v_cons (s : List Char) : trimLeading ('v' :: s) ['v'] = s := by
  simp [trimLeading, List.isPrefixOf]

theorem trimLeading_v_of_head_ne {c : Char} (h : c ≠ 'v') (cs : List Char) :
    trimLeading (c :: cs) ['v'] = c :: cs := by
  have : ('v' == c) = false := by
    rw [beq_eq_false_iff_ne]; exact fun e => h e.symm
  simp [trimLeading, List.isPrefixOf, this]

theorem trimLeading_v_nil : trimLeading [] ['v'] = [] := by
  simp [trimLeading, List.isPrefixOf]

theorem isDecimalDigit_iff (c : Char) : isDecimalDigit c = true ↔ ('0' ≤ c ∧ c ≤ '9') := by
  simp [isDecimalDigit]

theorem digit_ne_special {c : Char} (h : isDecimalDigit c = true) :
    c ≠ '.' ∧ c ≠ 'v' ∧ c ≠ '+' ∧ c ≠ '-' := by
  refine ⟨?_, ?_, ?_, ?_⟩ <;> rintro rfl <;> exact absurd h (by decide)

/-! ## Lemmas on `strconv` -/

theorem le_decValue (n : Nat) (s : List Char) : n ≤ decValue n s := by
  induction s generalizing n with
  | nil => simp [decValue]
  | cons c cs ih =>
    have := ih (n * 10 + (c.toNat - '0'.toNat))
    simp only [decValue, List.foldl_cons] at this ⊢
    omega

theorem parseUintLoop_digits {s : List Char} (hs : s.all isDecimalDigit = true) (n : Nat)
    (hv : decValue n s ≤ maxUint64) : parseUintLoop n s = .ok (decValue n s) := by
  induction s generalizing n with
  | nil => simp [parseUintLoop, decValue]
  | cons c cs ih =>
    simp only [List.all_cons, Bool.and_eq_true] at hs
    have hc := (isDecimalDigit_iff c).mp hs.1
    have hle := le_decValue (n * 10 + (c.toNat - '0'.toNat)) cs
    have hv2 : decValue (n * 10 + (c.toNat - '0'.toNat)) cs ≤ maxUint64 := by
      simpa [decValue] using hv
    have hmax : maxUint64 = 18446744073709551615 := by norm_num [maxUint64]
    have h2 : ¬ (n * 10 + (c.toNat - '0'.toNat) > maxUint64) := by omega
    have h1 : ¬ (n ≥ maxUint64 / 10 + 1) := by rw [hmax] at h2 ⊢; omega
    rw [parseUintLoop, if_pos hc]
    simp only [if_neg h1, if_neg h2]
    rw [ih hs.2 _ hv2]
    simp [decValue]

theorem parseUintLoop_ok_digits {s : List Char} {n v : Nat}
    (h : parseUintLoop n s = .ok v) : s.all isDecimalDigit = true ∧ v = decValue n s := by
  induction s generalizing n with
  | nil =>
    simp only [parseUintLoop, Except.ok.injEq] at h
    simp [decValue, h]
  | cons c cs ih =>
    rw [parseUintLoop] at h
    split_ifs at h with hc h1
    simp only at h
    split_ifs at h with h2
    have := ih h
    simp only [List.all_cons, Bool.and_eq_true]
    exact ⟨⟨(isDecimalDigit_iff c).mpr hc, this.1⟩, by simpa [decValue] using this.2⟩

theorem parseUint_ok {s : List Char} {v : Nat} (h : parseUint s = .ok v) :
    isDigitString s = true ∧ v = decValue 0 s := by
  cases s with
  | nil => simp [parseUint] at h
  | cons c cs =>
    have := parseUintLoop_ok_digits (s := c :: cs) (n := 0) h
    refine ⟨?_, this.2⟩
    simp only [isDigitString, List.isEmpty_cons, Bool.not_false, Bool.true_and]
    exact this.1

theorem parseIntSigned_ok {neg : Bool} {s : List Char} {v : Int}
    (h : parseIntSigned neg s = .ok v) :
    isDigitString s = true ∧ (neg = false → 0 ≤ v) ∧ (neg = true → v ≤ 0) ∧
      -(2 : Int) ^ 63 ≤ v ∧ v < (2 : Int) ^ 63 := by
  unfold parseIntSigned at h
  split at h
  · simp at h
  · simp at h
  · rename_i un hu
    refine ⟨(parseUint_ok hu).1, ?_⟩
    simp only [intSize] at h
    cases neg with
    | false =>
      simp only [Bool.not_false, Bool.true_and, Bool.false_and, Bool.false_eq_true,
        if_false, decide_eq_true_eq] at h
      split_ifs at h with h1
      simp only [Except.ok.injEq] at h
      subst h
      refine ⟨fun _ => by omega, fun e => by simp at e, by omega, ?_⟩
      have : un < 2 ^ 63 := by omega
      exact_mod_cast this
    | true =>
      simp only [Bool.not_true, Bool.false_and, Bool.false_eq_true, if_false, Bool.true_and,
        decide_eq_true_eq, if_true] at h
      split_ifs at h with h1
      simp only [Except.ok.injEq] at h
      subst h
      refine ⟨fun e => by simp at e, fun _ => by omega, ?_, by omega⟩
      have : un ≤ 2 ^ 63 := by omega
      have h3 : (un : Int) ≤ 2 ^ 63 := by exact_mod_cast this
      omega

theorem parseIntSigned_digits {s : List Char} (hs : isDigitString s = true)
    (hv : decValue 0 s < 2 ^ 63) : parseIntSigned false s = .ok (decValue 0 s : Int) := by
  simp only [isDigitString, Bool.and_eq_true, Bool.not_eq_true', List.isEmpty_eq_false] at hs
  have hmax : maxUint64 = 18446744073709551615 := by norm_num [maxUint64]
  have hu : parseUint s = .ok (decValue 0 s) := by
    cases s with
    | nil => exact absurd rfl hs.1
    | cons c cs =>
      simp only [parseUint]
      exact parseUintLoop_digits hs.2 0 (by rw [hmax]; omega)
  have hc : ¬ (decValue 0 s ≥ 2 ^ (64 - 1)) := by norm_num; omega
  simp [parseIntSigned, hu, intSize, hc]
  omega

theorem atoi_digits {s : List Char} (hs : isDigitString s = true)
    (hv : decValue 0 s < 2 ^ 63) : atoi s = .ok (decValue 0 s : Int) := by
  cases s with
  | nil => simp [isDigitString] at hs
  | cons c cs =>
    have hc : isDecimalDigit c = true := by
      simp only [isDigitString, List.all_cons, Bool.and_eq_true] at hs
      exact hs.2.1
    obtain ⟨-, -, hp, hm⟩ := digit_ne_special hc
    simp only [atoi, if_neg hp, if_neg hm, parseIntSigned_digits hs hv]

theorem atoi_ok {s : List Char} {v : Int} (h : atoi s = .ok v) :
    isDecimalInteger s = true ∧ (s.head? ≠ some '-' → 0 ≤ v) ∧
      -(2 : Int) ^ 63 ≤ v ∧ v < (2 : Int) ^ 63 := by
  cases s with
  | nil => simp [atoi] at h
  | cons c cs =>
    simp only [atoi] at h
    split at h
    · rename_i w hr
      simp only [Except.ok.injEq] at h
      subst h
      split_ifs at hr with hp hm
      · have := parseIntSigned_ok hr
        exact ⟨by simp [isDecimalInteger, hp, this.1], fun _ => this.2.1 rfl, this.2.2.2⟩
      · have := parseIntSigned_ok hr
        exact ⟨by simp [isDecimalInteger, hm, this.1], fun e => absurd (by simp [hm]) e,
          this.2.2.2⟩
      · have := parseIntSigned_ok hr
        exact ⟨by simp [isDecimalInteger, hp, hm, this.1], fun _ => this.2.1 rfl, this.2.2.2⟩
    · simp at h

theorem atoi_error_of_not_decimal {s : List Char} (h : isDecimalInteger s = false) :
    ∃ e, atoi s = .error e := by
  cases hs : atoi s with
  | error e => exact ⟨e, rfl⟩
  | ok v => rw [(atoi_ok hs).1] at h; exact absurd h (by decide)

/-! ## Lemmas on decimal rendering -/

theorem digitChar_lt_ten {k : Nat} (hk : k < 10) :
    isDecimalDigit (Nat.digitChar k) = true ∧ (Nat.digitChar k).toNat - '0'.toNat = k := by
  interval_cases k <;> decide

theorem toDigitsCore_spec (fuel : Nat) : ∀ (n : Nat) (acc : List Char), n < fuel →
    acc.all isDecimalDigit = true →
    (Nat.toDigitsCore 10 fuel n acc).all isDecimalDigit = true ∧
      Nat.toDigitsCore 10 fuel n acc ≠ [] ∧
      decValue 0 (Nat.toDigitsCore 10 fuel n acc) = decValue n acc := by
  induction fuel with
  | zero => intro n acc h; omega
  | succ fuel ih =>
    intro n acc hn hacc
    have hd := digitChar_lt_ten (Nat.mod_lt n (by norm_num : 10 > 0))
    have hacc2 : (Nat.digitChar (n % 10) :: acc).all isDecimalDigit = true := by
      simp only [List.all_cons, Bool.and_eq_true]; exact ⟨hd.1, hacc⟩
    simp only [Nat.toDigitsCore]
    split_ifs with h0
    · refine ⟨hacc2, by simp, ?_⟩
      simp only [decValue, List.foldl_cons, hd.2]
      congr 1
      omega
    · have hlt : n / 10 < fuel := by omega
      obtain ⟨h1, h2, h3⟩ := ih (n / 10) (Nat.digitChar (n % 10) :: acc) hlt hacc2
      refine ⟨h1, h2, ?_⟩
      rw [h3]
      simp only [decValue, List.foldl_cons, hd.2]
      congr 1
      omega

theorem toDigits_spec (n : Nat) :
    isDigitString (Nat.toDigits 10 n) = true ∧ decValue 0 (Nat.toDigits 10 n) = n := by
  obtain ⟨h1, h2, h3⟩ := toDigitsCore_spec (n + 1) n [] (by omega) (by simp)
  refine ⟨?_, by simpa [Nat.toDigits, decValue] using h3⟩
  simp only [isDigitString, Bool.and_eq_true, Bool.not_eq_true', List.isEmpty_eq_false]
  exact ⟨h2, h1⟩

theorem no_dot_of_digits {s : List Char} (h : s.all isDecimalDigit = true) : '.' ∉ s := by
  intro hm
  rw [List.all_eq_true] at h
  exact (digit_ne_special (h _ hm)).1 rfl

/-! ## Lemmas on `parseVersion` -/

theorem parseVersion_congr {s t : List Char}
    (h : trimLeading s ['v'] = trimLeading t ['v']) : parseVersion s = parseVersion t := by
  simp only [parseVersion, h]

theorem parseVersion_of_parts {s p0 p1 p2 : List Char} {a b c : Int}
    (hs : splitOnByte '.' (trimLeading s ['v']) = [p0, p1, p2])
    (h0 : atoi p0 = .ok a) (h1 : atoi p1 = .ok b) (h2 : atoi p2 = .ok c) :
    parseVersion s = .ok (a, b, c) := by
  simp only [parseVersion, hs, h0, h1, h2]

theorem parseVersion_ok_parts {s : List Char} {a b c : Int}
    (h : parseVersion s = .ok (a, b, c)) :
    ∃ p0 p1 p2, splitOnByte '.' (trimLeading s ['v']) = [p0, p1, p2] ∧
      atoi p0 = .ok a ∧ atoi p1 = .ok b ∧ atoi p2 = .ok c := by
  simp only [parseVersion] at h
  split at h
  · rename_i p0 p1 p2 hs
    refine ⟨p0, p1, p2, hs, ?_⟩
    cases h0 : atoi p0 with
    | error e => simp [h0] at h
    | ok v0 =>
      cases h1 : atoi p1 with
      | error e => simp [h0, h1] at h
      | ok v1 =>
        cases h2 : atoi p2 with
        | error e => simp [h0, h1, h2] at h
        | ok v2 =>
          simp only [h0, h1, h2, Except.ok.injEq, Prod.mk.injEq] at h
          obtain ⟨rfl, rfl, rfl⟩ := h
          exact ⟨rfl, rfl, rfl⟩
  · simp at h

theorem parseVersion_digit_strings {x y z : List Char}
    (hx : isDigitString x = true) (hy : isDigitString y = true) (hz : isDigitString z = true)
    (vx : decValue 0 x < 2 ^ 63) (vy : decValue 0 y < 2 ^ 63) (vz : decValue 0 z < 2 ^ 63) :
    parseVersion (x ++ '.' :: (y ++ '.' :: z))
        = .ok ((decValue 0 x : Int), (decValue 0 y : Int), (decValue 0 z : Int)) ∧
      parseVersion ('v' :: (x ++ '.' :: (y ++ '.' :: z)))
        = .ok ((decValue 0 x : Int), (decValue 0 y : Int), (decValue 0 z : Int)) := by
  have dx : x.all isDecimalDigit = true := by
    simp only [isDigitString, Bool.and_eq_true] at hx; exact hx.2
  have dy : y.all isDecimalDigit = true := by
    simp only [isDigitString, Bool.and_eq_true] at hy; exact hy.2
  have dz : z.all isDecimalDigit = true := by
    simp only [isDigitString, Bool.and_eq_true] at hz; exact hz.2
  have hsplit : splitOnByte '.' (x ++ '.' :: (y ++ '.' :: z)) = [x, y, z] := by
    rw [splitOnByte_append_sep (no_dot_of_digits dx), splitOnByte_append_sep (no_dot_of_digits dy),
      splitOnByte_no_sep (no_dot_of_digits dz)]
  have htrim : trimLeading (x ++ '.' :: (y ++ '.' :: z)) ['v'] = x ++ '.' :: (y ++ '.' :: z) := by
    cases x with
    | nil => simp [isDigitString] at hx
    | cons c cs =>
      simp only [List.all_cons, Bool.and_eq_true] at dx
      exact trimLeading_v_of_head_ne (digit_ne_special dx.1).2.1 _
  have hplain := parseVersion_of_parts (s := x ++ '.' :: (y ++ '.' :: z))
    (by rw [htrim]; exact hsplit) (atoi_digits hx vx) (atoi_digits hy vy) (atoi_digits hz vz)
  refine ⟨hplain, ?_⟩
  rw [← hplain]
  exact parseVersion_congr (by rw [trimLeading_v_cons, htrim])

theorem plain_head_ne_v {a : List Char} (h : isPlainVersion a = true) :
    ∃ c cs, a = c :: cs ∧ c ≠ 'v' := by
  cases a with
  | nil => simp [isPlainVersion, splitOnByte] at h
  | cons c cs =>
    refine ⟨c, cs, rfl, ?_⟩
    by_cases hc : c = '.'
    · subst hc; decide
    · obtain ⟨p, ps, -, h2⟩ := splitOnByte_cons_ne hc cs
      simp only [isPlainVersion, h2] at h
      split at h
      · rename_i x y z heq
        simp only [List.cons.injEq] at heq
        obtain ⟨rfl, -⟩ := heq
        simp only [isDigitString, List.all_cons, Bool.and_eq_true] at h
        exact (digit_ne_special h.1.1.2.1).2.1
      · exact absurd h (by decide)

theorem parseVersion_v_plain {a : List Char} (h : isPlainVersion a = true) :
    parseVersion ("v".toList ++ a) = parseVersion a := by
  obtain ⟨c, cs, rfl, hc⟩ := plain_head_ne_v h
  apply parseVersion_congr
  show trimLeading ('v' :: c :: cs) ['v'] = _
  rw [trimLeading_v_cons, trimLeading_v_of_head_ne hc]

theorem isNewer_congr {a a2 b b2 : List Char} (ha : parseVersion a2 = parseVersion a)
    (hb : parseVersion b2 = parseVersion b) : isNewer a2 b2 = isNewer a b := by
  simp only [isNewer, ha, hb]

/-! ## The version comparator -/

/-- C1: `isNewer latest current` returns an error exactly when `parseVersion`
fails on `latest` or on `current`; the error is the one of `latest` when that
fails, whatever `current` is, and the boolean next to an error is false.  When
both parse, there is no error and the boolean is true exactly when the triple
of `latest` is strictly greater than the triple of `current`, comparing major,
then minor, then patch. -/
theorem isNewer_spec (latest current : List Char) :
    ((isNewer latest current).2 ≠ none ↔
        ((∃ e, parseVersion latest = .error e) ∨ (∃ e, parseVersion current = .error e))) ∧
      ((isNewer latest current).2 ≠ none → (isNewer latest current).1 = false) ∧
      (∀ e, parseVersion latest = .error e →
        isNewer latest current = (false, some (.parsingLatest e))) ∧
      (∀ l e, parseVersion latest = .ok l → parseVersion current = .error e →
        isNewer latest current = (false, some (.parsingCurrent e))) ∧
      (∀ l c, parseVersion latest = .ok l → parseVersion current = .ok c →
        (isNewer latest current).2 = none ∧
          ((isNewer latest current).1 = true ↔ tripleGreater l c)) := by
  have hL : ∀ e, parseVersion latest = .error e →
      isNewer latest current = (false, some (.parsingLatest e)) :=
    fun e h => isNewer_latest_error current h
  have hC : ∀ l e, parseVersion latest = .ok l → parseVersion current = .error e →
      isNewer latest current = (false, some (.parsingCurrent e)) :=
    fun l e h1 h2 => isNewer_current_error h1 h2
  have hB : ∀ l c, parseVersion latest = .ok l → parseVersion current = .ok c →
      (isNewer latest current).2 = none ∧
        ((isNewer latest current).1 = true ↔ tripleGreater l c) := by
    intro l c h1 h2
    rw [isNewer_of_parsed h1 h2]
    simp
  refine ⟨?_, ?_, hL, hC, hB⟩
  · cases h1 : parseVersion latest with
    | error e => simp [hL e h1]
    | ok l =>
      cases h2 : parseVersion current with
      | error e => simp [hC l e h1 h2]
      | ok c => simp [(hB l c h1 h2).1]
  · cases h1 : parseVersion latest with
    | error e => simp [hL e h1]
    | ok l =>
      cases h2 : parseVersion current with
      | error e => simp [hC l e h1 h2]
      | ok c => simp [(hB l c h1 h2).1]

/-- C1, at the inputs of `TestIsNewer`: the four results, and the comparison
of the parsed triples for "2.0.0" against "1.0.0". -/
theorem isNewer_spec_witness :
    isNewer "2.0.0".toList "1.0.0".toList = (true, none) ∧
      isNewer "0.1.1".toList "0.1.0".toList = (true, none) ∧
      isNewer "0.1.0".toList "0.1.0".toList = (false, none) ∧
      isNewer "0.1.0".toList "0.1.1".toList = (false, none) ∧
      ((isNewer "2.0.0".toList "1.0.0".toList).1 = true ↔ tripleGreater (2, 0, 0) (1, 0, 0)) ∧
      isNewer "x".toList "y".toList
        = (false, some (.parsingLatest (.invalidFormat "x".toList))) :=
  ⟨by decide, by decide, by decide, by decide,
    ((isNewer_spec "2.0.0".toList "1.0.0".toList).2.2.2.2 (2, 0, 0) (1, 0, 0)
      (by decide) (by decide)).2,
    (isNewer_spec "x".toList "y".toList).2.2.1 _ (by decide)⟩

/-- C2, as stated, fails: 9223372036854775808 (2^63) is a non-negative integer
written in decimal, and `parseVersion` rejects "9223372036854775808.0.0", with
or without the leading "v", because the major segment does not fit the `int`. -/
theorem parseVersion_rejects_large :
    versionString (2 ^ 63) 0 0 = "9223372036854775808.0.0".toList ∧
      parseVersion (versionString (2 ^ 63) 0 0)
        = .error (.invalidMajor "9223372036854775808".toList
            ⟨"9223372036854775808".toList, .outOfRange⟩) ∧
      parseVersion ("v".toList ++ versionString (2 ^ 63) 0 0)
        = .error (.invalidMajor "9223372036854775808".toList
            ⟨"9223372036854775808".toList, .outOfRange⟩) := by
  decide

/-- C2, amended: for all natural numbers X, Y, Z below 2^63 written in decimal,
`parseVersion` succeeds on "X.Y.Z" and on "vX.Y.Z" and yields the triple
(X, Y, Z) for both. -/
theorem parseVersion_v_invariant (x y z : Nat)
    (hx : x < 2 ^ 63) (hy : y < 2 ^ 63) (hz : z < 2 ^ 63) :
    parseVersion (versionString x y z) = .ok ((x : Int), (y : Int), (z : Int)) ∧
      parseVersion ("v".toList ++ versionString x y z)
        = .ok ((x : Int), (y : Int), (z : Int)) := by
  obtain ⟨dx, vx⟩ := toDigits_spec x
  obtain ⟨dy, vy⟩ := toDigits_spec y
  obtain ⟨dz, vz⟩ := toDigits_spec z
  have := parseVersion_digit_strings dx dy dz (by rw [vx]; exact hx) (by rw [vy]; exact hy)
    (by rw [vz]; exact hz)
  rw [vx, vy, vz] at this
  exact this

/-- C2, amended, at the inputs of `TestParseVersion`: "0.1.0" and "v0.1.0" give
(0, 1, 0), "v10.20.30" gives (10, 20, 30). -/
theorem parseVersion_v_invariant_witness :
    ((0 : Nat) < 2 ^ 63 ∧ (1 : Nat) < 2 ^ 63 ∧ (10 : Nat) < 2 ^ 63 ∧ (20 : Nat) < 2 ^ 63 ∧
        (30 : Nat) < 2 ^ 63) ∧
      versionString 0 1 0 = "0.1.0".toList ∧
      versionString 10 20 30 = "10.20.30".toList ∧
      (parseVersion (versionString 0 1 0) = .ok (0, 1, 0) ∧
        parseVersion ("v".toList ++ versionString 0 1 0) = .ok (0, 1, 0)) ∧
      (parseVersion (versionString 10 20 30) = .ok (10, 20, 30) ∧
        parseVersion ("v".toList ++ versionString 10 20 30) = .ok (10, 20, 30)) :=
  ⟨by decide, by decide, by decide,
    parseVersion_v_invariant 0 1 0 (by decide) (by decide) (by decide),
    parseVersion_v_invariant 10 20 30 (by decide) (by decide) (by decide)⟩

/-- C3: `parseVersion` fails for every input that, after one optional leading
"v" is removed, does not split on "." into exactly three segments, and for
every input that has a segment which is not a decimal integer. -/
theorem parseVersion_rejects_malformed (s : List Char)
    (h : (splitOnByte '.' (trimLeading s ['v'])).length ≠ 3 ∨
      ∃ seg ∈ splitOnByte '.' (trimLeading s ['v']), isDecimalInteger seg = false) :
    ∃ e, parseVersion s = .error e := by
  cases hp : parseVersion s with
  | error e => exact ⟨e, rfl⟩
  | ok t =>
    exfalso
    obtain ⟨a, b, c⟩ := t
    obtain ⟨p0, p1, p2, hs, h0, h1, h2⟩ := parseVersion_ok_parts hp
    rw [hs] at h
    rcases h with h | ⟨seg, hm, hseg⟩
    · exact h rfl
    · simp only [List.mem_cons, List.mem_singleton, List.not_mem_nil, or_false] at hm
      rcases hm with rfl | rfl | rfl
      · rw [(atoi_ok h0).1] at hseg; exact absurd hseg (by decide)
      · rw [(atoi_ok h1).1] at hseg; exact absurd hseg (by decide)
      · rw [(atoi_ok h2).1] at hseg; exact absurd hseg (by decide)

/-- C3, at the inputs of `TestParseVersion_Invalid` and at "vv1.2.3": each one
has a wrong number of segments or a segment that is not a decimal integer, and
`parseVersion` fails on it. -/
theorem parseVersion_rejects_malformed_witness :
    ((splitOnByte '.' (trimLeading "".toList ['v'])).length ≠ 3 ∧
        ∃ e, parseVersion "".toList = .error e) ∧
      ((splitOnByte '.' (trimLeading "1".toList ['v'])).length ≠ 3 ∧
        ∃ e, parseVersion "1".toList = .error e) ∧
      ((splitOnByte '.' (trimLeading "1.2".toList ['v'])).length ≠ 3 ∧
        ∃ e, parseVersion "1.2".toList = .error e) ∧
      ((splitOnByte '.' (trimLeading "1.2.3.4".toList ['v'])).length ≠ 3 ∧
        ∃ e, parseVersion "1.2.3.4".toList = .error e) ∧
      ((∃ seg ∈ splitOnByte '.' (trimLeading "a.b.c".toList ['v']),
          isDecimalInteger seg = false) ∧
        ∃ e, parseVersion "a.b.c".toList = .error e) ∧
      ((∃ seg ∈ splitOnByte '.' (trimLeading "1.2.x".toList ['v']),
          isDecimalInteger seg = false) ∧
        ∃ e, parseVersion "1.2.x".toList = .error e) ∧
      ((∃ seg ∈ splitOnByte '.' (trimLeading "vv1.2.3".toList ['v']),
          isDecimalInteger seg = false) ∧
        ∃ e, parseVersion "vv1.2.3".toList = .error e) :=
  ⟨⟨by decide, parseVersion_rejects_malformed _ (Or.inl (by decide))⟩,
    ⟨by decide, parseVersion_rejects_malformed _ (Or.inl (by decide))⟩,
    ⟨by decide, parseVersion_rejects_malformed _ (Or.inl (by decide))⟩,
    ⟨by decide, parseVersion_rejects_malformed _ (Or.inl (by decide))⟩,
    ⟨by decide, parseVersion_rejects_malformed _ (Or.inr (by decide))⟩,
    ⟨by decide, parseVersion_rejects_malformed _ (Or.inr (by decide))⟩,
    ⟨by decide, parseVersion_rejects_malformed _ (Or.inr (by decide))⟩⟩

/-- C4, as stated, fails: `parseVersion` accepts "-1.2.3", a version whose
major segment carries a sign, and returns the triple (-1, 2, 3), whose major
component is negative. -/
theorem parseVersion_accepts_negative :
    parseVersion "-1.2.3".toList = .ok (-1, 2, 3) ∧ ((-1 : Int) < 0) := by
  decide

/-- C4, amended: `parseVersion` succeeds only when the input, after one optional
leading "v" is removed, splits into exactly three segments, each a decimal
integer with an optional sign `+` or `-` whose value fits the 64-bit `int`; a
returned component is non-negative whenever its segment does not begin with
"-". -/
theorem parseVersion_ok_segments (s : List Char) (major minor patch : Int)
    (h : parseVersion s = .ok (major, minor, patch)) :
    ∃ p0 p1 p2, splitOnByte '.' (trimLeading s ['v']) = [p0, p1, p2] ∧
      (isDecimalInteger p0 = true ∧ isDecimalInteger p1 = true ∧
        isDecimalInteger p2 = true) ∧
      ((p0.head? ≠ some '-' → 0 ≤ major) ∧ (p1.head? ≠ some '-' → 0 ≤ minor) ∧
        (p2.head? ≠ some '-' → 0 ≤ patch)) ∧
      ((-(2 : Int) ^ 63 ≤ major ∧ major < (2 : Int) ^ 63) ∧
        (-(2 : Int) ^ 63 ≤ minor ∧ minor < (2 : Int) ^ 63) ∧
        (-(2 : Int) ^ 63 ≤ patch ∧ patch < (2 : Int) ^ 63)) := by
  obtain ⟨p0, p1, p2, hs, h0, h1, h2⟩ := parseVersion_ok_parts h
  have a0 := atoi_ok h0
  have a1 := atoi_ok h1
  have a2 := atoi_ok h2
  exact ⟨p0, p1, p2, hs, ⟨a0.1, a1.1, a2.1⟩, ⟨a0.2.1, a1.2.1, a2.2.1⟩,
    ⟨a0.2.2, a1.2.2, a2.2.2⟩⟩

/-- C4, amended, at "v1.+2.3": the parse succeeds with (1, 2, 3), so the three
segments are decimal integers and the components, none of whose segments
begins with "-", are non-negative. -/
theorem parseVersion_ok_segments_witness :
    parseVersion "v1.+2.3".toList = .ok (1, 2, 3) ∧
      ∃ p0 p1 p2, splitOnByte '.' (trimLeading "v1.+2.3".toList ['v']) = [p0, p1, p2] ∧
        (isDecimalInteger p0 = true ∧ isDecimalInteger p1 = true ∧
          isDecimalInteger p2 = true) ∧
        ((p0.head? ≠ some '-' → 0 ≤ (1 : Int)) ∧ (p1.head? ≠ some '-' → 0 ≤ (2 : Int)) ∧
          (p2.head? ≠ some '-' → 0 ≤ (3 : Int))) ∧
        ((-(2 : Int) ^ 63 ≤ 1 ∧ (1 : Int) < (2 : Int) ^ 63) ∧
          (-(2 : Int) ^ 63 ≤ 2 ∧ (2 : Int) < (2 : Int) ^ 63) ∧
          (-(2 : Int) ^ 63 ≤ 3 ∧ (3 : Int) < (2 : Int) ^ 63)) :=
  ⟨by decide, parseVersion_ok_segments "v1.+2.3".toList 1 2 3 (by decide)⟩

/-- C5: over the strings `parseVersion` accepts, `isNewer` is a strict total
order on the parsed triples.  `isNewer a a` is false; for equal triples both
`isNewer a b` and `isNewer b a` are false; for different triples exactly one of
the two is true; and `isNewer a b` with `isNewer b c` gives `isNewer a c`.
None of these calls returns an error. -/
theorem isNewer_strict_total_order (a b c : List Char) (ta tb tc : Int × Int × Int)
    (ha : parseVersion a = .ok ta) (hb : parseVersion b = .ok tb)
    (hc : parseVersion c = .ok tc) :
    isNewer a a = (false, none) ∧
      (ta = tb → isNewer a b = (false, none) ∧ isNewer b a = (false, none)) ∧
      (ta ≠ tb →
        (isNewer a b = (true, none) ∧ isNewer b a = (false, none)) ∨
          (isNewer a b = (false, none) ∧ isNewer b a = (true, none))) ∧
      (isNewer a b = (true, none) → isNewer b c = (true, none) →
        isNewer a c = (true, none)) := by
  rw [isNewer_of_parsed ha ha, isNewer_of_parsed ha hb, isNewer_of_parsed hb ha,
    isNewer_of_parsed hb hc, isNewer_of_parsed ha hc]
  simp only [Prod.mk.injEq, and_true, decide_eq_true_eq, decide_eq_false_iff_not]
  refine ⟨tripleGreater_irrefl ta, ?_, ?_, fun h1 h2 => tripleGreater_trans h1 h2⟩
  · rintro rfl
    exact ⟨tripleGreater_irrefl ta, tripleGreater_irrefl ta⟩
  · intro hne
    rcases tripleGreater_total hne with h | h
    · exact Or.inl ⟨h, tripleGreater_asymm h⟩
    · exact Or.inr ⟨tripleGreater_asymm h, h⟩

/-- C5, at "0.2.0", "v0.1.5" and "0.1.0": the three strings parse, and the four
properties hold for them; here `isNewer` is true from the first to the second,
from the second to the third, and from the first to the third. -/
theorem isNewer_strict_total_order_witness :
    (parseVersion "0.2.0".toList = .ok (0, 2, 0) ∧
        parseVersion "v0.1.5".toList = .ok (0, 1, 5) ∧
        parseVersion "0.1.0".toList = .ok (0, 1, 0)) ∧
      (isNewer "0.2.0".toList "v0.1.5".toList = (true, none) ∧
        isNewer "v0.1.5".toList "0.1.0".toList = (true, none)) ∧
      (isNewer "0.2.0".toList "0.2.0".toList = (false, none) ∧
        (((0, 2, 0) : Int × Int × Int) = (0, 1, 5) →
          isNewer "0.2.0".toList "v0.1.5".toList = (false, none) ∧
            isNewer "v0.1.5".toList "0.2.0".toList = (false, none)) ∧
        (((0, 2, 0) : Int × Int × Int) ≠ (0, 1, 5) →
          (isNewer "0.2.0".toList "v0.1.5".toList = (true, none) ∧
              isNewer "v0.1.5".toList "0.2.0".toList = (false, none)) ∨
            (isNewer "0.2.0".toList "v0.1.5".toList = (false, none) ∧
              isNewer "v0.1.5".toList "0.2.0".toList = (true, none))) ∧
        (isNewer "0.2.0".toList "v0.1.5".toList = (true, none) →
          isNewer "v0.1.5".toList "0.1.0".toList = (true, none) →
          isNewer "0.2.0".toList "0.1.0".toList = (true, none))) :=
  ⟨⟨by decide, by decide, by decide⟩, ⟨by decide, by decide⟩,
    isNewer_strict_total_order "0.2.0".toList "v0.1.5".toList "0.1.0".toList
      (0, 2, 0) (0, 1, 5) (0, 1, 0) (by decide) (by decide) (by decide)⟩

/-- C6: for all strings `a` and `b` of the form X.Y.Z, each of X, Y, Z one or
more decimal digits, a leading "v" added to either argument or to both does not
change what `isNewer` returns, the boolean and the error alike. -/
theorem isNewer_v_invariant (a b : List Char)
    (ha : isPlainVersion a = true) (hb : isPlainVersion b = true) :
    isNewer ("v".toList ++ a) b = isNewer a b ∧
      isNewer a ("v".toList ++ b) = isNewer a b ∧
      isNewer ("v".toList ++ a) ("v".toList ++ b) = isNewer a b :=
  ⟨isNewer_congr (parseVersion_v_plain ha) rfl,
    isNewer_congr rfl (parseVersion_v_plain hb),
    isNewer_congr (parseVersion_v_plain ha) (parseVersion_v_plain hb)⟩

/-- C6, at the inputs of `TestIsNewer`: "0.2.0" and "0.1.0" are of the form
X.Y.Z, and `isNewer` is true for them with "v" on the first, on the second and
on both. -/
theorem isNewer_v_invariant_witness :
    (isPlainVersion "0.2.0".toList = true ∧ isPlainVersion "0.1.0".toList = true) ∧
      isNewer "0.2.0".toList "0.1.0".toList = (true, none) ∧
      isNewer "v0.2.0".toList "0.1.0".toList = (true, none) ∧
      isNewer "v0.2.0".toList "v0.1.0".toList = (true, none) ∧
      (isNewer ("v".toList ++ "0.2.0".toList) "0.1.0".toList
          = isNewer "0.2.0".toList "0.1.0".toList ∧
        isNewer "0.2.0".toList ("v".toList ++ "0.1.0".toList)
          = isNewer "0.2.0".toList "0.1.0".toList ∧
        isNewer ("v".toList ++ "0.2.0".toList) ("v".toList ++ "0.1.0".toList)
          = isNewer "0.2.0".toList "0.1.0".toList) :=
  ⟨⟨by decide, by decide⟩, by decide, by decide, by decide,
    isNewer_v_invariant "0.2.0".toList "0.1.0".toList (by decide) (by decide)⟩

/-! ## Lemmas on `FindAssetURL` and `extractBinary` -/

theorem findAssetLoop_spec (expected : List Char) (assets : List Asset) :
    (∃ pre a post, assets = pre ++ a :: post ∧ (∀ x ∈ pre, x.Name ≠ expected) ∧
        a.Name = expected ∧ findAssetLoop expected assets = some a.BrowserDownloadURL) ∨
      ((∀ x ∈ assets, x.Name ≠ expected) ∧ findAssetLoop expected assets = none) := by
  induction assets with
  | nil => exact Or.inr ⟨by simp, rfl⟩
  | cons a rest ih =>
    by_cases ha : a.Name = expected
    · exact Or.inl ⟨[], a, rest, rfl, by simp, ha, by simp [findAssetLoop, ha]⟩
    · rcases ih with ⟨pre, b, post, h1, h2, h3, h4⟩ | ⟨h1, h2⟩
      · refine Or.inl ⟨a :: pre, b, post, by rw [h1]; rfl, ?_, h3, ?_⟩
        · intro x hx
          rcases List.mem_cons.mp hx with rfl | hx
          · exact ha
          · exact h2 x hx
        · rw [findAssetLoop, if_neg ha, h4]
      · refine Or.inr ⟨?_, ?_⟩
        · intro x hx
          rcases List.mem_cons.mp hx with rfl | hx
          · exact ha
          · exact h1 x hx
        · rw [findAssetLoop, if_neg ha, h2]

theorem filepathBase_binaryName : filepathBase binaryName = binaryName := by decide

theorem filepathBase_in_dir (dir : List Char) :
    filepathBase (dir ++ '/' :: binaryName) = binaryName := by
  have hne : dir ++ '/' :: binaryName ≠ [] := by simp
  have hrev : (dir ++ '/' :: binaryName).reverse = 'w' :: 'a' :: '/' :: dir.reverse := by
    simp [binaryName]
  have h1 : stripTrailingSlashes (dir ++ '/' :: binaryName) = dir ++ '/' :: binaryName := by
    rw [stripTrailingSlashes, hrev, List.dropWhile_cons_of_neg (by decide), ← hrev,
      List.reverse_reverse]
  have h2 : lastElement (dir ++ '/' :: binaryName) = binaryName := by
    rw [lastElement, hrev, List.takeWhile_cons_of_pos (by decide),
      List.takeWhile_cons_of_pos (by decide), List.takeWhile_cons_of_neg (by decide)]
    rfl
  rw [filepathBase, if_neg hne]
  simp only [h1, h2]
  rfl

theorem extractLoop_after (pre : List (List Char × List UInt8)) (tr : TarReader)
    (h : ∀ e ∈ pre, filepathBase e.1 ≠ binaryName) :
    extractLoop (TarReader.after pre tr) = extractLoop tr := by
  induction pre with
  | nil => rfl
  | cons e rest ih =>
    obtain ⟨name, content⟩ := e
    have hn : filepathBase name ≠ binaryName := h (name, content) (by simp)
    rw [TarReader.after, extractLoop, if_neg hn]
    exact ih (fun x hx => h x (List.mem_cons_of_mem _ hx))

theorem after_eof (es : List (List Char × List UInt8)) :
    TarReader.after es .eof = TarReader.ofEntries es := by
  induction es with
  | nil => rfl
  | cons e rest ih =>
    obtain ⟨name, content⟩ := e
    rw [TarReader.after, TarReader.ofEntries, ih]

/-! ## The release resolver and the archive extractor -/

/-- C7: `FindAssetURL release goos goarch` returns the download URL of the
first asset, in list order, whose name equals `aw_<goos>_<goarch>.tar.gz`; it
fails exactly when no asset of the release has that name, and its error then
names `goos` and `goarch`. -/
theorem FindAssetURL_spec (release : ReleaseInfo) (goos goarch : List Char) :
    expectedAssetName goos goarch
        = "aw_".toList ++ goos ++ "_".toList ++ goarch ++ ".tar.gz".toList ∧
      ((∃ pre a post, release.Assets = pre ++ a :: post ∧
            (∀ x ∈ pre, x.Name ≠ expectedAssetName goos goarch) ∧
            a.Name = expectedAssetName goos goarch ∧
            FindAssetURL release goos goarch = .ok a.BrowserDownloadURL) ∨
        ((∀ x ∈ release.Assets, x.Name ≠ expectedAssetName goos goarch) ∧
          FindAssetURL release goos goarch = .error ⟨goos, goarch⟩)) ∧
      ((∃ e, FindAssetURL release goos goarch = .error e) ↔
        ∀ x ∈ release.Assets, x.Name ≠ expectedAssetName goos goarch) ∧
      (∀ e, FindAssetURL release goos goarch = .error e →
        e.message = "no release asset found for ".toList ++ goos ++ "/".toList ++ goarch) := by
  have key : (∃ pre a post, release.Assets = pre ++ a :: post ∧
            (∀ x ∈ pre, x.Name ≠ expectedAssetName goos goarch) ∧
            a.Name = expectedAssetName goos goarch ∧
            FindAssetURL release goos goarch = .ok a.BrowserDownloadURL) ∨
        ((∀ x ∈ release.Assets, x.Name ≠ expectedAssetName goos goarch) ∧
          FindAssetURL release goos goarch = .error ⟨goos, goarch⟩) := by
    rcases findAssetLoop_spec (expectedAssetName goos goarch) release.Assets with
      ⟨pre, a, post, h1, h2, h3, h4⟩ | ⟨h1, h2⟩
    · exact Or.inl ⟨pre, a, post, h1, h2, h3, by simp only [FindAssetURL, h4]⟩
    · exact Or.inr ⟨h1, by simp only [FindAssetURL, h2]⟩
  refine ⟨rfl, key, ?_, ?_⟩
  · rcases key with ⟨pre, a, post, h1, h2, h3, h4⟩ | ⟨h1, h2⟩
    · constructor
      · rintro ⟨e, he⟩
        rw [h4] at he
        cases he
      · intro hall
        exact absurd h3 (hall a (by rw [h1]; simp))
    · exact ⟨fun _ => h1, fun _ => ⟨_, h2⟩⟩
  · intro e he
    rcases key with ⟨pre, a, post, h1, h2, h3, h4⟩ | ⟨h1, h2⟩
    · rw [h4] at he
      cases he
    · rw [h2] at he
      cases he
      rfl

/-- C7, at the release of `TestFindAssetURL`: (darwin, arm64) yields the URL of
the first asset, and (windows, amd64), for which no asset has the expected
name, fails with the error that names them. -/
theorem FindAssetURL_spec_witness :
    FindAssetURL
        ⟨"v0.2.0".toList,
          [⟨"aw_darwin_arm64.tar.gz".toList, "https://example.com/darwin_arm64.tar.gz".toList⟩,
            ⟨"aw_linux_amd64.tar.gz".toList, "https://example.com/linux_amd64.tar.gz".toList⟩]⟩
        "darwin".toList "arm64".toList
      = .ok "https://example.com/darwin_arm64.tar.gz".toList ∧
    FindAssetURL
        ⟨"v0.2.0".toList,
          [⟨"aw_darwin_arm64.tar.gz".toList, "https://example.com/darwin_arm64.tar.gz".toList⟩,
            ⟨"aw_linux_amd64.tar.gz".toList, "https://example.com/linux_amd64.tar.gz".toList⟩]⟩
        "windows".toList "amd64".toList
      = .error ⟨"windows".toList, "amd64".toList⟩ ∧
    (∀ e,
      FindAssetURL
          ⟨"v0.2.0".toList,
            [⟨"aw_darwin_arm64.tar.gz".toList, "https://example.com/darwin_arm64.tar.gz".toList⟩,
              ⟨"aw_linux_amd64.tar.gz".toList, "https://example.com/linux_amd64.tar.gz".toList⟩]⟩
          "windows".toList "amd64".toList = .error e →
        e.message
          = "no release asset found for ".toList ++ "windows".toList ++ "/".toList
            ++ "amd64".toList) :=
  ⟨by decide, by decide, (FindAssetURL_spec _ "windows".toList "amd64".toList).2.2.2⟩

/-- C8: round trip.  For every byte sequence `content`, the empty one too,
`extractBinary` applied to the archive of `createTestArchive content`, whose
one entry is named exactly "aw" and holds `content`, returns `content`
unchanged and no error. -/
theorem extractBinary_roundtrip (content : List UInt8) :
    extractBinary (createTestArchive content) = .ok content := by
  simp only [createTestArchive, extractBinary, TarReader.ofEntries, extractLoop]
  exact if_pos filepathBase_binaryName

/-- C9: for every well-formed archive, the one without entries too, in which no
entry has base file name "aw", `extractBinary` returns no payload and fails
with the error `binary "aw" not found in archive`. -/
theorem extractBinary_not_found (entries : List (List Char × List UInt8))
    (h : ∀ e ∈ entries, filepathBase e.1 ≠ binaryName) :
    extractBinary (.gzip (TarReader.ofEntries entries)) = .error (.notFound binaryName) ∧
      (ExtractError.notFound binaryName).message
        = "binary \"aw\" not found in archive".toList := by
  refine ⟨?_, by decide⟩
  rw [extractBinary, ← after_eof, extractLoop_after entries .eof h]
  rfl

/-- C9, at the archive of `TestExtractBinary_NotFound`, whose only entry is
"other-file", and at the archive without entries. -/
theorem extractBinary_not_found_witness :
    (∀ e ∈ [("other-file".toList, "some content".toUTF8.toList)],
        filepathBase e.1 ≠ binaryName) ∧
      (extractBinary
          (.gzip (TarReader.ofEntries [("other-file".toList, "some content".toUTF8.toList)]))
          = .error (.notFound binaryName) ∧
        (ExtractError.notFound binaryName).message
          = "binary \"aw\" not found in archive".toList) ∧
      (extractBinary (.gzip (TarReader.ofEntries [])) = .error (.notFound binaryName) ∧
        (ExtractError.notFound binaryName).message
          = "binary \"aw\" not found in archive".toList) :=
  ⟨by simp only [List.mem_singleton, forall_eq]; decide,
    extractBinary_not_found _ (by simp only [List.mem_singleton, forall_eq]; decide),
    extractBinary_not_found [] (by simp)⟩

/-- C10: `extractBinary` scans the entries in stream order and returns the full
content of the first entry whose base file name is "aw": the entries before
it, with other base names, are skipped, and whatever follows it in the stream,
another entry with base name "aw" or a corrupt rest, is ignored.  The base
name is the last path element at any directory depth: `dir/aw` has base name
"aw" for every `dir`. -/
theorem extractBinary_first_match (pre : List (List Char × List UInt8)) (name : List Char)
    (content : List UInt8) (rest : TarReader)
    (hpre : ∀ e ∈ pre, filepathBase e.1 ≠ binaryName)
    (hname : filepathBase name = binaryName) :
    extractBinary (.gzip (TarReader.after pre (.entry ⟨name⟩ (.ok content) rest)))
        = .ok content ∧
      ∀ dir : List Char, filepathBase (dir ++ '/' :: binaryName) = binaryName := by
  refine ⟨?_, filepathBase_in_dir⟩
  rw [extractBinary, extractLoop_after pre _ hpre, extractLoop, if_pos hname]

/-- C10, at an archive with the entries "README", "dist/aw" and "aw" in that
order: the content of "dist/aw" is returned. -/
theorem extractBinary_first_match_witness :
    (∀ e ∈ [("README".toList, [(1 : UInt8)])], filepathBase e.1 ≠ binaryName) ∧
      filepathBase "dist/aw".toList = binaryName ∧
      (extractBinary
          (.gzip (TarReader.after [("README".toList, [(1 : UInt8)])]
            (.entry ⟨"dist/aw".toList⟩ (.ok [2, 3])
              (.entry ⟨"aw".toList⟩ (.ok [4]) .eof))))
          = .ok [2, 3] ∧
        ∀ dir : List Char, filepathBase (dir ++ '/' :: binaryName) = binaryName) :=
  ⟨by simp only [List.mem_singleton, forall_eq]; decide, by decide,
    extractBinary_first_match [("README".toList, [(1 : UInt8)])] "dist/aw".toList [2, 3]
      (.entry ⟨"aw".toList⟩ (.ok [4]) .eof)
      (by simp only [List.mem_singleton, forall_eq]; decide) (by decide)⟩

/-! ## Lemmas on the filesystem and on `replaceBinary` -/

theorem fsPut_same (fs : FS) (p : List Char) (f : FileData) : fsPut fs p f p = some f := by
  simp [fsPut]

theorem fsPut_other (fs : FS) {p q : List Char} (f : FileData) (h : q ≠ p) :
    fsPut fs p f q = fs q := by
  simp [fsPut, h]

theorem fsPut_put (fs : FS) (p : List Char) (f g : FileData) :
    fsPut (fsPut fs p f) p g = fsPut fs p g := by
  funext q
  by_cases h : q = p <;> simp [fsPut, h]

theorem fsWrite_put (fs : FS) (p : List Char) (f : FileData) (d : List UInt8) :
    fsWrite (fsPut fs p f) p d = fsPut fs p ⟨f.content ++ d, f.mode⟩ := by
  rw [fsWrite, fsPut_same]
  exact fsPut_put fs p f _

theorem fsChmod_put (fs : FS) (p : List Char) (f : FileData) (m : Nat) :
    fsChmod (fsPut fs p f) p m = fsPut fs p ⟨f.content, m⟩ := by
  rw [fsChmod, fsPut_same]
  exact fsPut_put fs p f _

theorem fsDel_put_fresh {fs : FS} {p : List Char} (f : FileData) (h : fs p = none) :
    fsDel (fsPut fs p f) p = fs := by
  funext q
  by_cases hq : q = p
  · subst hq; simp [fsDel, h]
  · simp [fsDel, fsPut, hq]

theorem fsRename_put_fresh {fs : FS} {p : List Char} (f : FileData) (h : fs p = none)
    (dst : List Char) : fsRename (fsPut fs p f) p dst = fsPut fs dst f := by
  rw [fsRename, fsPut_same]
  simp only [fsDel_put_fresh f h]

theorem removeTemp_put_fresh (faults : FsFaults) {fs : FS} {p : List Char} (f : FileData)
    (h : fs p = none) :
    removeTemp faults (fsPut fs p f) p = fs ∨
      (faults.removeErr ≠ none ∧ removeTemp faults (fsPut fs p f) p = fsPut fs p f) := by
  unfold removeTemp
  cases faults.removeErr with
  | none => exact Or.inl (fsDel_put_fresh f h)
  | some e => exact Or.inr ⟨by simp, rfl⟩

theorem createTempLoop_ok (faults : FsFaults) (fs : FS) (pre suf : List Char) (fuel : Nat) :
    ∀ (tries : Nat) (p : List Char), createTempLoop faults fs pre suf fuel tries = .ok p →
      fs p = none ∧ ∃ r : Nat, p = pre ++ Nat.toDigits 10 r ++ suf := by
  induction fuel with
  | zero => intro tries p h; simp [createTempLoop] at h
  | succ fuel ih =>
    intro tries p h
    rw [createTempLoop] at h
    split_ifs at h with hex
    · exact ih _ _ h
    · cases ho : faults.openErr with
      | some e => simp [ho] at h
      | none =>
        simp only [ho, Except.ok.injEq] at h
        subst h
        exact ⟨Option.not_isSome_iff_eq_none.mp hex, _, rfl⟩

theorem no_slash_of_digits {s : List Char} (h : s.all isDecimalDigit = true) : '/' ∉ s := by
  intro hm
  rw [List.all_eq_true] at h
  exact absurd (h _ hm) (by decide)

theorem joinPath_append (dir a b : List Char) : joinPath dir a ++ b = joinPath dir (a ++ b) := by
  unfold joinPath
  split_ifs <;> simp

theorem createTemp_update_ok {faults : FsFaults} {fs : FS} {dir p : List Char}
    (h : createTemp faults fs dir (binaryName ++ ".update.*".toList) = .ok p) :
    fs p = none ∧ ∃ name : List Char, '/' ∉ name ∧ p = joinPath dir name := by
  have hpat : ('/' ∈ binaryName ++ ".update.*".toList) = False := by decide
  have hparts : patternParts (binaryName ++ ".update.*".toList) = ("aw.update.".toList, []) := by
    decide
  simp only [createTemp, hpat, if_false, hparts] at h
  obtain ⟨hf, r, hr⟩ := createTempLoop_ok faults fs _ _ _ _ _ h
  refine ⟨hf, "aw.update.".toList ++ Nat.toDigits 10 r, ?_, ?_⟩
  · intro hm
    rcases List.mem_append.mp hm with h1 | h1
    · exact absurd h1 (by decide)
    · have := (toDigits_spec r).1
      simp only [isDigitString, Bool.and_eq_true] at this
      exact no_slash_of_digits this.2 h1
  · rw [hr, List.append_nil, joinPath_append]

theorem replaceBinary_create_error {faults : FsFaults} {fs : FS} {targetPath : List Char}
    {e : List Char} (newBinary : List UInt8)
    (hc : createTemp faults fs (filepathDir targetPath) (binaryName ++ ".update.*".toList)
      = .error e) :
    replaceBinary faults fs targetPath newBinary = ⟨some (.creatingTemp e), fs, []⟩ := by
  simp only [replaceBinary, hc]

theorem replaceBinary_unfold {faults : FsFaults} {fs : FS} {targetPath tmp : List Char}
    (newBinary : List UInt8)
    (hc : createTemp faults fs (filepathDir targetPath) (binaryName ++ ".update.*".toList)
      = .ok tmp) :
    replaceBinary faults fs targetPath newBinary =
      match faults.writeErr with
      | some (n, e) =>
        ⟨some (.writingTemp e), removeTemp faults (fsPut fs tmp ⟨newBinary.take n, 0o600⟩) tmp,
          [(.createTemp tmp, fsPut fs tmp ⟨[], 0o600⟩),
            (.write tmp, fsPut fs tmp ⟨newBinary.take n, 0o600⟩),
            (.close tmp, fsPut fs tmp ⟨newBinary.take n, 0o600⟩),
            (.remove tmp, removeTemp faults (fsPut fs tmp ⟨newBinary.take n, 0o600⟩) tmp)]⟩
      | none =>
        match faults.chmodErr with
        | some e =>
          ⟨some (.settingPermissions e), removeTemp faults (fsPut fs tmp ⟨newBinary, 0o600⟩) tmp,
            [(.createTemp tmp, fsPut fs tmp ⟨[], 0o600⟩),
              (.write tmp, fsPut fs tmp ⟨newBinary, 0o600⟩),
              (.chmod tmp 0o755, fsPut fs tmp ⟨newBinary, 0o600⟩),
              (.close tmp, fsPut fs tmp ⟨newBinary, 0o600⟩),
              (.remove tmp, removeTemp faults (fsPut fs tmp ⟨newBinary, 0o600⟩) tmp)]⟩
        | none =>
          match faults.closeErr with
          | some e =>
            ⟨some (.closingTemp e), removeTemp faults (fsPut fs tmp ⟨newBinary, 0o755⟩) tmp,
              [(.createTemp tmp, fsPut fs tmp ⟨[], 0o600⟩),
                (.write tmp, fsPut fs tmp ⟨newBinary, 0o600⟩),
                (.chmod tmp 0o755, fsPut fs tmp ⟨newBinary, 0o755⟩),
                (.close tmp, fsPut fs tmp ⟨newBinary, 0o755⟩),
                (.remove tmp, removeTemp faults (fsPut fs tmp ⟨newBinary, 0o755⟩) tmp)]⟩
          | none =>
            match faults.renameErr with
            | some e =>
              ⟨some (.renaming e), removeTemp faults (fsPut fs tmp ⟨newBinary, 0o755⟩) tmp,
                [(.createTemp tmp, fsPut fs tmp ⟨[], 0o600⟩),
                  (.write tmp, fsPut fs tmp ⟨newBinary, 0o600⟩),
                  (.chmod tmp 0o755, fsPut fs tmp ⟨newBinary, 0o755⟩),
                  (.close tmp, fsPut fs tmp ⟨newBinary, 0o755⟩),
                  (.rename tmp targetPath, fsPut fs tmp ⟨newBinary, 0o755⟩),
                  (.remove tmp, removeTemp faults (fsPut fs tmp ⟨newBinary, 0o755⟩) tmp)]⟩
            | none =>
              ⟨none, fsPut fs targetPath ⟨newBinary, 0o755⟩,
                [(.createTemp tmp, fsPut fs tmp ⟨[], 0o600⟩),
                  (.write tmp, fsPut fs tmp ⟨newBinary, 0o600⟩),
                  (.chmod tmp 0o755, fsPut fs tmp ⟨newBinary, 0o755⟩),
                  (.close tmp, fsPut fs tmp ⟨newBinary, 0o755⟩),
                  (.rename tmp targetPath, fsPut fs targetPath ⟨newBinary, 0o755⟩)]⟩ := by
  have hfresh := (createTemp_update_ok hc).1
  simp only [replaceBinary, hc, fsWrite_put, fsChmod_put, fsRename_put_fresh _ hfresh,
    List.nil_append, List.cons_append, List.singleton_append]

theorem replaceBinary_final {faults : FsFaults} {fs : FS} {targetPath tmp : List Char}
    (newBinary : List UInt8)
    (hc : createTemp faults fs (filepathDir targetPath) (binaryName ++ ".update.*".toList)
      = .ok tmp) :
    ((replaceBinary faults fs targetPath newBinary).err = none ∧
        (replaceBinary faults fs targetPath newBinary).fs
          = fsPut fs targetPath ⟨newBinary, 0o755⟩) ∨
      ((replaceBinary faults fs targetPath newBinary).err ≠ none ∧
        ((replaceBinary faults fs targetPath newBinary).fs = fs ∨
          (faults.removeErr ≠ none ∧
            ∃ f, (replaceBinary faults fs targetPath newBinary).fs = fsPut fs tmp f))) := by
  have hfresh := (createTemp_update_ok hc).1
  have hrm : ∀ f, removeTemp faults (fsPut fs tmp f) tmp = fs ∨
      (faults.removeErr ≠ none ∧ ∃ g, removeTemp faults (fsPut fs tmp f) tmp = fsPut fs tmp g) := by
    intro f
    rcases removeTemp_put_fresh faults f hfresh with h | ⟨h1, h2⟩
    · exact Or.inl h
    · exact Or.inr ⟨h1, f, h2⟩
  rw [replaceBinary_unfold newBinary hc]
  rcases faults.writeErr with _ | ⟨n, e⟩
  · rcases faults.chmodErr with _ | e2
    · rcases faults.closeErr with _ | e3
      · rcases faults.renameErr with _ | e4
        · exact Or.inl ⟨rfl, rfl⟩
        · exact Or.inr ⟨by simp, hrm _⟩
      · exact Or.inr ⟨by simp, hrm _⟩
    · exact Or.inr ⟨by simp, hrm _⟩
  · exact Or.inr ⟨by simp, hrm _⟩

theorem replaceBinary_steps {faults : FsFaults} {fs : FS} {targetPath tmp : List Char}
    (newBinary : List UInt8)
    (hc : createTemp faults fs (filepathDir targetPath) (binaryName ++ ".update.*".toList)
      = .ok tmp) :
    ∀ step ∈ (replaceBinary faults fs targetPath newBinary).trace,
      (step.1 = .rename tmp targetPath ∨ step.1.paths = [tmp]) ∧
        ((∃ f, step.2 = fsPut fs tmp f) ∨
          step.2 = (replaceBinary faults fs targetPath newBinary).fs) := by
  rw [replaceBinary_unfold newBinary hc]
  rcases faults.writeErr with _ | ⟨n, e⟩
  · rcases faults.chmodErr with _ | e2
    · rcases faults.closeErr with _ | e3
      · rcases faults.renameErr with _ | e4
        · intro step hs
          simp only [List.mem_cons, List.mem_singleton, List.not_mem_nil, or_false] at hs
          rcases hs with rfl | rfl | rfl | rfl | rfl
          · exact ⟨Or.inr rfl, Or.inl ⟨_, rfl⟩⟩
          · exact ⟨Or.inr rfl, Or.inl ⟨_, rfl⟩⟩
          · exact ⟨Or.inr rfl, Or.inl ⟨_, rfl⟩⟩
          · exact ⟨Or.inr rfl, Or.inl ⟨_, rfl⟩⟩
          · exact ⟨Or.inl rfl, Or.inr rfl⟩
        · intro step hs
          simp only [List.mem_cons, List.mem_singleton, List.not_mem_nil, or_false] at hs
          rcases hs with rfl | rfl | rfl | rfl | rfl | rfl
          · exact ⟨Or.inr rfl, Or.inl ⟨_, rfl⟩⟩
          · exact ⟨Or.inr rfl, Or.inl ⟨_, rfl⟩⟩
          · exact ⟨Or.inr rfl, Or.inl ⟨_, rfl⟩⟩
          · exact ⟨Or.inr rfl, Or.inl ⟨_, rfl⟩⟩
          · exact ⟨Or.inl rfl, Or.inl ⟨_, rfl⟩⟩
          · exact ⟨Or.inr rfl, Or.inr rfl⟩
      · intro step hs
        simp only [List.mem_cons, List.mem_singleton, List.not_mem_nil, or_false] at hs
        rcases hs with rfl | rfl | rfl | rfl | rfl
        · exact ⟨Or.inr rfl, Or.inl ⟨_, rfl⟩⟩
        · exact ⟨Or.inr rfl, Or.inl ⟨_, rfl⟩⟩
        · exact ⟨Or.inr rfl, Or.inl ⟨_, rfl⟩⟩
        · exact ⟨Or.inr rfl, Or.inl ⟨_, rfl⟩⟩
        · exact ⟨Or.inr rfl, Or.inr rfl⟩
    · intro step hs
      simp only [List.mem_cons, List.mem_singleton, List.not_mem_nil, or_false] at hs
      rcases hs with rfl | rfl | rfl | rfl | rfl
      · exact ⟨Or.inr rfl, Or.inl ⟨_, rfl⟩⟩
      · exact ⟨Or.inr rfl, Or.inl ⟨_, rfl⟩⟩
      · exact ⟨Or.inr rfl, Or.inl ⟨_, rfl⟩⟩
      · exact ⟨Or.inr rfl, Or.inl ⟨_, rfl⟩⟩
      · exact ⟨Or.inr rfl, Or.inr rfl⟩
  · intro step hs
    simp only [List.mem_cons, List.mem_singleton, List.not_mem_nil, or_false] at hs
    rcases hs with rfl | rfl | rfl | rfl
    · exact ⟨Or.inr rfl, Or.inl ⟨_, rfl⟩⟩
    · exact ⟨Or.inr rfl, Or.inl ⟨_, rfl⟩⟩
    · exact ⟨Or.inr rfl, Or.inl ⟨_, rfl⟩⟩
    · exact ⟨Or.inr rfl, Or.inr rfl⟩

theorem replaceBinary_rename_last {faults : FsFaults} {fs : FS} {targetPath tmp : List Char}
    (newBinary : List UInt8)
    (hc : createTemp faults fs (filepathDir targetPath) (binaryName ++ ".update.*".toList)
      = .ok tmp)
    (herr : (replaceBinary faults fs targetPath newBinary).err = none) :
    (replaceBinary faults fs targetPath newBinary).trace.getLast?
      = some (.rename tmp targetPath, (replaceBinary faults fs targetPath newBinary).fs) := by
  rw [replaceBinary_unfold newBinary hc] at herr ⊢
  revert herr
  rcases faults.writeErr with _ | ⟨n, e⟩
  · rcases faults.chmodErr with _ | e2
    · rcases faults.closeErr with _ | e3
      · rcases faults.renameErr with _ | e4
        · intro _; rfl
        · intro herr; simp at herr
      · intro herr; simp at herr
    · intro herr; simp at herr
  · intro herr; simp at herr

/-! ## The self-replacer -/

/-- C11: if `replaceBinary targetPath newContent` returns success, the file at
`targetPath` holds exactly `newContent` with permission bits 0755, every path
the call was applied to other than `targetPath` (the temporary file) names no
file afterwards, and no other path names anything it did not name before. -/
theorem replaceBinary_success (faults : FsFaults) (fs : FS) (targetPath : List Char)
    (newBinary : List UInt8)
    (h : (replaceBinary faults fs targetPath newBinary).err = none) :
    (replaceBinary faults fs targetPath newBinary).fs targetPath
        = some ⟨newBinary, 0o755⟩ ∧
      (∀ step ∈ (replaceBinary faults fs targetPath newBinary).trace,
        ∀ p ∈ step.1.paths, p ≠ targetPath →
          (replaceBinary faults fs targetPath newBinary).fs p = none) ∧
      (∀ p, p ≠ targetPath → (replaceBinary faults fs targetPath newBinary).fs p = fs p) := by
  rcases hc : createTemp faults fs (filepathDir targetPath) (binaryName ++ ".update.*".toList)
    with e | tmp
  · rw [replaceBinary_create_error newBinary hc] at h
    simp at h
  · have hfresh := (createTemp_update_ok hc).1
    have hsteps := replaceBinary_steps newBinary hc
    rcases replaceBinary_final newBinary hc with ⟨-, hfs⟩ | ⟨herr, -⟩
    · refine ⟨by rw [hfs]; exact fsPut_same _ _ _, ?_, ?_⟩
      · intro step hs p hp hne
        have hptmp : p = tmp := by
          rcases (hsteps step hs).1 with h1 | h1
          · rw [h1] at hp
            simp only [FsOp.paths, List.mem_cons, List.mem_singleton, List.not_mem_nil,
              or_false] at hp
            rcases hp with rfl | rfl
            · rfl
            · exact absurd rfl hne
          · rw [h1] at hp
            simpa using hp
        rw [hfs, fsPut_other _ _ hne, hptmp]
        exact hfresh
      · intro p hne
        rw [hfs, fsPut_other _ _ hne]
    · exact absurd h herr

/-- C11, on a filesystem with the installed executable "/opt/bin/aw" and an
operating system without failures: the call succeeds, the target holds the new
bytes with mode 0755 and the temporary path names nothing. -/
theorem replaceBinary_success_witness :
    (replaceBinary noFaults installedFS "/opt/bin/aw".toList [7, 8, 9]).err = none ∧
      (replaceBinary noFaults installedFS "/opt/bin/aw".toList [7, 8, 9]).fs
          "/opt/bin/aw.update.123".toList = none ∧
      ((replaceBinary noFaults installedFS "/opt/bin/aw".toList [7, 8, 9]).fs
          "/opt/bin/aw".toList = some ⟨[7, 8, 9], 0o755⟩ ∧
        (∀ step ∈ (replaceBinary noFaults installedFS "/opt/bin/aw".toList [7, 8, 9]).trace,
          ∀ p ∈ step.1.paths, p ≠ "/opt/bin/aw".toList →
            (replaceBinary noFaults installedFS "/opt/bin/aw".toList [7, 8, 9]).fs p = none) ∧
        (∀ p, p ≠ "/opt/bin/aw".toList →
          (replaceBinary noFaults installedFS "/opt/bin/aw".toList [7, 8, 9]).fs p
            = installedFS p)) :=
  ⟨by decide, by decide,
    replaceBinary_success noFaults installedFS "/opt/bin/aw".toList [7, 8, 9] (by decide)⟩

/-- C12, as stated, fails: when `Write` fails on a full disk and the deferred
`os.Remove` fails as well, `replaceBinary` returns an error and the temporary
file it created, "/opt/bin/aw.update.123", which did not exist before, is
still there with the one byte that was written. -/
theorem replaceBinary_leaves_temp :
    (replaceBinary diskFullFaults installedFS "/opt/bin/aw".toList [7, 8, 9]).err
        = some (.writingTemp "no space left on device".toList) ∧
      installedFS "/opt/bin/aw.update.123".toList = none ∧
      (replaceBinary diskFullFaults installedFS "/opt/bin/aw".toList [7, 8, 9]).fs
          "/opt/bin/aw.update.123".toList = some ⟨[7], 0o600⟩ := by
  decide

/-- C12, amended: for a `targetPath` that names a file before the call, if
`replaceBinary` returns an error then the file at `targetPath` is what it was
before, and, provided the deferred `os.Remove` does not fail, every other path
the call was applied to (the temporary file) names no file afterwards.  After
every call of the run, failed or not, the target holds either the old file or
the new content with mode 0755. -/
theorem replaceBinary_failure_keeps_target (faults : FsFaults) (fs : FS)
    (targetPath : List Char) (newBinary : List UInt8) (old : FileData)
    (hold : fs targetPath = some old) :
    ((replaceBinary faults fs targetPath newBinary).err ≠ none →
        (replaceBinary faults fs targetPath newBinary).fs targetPath = some old ∧
          (faults.removeErr = none →
            ∀ step ∈ (replaceBinary faults fs targetPath newBinary).trace,
              ∀ p ∈ step.1.paths, p ≠ targetPath →
                (replaceBinary faults fs targetPath newBinary).fs p = none)) ∧
      (∀ step ∈ (replaceBinary faults fs targetPath newBinary).trace,
        step.2 targetPath = some old ∨ step.2 targetPath = some ⟨newBinary, 0o755⟩) := by
  rcases hc : createTemp faults fs (filepathDir targetPath) (binaryName ++ ".update.*".toList)
    with e | tmp
  · rw [replaceBinary_create_error newBinary hc]
    exact ⟨fun _ => ⟨hold, fun _ step hs => by simp at hs⟩, fun step hs => by simp at hs⟩
  · have hfresh := (createTemp_update_ok hc).1
    have hne : targetPath ≠ tmp := by
      rintro rfl
      rw [hold] at hfresh
      exact absurd hfresh (by simp)
    have hsteps := replaceBinary_steps newBinary hc
    have hfinal := replaceBinary_final newBinary hc
    have hfin : (replaceBinary faults fs targetPath newBinary).fs targetPath = some old ∨
        (replaceBinary faults fs targetPath newBinary).fs targetPath
          = some ⟨newBinary, 0o755⟩ := by
      rcases hfinal with ⟨-, hfs⟩ | ⟨-, hfs | ⟨-, f, hfs⟩⟩
      · exact Or.inr (by rw [hfs]; exact fsPut_same _ _ _)
      · exact Or.inl (by rw [hfs]; exact hold)
      · exact Or.inl (by rw [hfs, fsPut_other _ _ hne]; exact hold)
    refine ⟨fun herr => ⟨?_, ?_⟩, ?_⟩
    · rcases hfinal with ⟨h0, -⟩ | ⟨-, hfs | ⟨-, f, hfs⟩⟩
      · exact absurd h0 herr
      · rw [hfs]; exact hold
      · rw [hfs, fsPut_other _ _ hne]; exact hold
    · intro hrm step hs p hp hpne
      have hptmp : p = tmp := by
        rcases (hsteps step hs).1 with h1 | h1
        · rw [h1] at hp
          simp only [FsOp.paths, List.mem_cons, List.mem_singleton, List.not_mem_nil,
            or_false] at hp
          rcases hp with rfl | rfl
          · rfl
          · exact absurd rfl hpne
        · rw [h1] at hp
          simpa using hp
      rcases hfinal with ⟨h0, -⟩ | ⟨-, hfs | ⟨h1, -⟩⟩
      · exact absurd h0 herr
      · rw [hfs, hptmp]; exact hfresh
      · exact absurd hrm h1
    · intro step hs
      rcases (hsteps step hs).2 with ⟨f, h1⟩ | h1
      · exact Or.inl (by rw [h1, fsPut_other _ _ hne]; exact hold)
      · rw [h1]; exact hfin

/-- C12, amended, on a filesystem with the installed executable "/opt/bin/aw"
when `Write` fails after one byte and `os.Remove` works: the target is
unchanged and the temporary path names nothing. -/
theorem replaceBinary_failure_keeps_target_witness :
    installedFS "/opt/bin/aw".toList = some ⟨[1, 2], 0o755⟩ ∧
      (replaceBinary writeFailFaults
          installedFS "/opt/bin/aw".toList [7, 8, 9]).err
        = some (.writingTemp "no space left on device".toList) ∧
      (replaceBinary writeFailFaults
          installedFS "/opt/bin/aw".toList [7, 8, 9]).fs "/opt/bin/aw.update.123".toList
        = none ∧
      (replaceBinary writeFailFaults
          installedFS "/opt/bin/aw".toList [7, 8, 9]).fs "/opt/bin/aw".toList
        = some ⟨[1, 2], 0o755⟩ :=
  ⟨by decide, by decide, by decide,
    ((replaceBinary_failure_keeps_target
      writeFailFaults
      installedFS "/opt/bin/aw".toList [7, 8, 9] ⟨[1, 2], 0o755⟩ (by decide)).1
        (by decide)).1⟩

/-- C13, as stated, fails: when `targetPath` names no file and is the very
name drawn for the temporary file, here "/opt/bin/aw.update.123", the run
succeeds and creates, writes, changes the mode of and closes the file at
`targetPath` itself before the rename, which then renames it onto itself. -/
theorem replaceBinary_target_is_temp :
    installedFS "/opt/bin/aw.update.123".toList = none ∧
      (replaceBinary noFaults installedFS "/opt/bin/aw.update.123".toList [7, 8, 9]).err = none ∧
      (replaceBinary noFaults installedFS "/opt/bin/aw.update.123".toList [7, 8, 9]).trace.map
          (fun step => step.1)
        = [.createTemp "/opt/bin/aw.update.123".toList, .write "/opt/bin/aw.update.123".toList,
            .chmod "/opt/bin/aw.update.123".toList 0o755,
            .close "/opt/bin/aw.update.123".toList,
            .rename "/opt/bin/aw.update.123".toList "/opt/bin/aw.update.123".toList] := by
  decide

/-- C13, amended: `replaceBinary` only touches the directory of `targetPath`,
whether `targetPath` names a file before the call or not.  The temporary file
is `filepath.Dir(targetPath)` joined with a name without separator; every call
is applied to that path or to `targetPath`; the rename of the temporary file
onto `targetPath` is the last call of a successful run; and every other path
names the same file after each call and at the end as before.  The only call
applied to `targetPath` is that rename provided `targetPath` names a file
before the call or, more generally, is not the path of the temporary file. -/
theorem replaceBinary_frame (faults : FsFaults) (fs : FS) (targetPath : List Char)
    (newBinary : List UInt8) :
    ∃ name : List Char, '/' ∉ name ∧
      (∀ step ∈ (replaceBinary faults fs targetPath newBinary).trace,
        ∀ p ∈ step.1.paths, p = joinPath (filepathDir targetPath) name ∨ p = targetPath) ∧
      ((fs targetPath ≠ none ∨ targetPath ≠ joinPath (filepathDir targetPath) name) →
        ∀ step ∈ (replaceBinary faults fs targetPath newBinary).trace,
          targetPath ∈ step.1.paths →
            step.1 = .rename (joinPath (filepathDir targetPath) name) targetPath) ∧
      ((replaceBinary faults fs targetPath newBinary).err = none →
        (replaceBinary faults fs targetPath newBinary).trace.getLast?
          = some (.rename (joinPath (filepathDir targetPath) name) targetPath,
              (replaceBinary faults fs targetPath newBinary).fs)) ∧
      (∀ p, p ≠ joinPath (filepathDir targetPath) name → p ≠ targetPath →
        (replaceBinary faults fs targetPath newBinary).fs p = fs p ∧
          ∀ step ∈ (replaceBinary faults fs targetPath newBinary).trace, step.2 p = fs p) := by
  rcases hc : createTemp faults fs (filepathDir targetPath) (binaryName ++ ".update.*".toList)
    with e | tmp
  · rw [replaceBinary_create_error newBinary hc]
    exact ⟨[], by simp, fun step hs => by simp at hs, fun _ step hs => by simp at hs,
      fun h => by simp at h, fun p _ _ => ⟨rfl, fun step hs => by simp at hs⟩⟩
  · obtain ⟨hfresh, name, hname, htmp⟩ := createTemp_update_ok hc
    have hsteps := replaceBinary_steps newBinary hc
    have hfinal := replaceBinary_final newBinary hc
    refine ⟨name, hname, ?_, ?_, ?_, ?_⟩
    · intro step hs p hp
      rw [← htmp]
      rcases (hsteps step hs).1 with h1 | h1
      · rw [h1] at hp
        simpa [FsOp.paths] using hp
      · rw [h1] at hp
        exact Or.inl (by simpa using hp)
    · intro hcond step hs hp
      rw [← htmp] at hcond ⊢
      have hne : targetPath ≠ tmp := by
        rcases hcond with hex | hne
        · rintro rfl
          exact hex hfresh
        · exact hne
      rcases (hsteps step hs).1 with h1 | h1
      · exact h1
      · rw [h1] at hp
        exact absurd (by simpa using hp) hne
    · intro herr
      rw [← htmp]
      exact replaceBinary_rename_last newBinary hc herr
    · intro p hp1 hp2
      rw [← htmp] at hp1
      have hfin : (replaceBinary faults fs targetPath newBinary).fs p = fs p := by
        rcases hfinal with ⟨-, hfs⟩ | ⟨-, hfs | ⟨-, f, hfs⟩⟩
        · rw [hfs, fsPut_other _ _ hp2]
        · rw [hfs]
        · rw [hfs, fsPut_other _ _ hp1]
      refine ⟨hfin, fun step hs => ?_⟩
      rcases (hsteps step hs).2 with ⟨f, h1⟩ | h1
      · rw [h1, fsPut_other _ _ hp1]
      · rw [h1]; exact hfin

/-- C13, amended, on a filesystem with the installed executable "/opt/bin/aw"
and an operating system without failures: the target names a file, so the
only call applied to it is the rename. -/
theorem replaceBinary_frame_witness :
    installedFS "/opt/bin/aw".toList = some ⟨[1, 2], 0o755⟩ ∧
      (replaceBinary noFaults installedFS "/opt/bin/aw".toList [7, 8, 9]).trace.map
          (fun step => step.1)
        = [.createTemp "/opt/bin/aw.update.123".toList, .write "/opt/bin/aw.update.123".toList,
            .chmod "/opt/bin/aw.update.123".toList 0o755,
            .close "/opt/bin/aw.update.123".toList,
            .rename "/opt/bin/aw.update.123".toList "/opt/bin/aw".toList] ∧
      ∃ name : List Char, '/' ∉ name ∧
        (∀ step ∈ (replaceBinary noFaults installedFS "/opt/bin/aw".toList [7, 8, 9]).trace,
          ∀ p ∈ step.1.paths,
            p = joinPath (filepathDir "/opt/bin/aw".toList) name ∨ p = "/opt/bin/aw".toList) ∧
        (∀ step ∈ (replaceBinary noFaults installedFS "/opt/bin/aw".toList [7, 8, 9]).trace,
          "/opt/bin/aw".toList ∈ step.1.paths →
            step.1 = .rename (joinPath (filepathDir "/opt/bin/aw".toList) name)
              "/opt/bin/aw".toList) ∧
        ((replaceBinary noFaults installedFS "/opt/bin/aw".toList [7, 8, 9]).err = none →
          (replaceBinary noFaults installedFS "/opt/bin/aw".toList [7, 8, 9]).trace.getLast?
            = some (.rename (joinPath (filepathDir "/opt/bin/aw".toList) name)
                "/opt/bin/aw".toList,
              (replaceBinary noFaults installedFS "/opt/bin/aw".toList [7, 8, 9]).fs)) ∧
        (∀ p, p ≠ joinPath (filepathDir "/opt/bin/aw".toList) name →
          p ≠ "/opt/bin/aw".toList →
          (replaceBinary noFaults installedFS "/opt/bin/aw".toList [7, 8, 9]).fs p
              = installedFS p ∧
            ∀ step ∈ (replaceBinary noFaults installedFS "/opt/bin/aw".toList [7, 8, 9]).trace,
              step.2 p = installedFS p) :=
  ⟨by decide, by decide,
    match replaceBinary_frame noFaults installedFS "/opt/bin/aw".toList [7, 8, 9] with
    | ⟨name, h1, h2, h3, h4, h5⟩ => ⟨name, h1, h2, h3 (Or.inl (by decide)), h4, h5⟩⟩

/-! ## Lemmas on `FetchLatestRelease` -/

theorem fetch_requests (client : HTTPClient) (log : List Request) :
    (FetchLatestRelease client log).2 = log ++ [metadataRequest] := by
  unfold FetchLatestRelease
  simp only
  split
  · rfl
  · split_ifs
    · rfl
    · split
      · rfl
      · split <;> rfl

theorem fetch_of_response {client : HTTPClient} {log : List Request} {resp : Response}
    (h : client log metadataRequest = .ok resp) :
    (FetchLatestRelease client log).1 =
      if resp.StatusCode ≠ 200 then .error (.badStatus resp.StatusCode resp.Body.text)
      else
        match resp.Body.json with
        | .error e => .error (.parsing (.invalid e))
        | .ok v =>
          match decodeRelease v with
          | .error e => .error (.parsing e)
          | .ok release => .ok release := by
  simp only [FetchLatestRelease, h]
  split_ifs
  · rfl
  · cases resp.Body.json with
    | error e => rfl
    | ok v =>
      simp only
      cases decodeRelease v <;> rfl

theorem keyMatches_excl {k t1 t2 : List Char} (h12 : t1.map foldRune ≠ t2.map foldRune)
    (h : keyMatches k t1 = true) : keyMatches k t2 = false := by
  simp only [keyMatches, decide_eq_true_eq] at h
  simp only [keyMatches, decide_eq_false_iff_not]
  intro h2
  exact h12 (h.symm.trans h2)

theorem stringAt_of_not_key {tag : List Char} (k : List Char) (v : Json)
    (h : keyMatches k tag = false) : stringAt tag (k, v) = none := by
  simp only [stringAt, h, Bool.false_eq_true, if_false]

theorem lastStringOf_cons_getD (tag : List Char) (member : List Char × Json)
    (rest : List (List Char × Json)) (d : List Char) :
    (lastStringOf tag (member :: rest)).getD d
      = (lastStringOf tag rest).getD ((stringAt tag member).getD d) := by
  simp only [lastStringOf]
  cases lastStringOf tag rest <;> rfl

theorem isAssetMember_name {k : List Char} (h : keyMatches k "name".toList = true) (v : Json) :
    isAssetMember (k, v) = isStringOrNull v := by
  unfold isAssetMember
  rw [h]
  rfl

theorem isAssetMember_url {k : List Char}
    (h : keyMatches k "browser_download_url".toList = true) (v : Json) :
    isAssetMember (k, v) = isStringOrNull v := by
  unfold isAssetMember
  rw [h, Bool.or_true]
  rfl

theorem isAssetMember_other {k : List Char} (h1 : keyMatches k "name".toList = false)
    (h2 : keyMatches k "browser_download_url".toList = false) (v : Json) :
    isAssetMember (k, v) = true := by
  unfold isAssetMember
  rw [h1, h2]
  rfl

theorem decodeStringField_ok {v : Json} (h : isStringOrNull v = true) (cur : List Char) :
    decodeStringField cur v
      = .ok ((match v with
          | .str s => some s
          | _ => none).getD cur) := by
  cases v <;> first | rfl | simp [isStringOrNull] at h

theorem decodeStringField_error {v : Json} (h : isStringOrNull v = false) (cur : List Char) :
    ∃ e, decodeStringField cur v = .error e := by
  cases v <;> first | exact ⟨_, rfl⟩ | simp [isStringOrNull] at h

theorem decodeAssetMembers_ok :
    ∀ (members : List (List Char × Json)) (a : Asset), members.all isAssetMember = true →
      decodeAssetMembers a members
        = .ok ⟨(lastStringOf "name".toList members).getD a.Name,
            (lastStringOf "browser_download_url".toList members).getD a.BrowserDownloadURL⟩
  | [], _, _ => rfl
  | (k, v) :: rest, a, h => by
    rw [List.all_cons, Bool.and_eq_true] at h
    obtain ⟨hm, hrest⟩ := h
    rw [lastStringOf_cons_getD, lastStringOf_cons_getD]
    by_cases h1 : keyMatches k "name".toList = true
    · have h2 : keyMatches k "browser_download_url".toList = false :=
        keyMatches_excl (by decide) h1
      have hv : isStringOrNull v = true := by
        rw [← isAssetMember_name h1]; exact hm
      rw [decodeAssetMembers, if_pos h1, decodeStringField_ok hv]
      simp only
      rw [decodeAssetMembers_ok rest _ hrest, stringAt_of_not_key k v h2]
      simp only [stringAt, h1, if_true, Option.getD_none]
    · have h1f : keyMatches k "name".toList = false := by simpa using h1
      by_cases h2 : keyMatches k "browser_download_url".toList = true
      · have hv : isStringOrNull v = true := by
          rw [← isAssetMember_url h2]; exact hm
        rw [decodeAssetMembers, if_neg h1, if_pos h2, decodeStringField_ok hv]
        simp only
        rw [decodeAssetMembers_ok rest _ hrest, stringAt_of_not_key k v h1f]
        simp only [stringAt, h2, if_true, Option.getD_none]
      · have h2f : keyMatches k "browser_download_url".toList = false := by simpa using h2
        rw [decodeAssetMembers, if_neg h1, if_neg h2, decodeAssetMembers_ok rest _ hrest,
          stringAt_of_not_key k v h1f,
          stringAt_of_not_key k v h2f]
        simp only [Option.getD_none]

theorem decodeAssetMembers_error :
    ∀ (members : List (List Char × Json)) (a : Asset), members.all isAssetMember = false →
      ∃ e, decodeAssetMembers a members = .error e
  | [], _, h => absurd h (by simp)
  | (k, v) :: rest, a, h => by
    rw [List.all_cons, Bool.and_eq_false_iff] at h
    by_cases h1 : keyMatches k "name".toList = true
    · rw [decodeAssetMembers, if_pos h1]
      cases hv : isStringOrNull v with
      | false =>
        obtain ⟨e, he⟩ := decodeStringField_error hv a.Name
        exact ⟨e, by rw [he]⟩
      | true =>
        have hm : isAssetMember (k, v) = true := by rw [isAssetMember_name h1, hv]
        rw [decodeStringField_ok hv]
        rcases h with h | h
        · rw [hm] at h
          exact absurd h (by decide)
        · exact decodeAssetMembers_error rest _ h
    · have h1f : keyMatches k "name".toList = false := by simpa using h1
      by_cases h2 : keyMatches k "browser_download_url".toList = true
      · rw [decodeAssetMembers, if_neg h1, if_pos h2]
        cases hv : isStringOrNull v with
        | false =>
          obtain ⟨e, he⟩ := decodeStringField_error hv a.BrowserDownloadURL
          exact ⟨e, by rw [he]⟩
        | true =>
          have hm : isAssetMember (k, v) = true := by rw [isAssetMember_url h2, hv]
          rw [decodeStringField_ok hv]
          rcases h with h | h
          · rw [hm] at h
            exact absurd h (by decide)
          · exact decodeAssetMembers_error rest _ h
      · have h2f : keyMatches k "browser_download_url".toList = false := by simpa using h2
        have hm : isAssetMember (k, v) = true := isAssetMember_other h1f h2f v
        rw [decodeAssetMembers, if_neg h1, if_neg h2]
        rcases h with h | h
        · rw [hm] at h
          exact absurd h (by decide)
        · exact decodeAssetMembers_error rest _ h

theorem decodeAsset_ok {item : Json} (h : isAssetBody item = true) (a : Asset) :
    decodeAsset a item = .ok (mergeAsset a item) := by
  cases item with
  | null => rfl
  | obj members => exact decodeAssetMembers_ok members a h
  | bool b => simp [isAssetBody] at h
  | num n => simp [isAssetBody] at h
  | str s => simp [isAssetBody] at h
  | arr items => simp [isAssetBody] at h

theorem decodeAsset_error {item : Json} (h : isAssetBody item = false) (a : Asset) :
    ∃ e, decodeAsset a item = .error e := by
  cases item with
  | null => simp [isAssetBody] at h
  | obj members => exact decodeAssetMembers_error members a h
  | bool b => exact ⟨_, rfl⟩
  | num n => exact ⟨_, rfl⟩
  | str s => exact ⟨_, rfl⟩
  | arr items => exact ⟨_, rfl⟩

theorem decodeAssetItems_ok :
    ∀ (items : List Json) (mem : List Asset), items.all isAssetBody = true →
      decodeAssetItems mem items = .ok (mergeAssets mem items)
  | [], _, _ => rfl
  | item :: rest, mem, h => by
    rw [List.all_cons, Bool.and_eq_true] at h
    rw [decodeAssetItems, decodeAsset_ok h.1]
    simp only
    rw [decodeAssetItems_ok rest _ h.2]
    rfl

theorem decodeAssetItems_error :
    ∀ (items : List Json) (mem : List Asset), items.all isAssetBody = false →
      ∃ e, decodeAssetItems mem items = .error e
  | [], _, h => absurd h (by simp)
  | item :: rest, mem, h => by
    rw [List.all_cons, Bool.and_eq_false_iff] at h
    rw [decodeAssetItems]
    cases hi : isAssetBody item with
    | false =>
      obtain ⟨e, he⟩ := decodeAsset_error hi (mem.headD ⟨[], []⟩)
      exact ⟨e, by rw [he]⟩
    | true =>
      rw [decodeAsset_ok hi]
      rcases h with h | h
      · rw [hi] at h
        exact absurd h (by decide)
      · obtain ⟨e, he⟩ := decodeAssetItems_error rest mem.tail h
        exact ⟨e, by simp only [he]⟩

theorem decodeAssetsField_ok {v : Json} (h : isAssetsBody v = true) (cur spare : List Asset) :
    ∃ spare2, decodeAssetsField cur spare v
      = .ok ((match v with
          | .arr items => mergeAssets (cur ++ spare) items
          | _ => []), spare2) := by
  cases v with
  | null => exact ⟨[], rfl⟩
  | arr items =>
    refine ⟨if items.isEmpty then [] else (cur ++ spare).drop items.length, ?_⟩
    rw [decodeAssetsField, decodeAssetItems_ok _ _ h]
  | bool b => simp [isAssetsBody] at h
  | num n => simp [isAssetsBody] at h
  | str s => simp [isAssetsBody] at h
  | obj members => simp [isAssetsBody] at h

theorem decodeAssetsField_error {v : Json} (h : isAssetsBody v = false)
    (cur spare : List Asset) : ∃ e, decodeAssetsField cur spare v = .error e := by
  cases v with
  | null => simp [isAssetsBody] at h
  | arr items =>
    obtain ⟨e, he⟩ := decodeAssetItems_error _ (cur ++ spare) h
    exact ⟨e, by rw [decodeAssetsField, he]⟩
  | bool b => exact ⟨_, rfl⟩
  | num n => exact ⟨_, rfl⟩
  | str s => exact ⟨_, rfl⟩
  | obj members => exact ⟨_, rfl⟩
theorem isReleaseMember_tag {k : List Char} (h : keyMatches k "tag_name".toList = true)
    (v : Json) : isReleaseMember (k, v) = isStringOrNull v := by
  unfold isReleaseMember
  rw [if_pos h]

theorem isReleaseMember_assets {k : List Char} (h1 : keyMatches k "tag_name".toList = false)
    (h2 : keyMatches k "assets".toList = true) (v : Json) :
    isReleaseMember (k, v) = isAssetsBody v := by
  unfold isReleaseMember
  rw [if_neg (by rw [h1]; decide), if_pos h2]

theorem isReleaseMember_other {k : List Char} (h1 : keyMatches k "tag_name".toList = false)
    (h2 : keyMatches k "assets".toList = false) (v : Json) :
    isReleaseMember (k, v) = true := by
  unfold isReleaseMember
  rw [if_neg (by rw [h1]; decide), if_neg (by rw [h2]; decide)]

theorem stringAt_of_key {tag k : List Char} (h : keyMatches k tag = true) (v : Json) :
    stringAt tag (k, v)
      = (match v with
        | .str s => some s
        | _ => none) := by
  simp only [stringAt, h, if_true]

theorem lastValueOf_cons_of_not_key {tag : List Char} (k : List Char) (v : Json)
    (h : keyMatches k tag = false) (rest : List (List Char × Json)) :
    lastValueOf tag ((k, v) :: rest) = lastValueOf tag rest := by
  simp only [lastValueOf, h, Bool.false_eq_true, if_false]
  cases lastValueOf tag rest <;> rfl

theorem lastValueOf_cons_of_key {tag : List Char} (k : List Char) (v : Json)
    (h : keyMatches k tag = true) (rest : List (List Char × Json)) :
    lastValueOf tag ((k, v) :: rest) = some ((lastValueOf tag rest).getD v) := by
  simp only [lastValueOf, h, if_true]
  cases lastValueOf tag rest <;> rfl

theorem lastValueOf_some_count {tag : List Char} :
    ∀ (members : List (List Char × Json)) (v : Json), lastValueOf tag members = some v →
      0 < (members.filter fun member => keyMatches member.1 tag).length
  | [], _, h => by simp [lastValueOf] at h
  | (k, w) :: rest, v, h => by
    by_cases hk : keyMatches k tag = true
    · simp only [List.filter_cons, hk, if_true, List.length_cons]
      exact Nat.succ_pos _
    · have hkf : keyMatches k tag = false := by simpa using hk
      simp only [List.filter_cons, hkf, Bool.false_eq_true, if_false]
      rw [lastValueOf_cons_of_not_key k w hkf] at h
      exact lastValueOf_some_count rest v h

theorem decodeReleaseMembers_ok :
    ∀ (members : List (List Char × Json)) (r : ReleaseInfo) (spare : List Asset),
      members.all isReleaseMember = true →
      ∃ res, decodeReleaseMembers r spare members = .ok res ∧
        res.TagName = (lastStringOf "tag_name".toList members).getD r.TagName ∧
        (lastValueOf "assets".toList members = none → res.Assets = r.Assets) ∧
        (∀ v, lastValueOf "assets".toList members = some v →
          ∃ mem, res.Assets = assetsFrom mem v ∧
            ((members.filter fun member => keyMatches member.1 "assets".toList).length ≤ 1 →
              mem = r.Assets ++ spare))
  | [], r, _, _ => ⟨r, rfl, rfl, fun _ => rfl, fun v h => by simp [lastValueOf] at h⟩
  | (k, v) :: rest, r, spare, h => by
    rw [List.all_cons, Bool.and_eq_true] at h
    obtain ⟨hm, hrest⟩ := h
    by_cases h1 : keyMatches k "tag_name".toList = true
    · have h2 : keyMatches k "assets".toList = false := keyMatches_excl (by decide) h1
      have hv : isStringOrNull v = true := by
        rw [← isReleaseMember_tag h1]; exact hm
      obtain ⟨res, hres, ht, ha1, ha2⟩ := decodeReleaseMembers_ok rest
        ⟨(match v with
          | .str s => some s
          | _ => none).getD r.TagName, r.Assets⟩ spare hrest
      refine ⟨res, ?_, ?_, ?_, ?_⟩
      · rw [decodeReleaseMembers, if_pos h1, decodeStringField_ok hv]
        exact hres
      · rw [lastStringOf_cons_getD, stringAt_of_key h1]
        exact ht
      · rw [lastValueOf_cons_of_not_key k v h2]
        exact ha1
      · rw [lastValueOf_cons_of_not_key k v h2]
        simp only [List.filter_cons, h2, Bool.false_eq_true, if_false]
        exact ha2
    · have h1f : keyMatches k "tag_name".toList = false := by simpa using h1
      by_cases h2 : keyMatches k "assets".toList = true
      · have hv : isAssetsBody v = true := by
          rw [← isReleaseMember_assets h1f h2]; exact hm
        obtain ⟨spare2, hdec⟩ := decodeAssetsField_ok hv r.Assets spare
        obtain ⟨res, hres, ht, ha1, ha2⟩ := decodeReleaseMembers_ok rest
          ⟨r.TagName, assetsFrom (r.Assets ++ spare) v⟩ spare2 hrest
        have hdec2 : decodeAssetsField r.Assets spare v
            = .ok (assetsFrom (r.Assets ++ spare) v, spare2) := by
          rw [hdec]
          cases v <;> rfl
        refine ⟨res, ?_, ?_, ?_, ?_⟩
        · rw [decodeReleaseMembers, if_neg h1, if_pos h2, hdec2]
          exact hres
        · rw [lastStringOf_cons_getD, stringAt_of_not_key k v h1f]
          exact ht
        · rw [lastValueOf_cons_of_key k v h2]
          intro hn
          exact absurd hn (by simp)
        · rw [lastValueOf_cons_of_key k v h2]
          simp only [List.filter_cons, h2, if_true]
          intro v2 hv2
          cases hl : lastValueOf "assets".toList rest with
          | none =>
            rw [hl] at hv2
            have hv2e : v = v2 := Option.some.inj hv2
            subst hv2e
            exact ⟨r.Assets ++ spare, ha1 hl, fun _ => rfl⟩
          | some x =>
            rw [hl] at hv2
            have hv2e : x = v2 := Option.some.inj hv2
            subst hv2e
            obtain ⟨mem, hmem, -⟩ := ha2 x hl
            refine ⟨mem, hmem, fun hc => ?_⟩
            have hpos := lastValueOf_some_count rest x hl
            rw [List.length_cons] at hc
            omega
      · have h2f : keyMatches k "assets".toList = false := by simpa using h2
        obtain ⟨res, hres, ht, ha1, ha2⟩ := decodeReleaseMembers_ok rest r spare hrest
        refine ⟨res, ?_, ?_, ?_, ?_⟩
        · rw [decodeReleaseMembers, if_neg h1, if_neg h2]
          exact hres
        · rw [lastStringOf_cons_getD, stringAt_of_not_key k v h1f]
          exact ht
        · rw [lastValueOf_cons_of_not_key k v h2f]
          exact ha1
        · rw [lastValueOf_cons_of_not_key k v h2f]
          simp only [List.filter_cons, h2f, Bool.false_eq_true, if_false]
          exact ha2

theorem decodeReleaseMembers_error :
    ∀ (members : List (List Char × Json)) (r : ReleaseInfo) (spare : List Asset),
      members.all isReleaseMember = false →
      ∃ e, decodeReleaseMembers r spare members = .error e
  | [], _, _, h => absurd h (by simp)
  | (k, v) :: rest, r, spare, h => by
    rw [List.all_cons, Bool.and_eq_false_iff] at h
    by_cases h1 : keyMatches k "tag_name".toList = true
    · rw [decodeReleaseMembers, if_pos h1]
      cases hv : isStringOrNull v with
      | false =>
        obtain ⟨e, he⟩ := decodeStringField_error hv r.TagName
        exact ⟨e, by rw [he]⟩
      | true =>
        have hm : isReleaseMember (k, v) = true := by rw [isReleaseMember_tag h1, hv]
        rw [decodeStringField_ok hv]
        rcases h with h | h
        · rw [hm] at h
          exact absurd h (by decide)
        · exact decodeReleaseMembers_error rest _ _ h
    · have h1f : keyMatches k "tag_name".toList = false := by simpa using h1
      by_cases h2 : keyMatches k "assets".toList = true
      · rw [decodeReleaseMembers, if_neg h1, if_pos h2]
        cases hv : isAssetsBody v with
        | false =>
          obtain ⟨e, he⟩ := decodeAssetsField_error hv r.Assets spare
          exact ⟨e, by rw [he]⟩
        | true =>
          have hm : isReleaseMember (k, v) = true := by rw [isReleaseMember_assets h1f h2, hv]
          obtain ⟨spare2, hdec⟩ := decodeAssetsField_ok hv r.Assets spare
          rw [hdec]
          rcases h with h | h
          · rw [hm] at h
            exact absurd h (by decide)
          · exact decodeReleaseMembers_error rest _ _ h
      · have h2f : keyMatches k "assets".toList = false := by simpa using h2
        have hm : isReleaseMember (k, v) = true := isReleaseMember_other h1f h2f v
        rw [decodeReleaseMembers, if_neg h1, if_neg h2]
        rcases h with h | h
        · rw [hm] at h
          exact absurd h (by decide)
        · exact decodeReleaseMembers_error rest _ _ h

theorem mergeAssets_length : ∀ (items : List Json) (mem : List Asset),
    (mergeAssets mem items).length = items.length
  | [], _ => rfl
  | _ :: rest, mem => by
    rw [mergeAssets, List.length_cons, List.length_cons, mergeAssets_length rest]

theorem mergeAssets_nil : ∀ items : List Json, mergeAssets [] items = items.map bodyAsset
  | [] => rfl
  | item :: rest => by
    rw [mergeAssets, List.map_cons]
    exact congrArg _ (mergeAssets_nil rest)

theorem mergeAssets_getElem? : ∀ (items : List Json) (mem : List Asset) (i : Nat) (item : Json),
    items[i]? = some item → ∃ a, (mergeAssets mem items)[i]? = some (mergeAsset a item)
  | [], _, _, _, h => by simp at h
  | first :: rest, mem, 0, item, h => by
    rw [List.getElem?_cons_zero] at h
    have he : first = item := Option.some.inj h
    subst he
    exact ⟨mem.headD ⟨[], []⟩, by rw [mergeAssets, List.getElem?_cons_zero]⟩
  | first :: rest, mem, i + 1, item, h => by
    rw [List.getElem?_cons_succ] at h
    obtain ⟨a, ha⟩ := mergeAssets_getElem? rest mem.tail i item h
    exact ⟨a, by rw [mergeAssets, List.getElem?_cons_succ, ha]⟩

theorem assetsFrom_spec (mem : List Asset) (v : Json) :
    (assetsFrom mem v).length = (arrayItems v).length ∧
      (∀ (i : Nat) (item : Json), (arrayItems v)[i]? = some item →
        ∃ a, (assetsFrom mem v)[i]? = some (mergeAsset a item)) ∧
      (mem = [] → assetsFrom mem v = (arrayItems v).map bodyAsset) := by
  cases v with
  | arr items =>
    exact ⟨mergeAssets_length items mem, mergeAssets_getElem? items mem,
      fun h => by rw [h]; exact mergeAssets_nil items⟩
  | null => exact ⟨rfl, fun i item h => by simp [arrayItems] at h, fun _ => rfl⟩
  | bool b => exact ⟨rfl, fun i item h => by simp [arrayItems] at h, fun _ => rfl⟩
  | num n => exact ⟨rfl, fun i item h => by simp [arrayItems] at h, fun _ => rfl⟩
  | str s => exact ⟨rfl, fun i item h => by simp [arrayItems] at h, fun _ => rfl⟩
  | obj ms => exact ⟨rfl, fun i item h => by simp [arrayItems] at h, fun _ => rfl⟩

theorem mergeAsset_fields (a : Asset) (item : Json) :
    (∀ name, bodyAssetName item = some name → (mergeAsset a item).Name = name) ∧
      (∀ url, bodyAssetURL item = some url → (mergeAsset a item).BrowserDownloadURL = url) := by
  constructor
  · intro name h
    simp only [mergeAsset, h, Option.getD_some]
  · intro url h
    simp only [mergeAsset, h, Option.getD_some]

theorem decodeRelease_spec (v : Json) :
    ((∃ r, decodeRelease v = .ok r) ↔ isReleaseBody v = true) ∧
      ∀ r, decodeRelease v = .ok r →
        r.TagName = bodyTagName v ∧
          r.Assets.length = (bodyAssets v).length ∧
          (∀ (i : Nat) (item : Json), (bodyAssets v)[i]? = some item →
            ∃ a, r.Assets[i]? = some a ∧
              (∀ name, bodyAssetName item = some name → a.Name = name) ∧
              (∀ url, bodyAssetURL item = some url → a.BrowserDownloadURL = url)) ∧
          (assetsKeyCount v ≤ 1 → r.Assets = (bodyAssets v).map bodyAsset) := by
  cases v with
  | null =>
    refine ⟨⟨fun _ => rfl, fun _ => ⟨_, rfl⟩⟩, ?_⟩
    intro r hr
    have hr2 : r = ⟨[], []⟩ := (Except.ok.inj hr).symm
    subst hr2
    exact ⟨rfl, rfl, fun i item h => by simp [bodyAssets] at h, fun _ => rfl⟩
  | bool b =>
    exact ⟨⟨fun ⟨r, hr⟩ => by simp [decodeRelease] at hr, fun h => by simp [isReleaseBody] at h⟩,
      fun r hr => by simp [decodeRelease] at hr⟩
  | num n =>
    exact ⟨⟨fun ⟨r, hr⟩ => by simp [decodeRelease] at hr, fun h => by simp [isReleaseBody] at h⟩,
      fun r hr => by simp [decodeRelease] at hr⟩
  | str s =>
    exact ⟨⟨fun ⟨r, hr⟩ => by simp [decodeRelease] at hr, fun h => by simp [isReleaseBody] at h⟩,
      fun r hr => by simp [decodeRelease] at hr⟩
  | arr items =>
    exact ⟨⟨fun ⟨r, hr⟩ => by simp [decodeRelease] at hr, fun h => by simp [isReleaseBody] at h⟩,
      fun r hr => by simp [decodeRelease] at hr⟩
  | obj members =>
    cases hb : members.all isReleaseMember with
    | false =>
      obtain ⟨e, he⟩ := decodeReleaseMembers_error members ⟨[], []⟩ [] hb
      have hd : decodeRelease (.obj members) = .error e := he
      refine ⟨⟨fun ⟨r, hr⟩ => ?_, fun h => ?_⟩, fun r hr => ?_⟩
      · rw [hd] at hr
        exact Except.noConfusion hr
      · have h2 : members.all isReleaseMember = true := h
        rw [hb] at h2
        exact absurd h2 (by decide)
      · rw [hd] at hr
        exact Except.noConfusion hr
    | true =>
      obtain ⟨res, hres, ht, ha1, ha2⟩ := decodeReleaseMembers_ok members ⟨[], []⟩ [] hb
      have hd : decodeRelease (.obj members) = .ok res := hres
      refine ⟨⟨fun _ => hb, fun _ => ⟨res, hd⟩⟩, fun r hr => ?_⟩
      rw [hd] at hr
      have hr2 : res = r := Except.ok.inj hr
      subst hr2
      refine ⟨ht, ?_⟩
      cases hl : lastValueOf "assets".toList members with
      | none =>
        have hA : res.Assets = [] := ha1 hl
        have hB : bodyAssets (.obj members) = [] := by simp only [bodyAssets, hl]
        rw [hA, hB]
        exact ⟨rfl, fun i item h => by simp at h, fun _ => rfl⟩
      | some x =>
        obtain ⟨mem, hmem, hone⟩ := ha2 x hl
        have hB : bodyAssets (.obj members) = arrayItems x := by
          simp only [bodyAssets, hl]
        obtain ⟨s1, s2, s3⟩ := assetsFrom_spec mem x
        rw [hmem, hB]
        refine ⟨s1, ?_, ?_⟩
        · intro i item hi
          obtain ⟨a, ha⟩ := s2 i item hi
          exact ⟨mergeAsset a item, ha, mergeAsset_fields a item⟩
        · intro hc
          exact s3 (hone hc)

theorem decodeAssetItems_map (assets : List Asset) :
    decodeAssetItems [] (assets.map assetJson) = .ok assets := by
  induction assets with
  | nil => rfl
  | cons a rest ih =>
    rw [List.map_cons, decodeAssetItems]
    have ha : decodeAsset (([] : List Asset).headD ⟨[], []⟩) (assetJson a) = .ok a := by
      obtain ⟨n, u⟩ := a
      show decodeAssetMembers ⟨[], []⟩
        [("name".toList, .str n), ("browser_download_url".toList, .str u)] = _
      rw [decodeAssetMembers, if_pos (by decide)]
      simp only [decodeStringField]
      rw [decodeAssetMembers, if_neg (by decide), if_pos (by decide)]
      simp only [decodeStringField]
      rfl
    rw [ha]
    simp only [List.tail_nil, ih]

theorem decodeRelease_releaseJson (r : ReleaseInfo) : decodeRelease (releaseJson r) = .ok r := by
  obtain ⟨t, assets⟩ := r
  show decodeReleaseMembers ⟨[], []⟩ []
    [("tag_name".toList, .str t), ("assets".toList, .arr (assets.map assetJson))] = _
  rw [decodeReleaseMembers, if_pos (by decide)]
  simp only [decodeStringField]
  rw [decodeReleaseMembers, if_neg (by decide), if_pos (by decide)]
  simp only [decodeAssetsField, List.append_nil, decodeAssetItems_map]
  rfl

/-! ## The release resolver: the response -/

/-- C18, as stated, fails: status 201 is in the 200 class and the body is a
release object that decodes, yet `FetchLatestRelease` does not decode it and
fails with the status error. -/
theorem FetchLatestRelease_rejects_201 :
    (200 ≤ 201 ∧ 201 ≤ 299) ∧
      (∃ r, decodeRelease twoAssetsJson = .ok r) ∧
      (FetchLatestRelease (mockHTTPClient 201 (jsonBody twoAssetsJson)) []).1
        = .error (.badStatus 201 []) := by
  refine ⟨by decide, ⟨_, decodeRelease_releaseJson ⟨"v0.2.0".toList,
    [⟨"aw_darwin_arm64.tar.gz".toList, "https://example.com/darwin_arm64.tar.gz".toList⟩,
      ⟨"aw_linux_amd64.tar.gz".toList, "https://example.com/linux_amd64.tar.gz".toList⟩]⟩⟩, ?_⟩
  decide

/-- C18, amended: `FetchLatestRelease` requires status 200.  For a response
with status 200 it goes on to decode the body, and its result is the result of
the decoding; for every response with another status, those from 201 to 299
too, it fails, whatever the body would decode to, with the error that carries
the status code and the body. -/
theorem FetchLatestRelease_status (client : HTTPClient) (log : List Request) (resp : Response)
    (h : client log metadataRequest = .ok resp) :
    (resp.StatusCode ≠ 200 →
        (FetchLatestRelease client log).1
          = .error (.badStatus resp.StatusCode resp.Body.text)) ∧
      (resp.StatusCode = 200 →
        (∀ e, resp.Body.json = .error e →
          (FetchLatestRelease client log).1 = .error (.parsing (.invalid e))) ∧
        (∀ v e, resp.Body.json = .ok v → decodeRelease v = .error e →
          (FetchLatestRelease client log).1 = .error (.parsing e)) ∧
        (∀ v r, resp.Body.json = .ok v → decodeRelease v = .ok r →
          (FetchLatestRelease client log).1 = .ok r)) := by
  rw [fetch_of_response h]
  refine ⟨fun hs => by rw [if_pos hs], fun hs => ⟨?_, ?_, ?_⟩⟩
  · intro e he
    rw [if_neg (by simp [hs]), he]
  · intro v e hv he
    rw [if_neg (by simp [hs]), hv]
    simp only [he]
  · intro v r hv hr
    rw [if_neg (by simp [hs]), hv]
    simp only [hr]

/-- C18, amended, at the response of `TestFetchLatestRelease_HTTPError`: status
404 fails with the error that carries 404 and the body. -/
theorem FetchLatestRelease_status_witness :
    mockHTTPClient 404 notFoundBody [] metadataRequest = .ok ⟨404, notFoundBody⟩ ∧
      (404 : Nat) ≠ 200 ∧
      (FetchLatestRelease (mockHTTPClient 404 notFoundBody) []).1
        = .error (.badStatus 404 "\x7b\"message\":\"Not Found\"\x7d".toList) :=
  ⟨rfl, by decide,
    (FetchLatestRelease_status (mockHTTPClient 404 notFoundBody) [] ⟨404, notFoundBody⟩ rfl).1
      (by decide)⟩

/-- C19: for every response with status 200, `FetchLatestRelease` succeeds
exactly when the body is a JSON value that decodes as a release: `null`, or an
object in which every value under "tag_name" is a string or `null` and every
value under "assets" is `null` or an array of `null`s and objects whose values
under "name" and "browser_download_url" are strings or `null` (keys are
compared without regard to case, other keys are ignored).  On success the
release has the tag name of the body (the last string under "tag_name", empty
if there is none) and as many assets as the last "assets" array of the body
has elements, in the same order: asset `i` has the name and the download URL
that element `i` gives, and when the key "assets" occurs at most once the
assets are exactly those of the elements, a field an element does not give
being empty.  A body that is not JSON gives an error and no release. -/
theorem FetchLatestRelease_decodes (client : HTTPClient) (log : List Request) (resp : Response)
    (h : client log metadataRequest = .ok resp) (h200 : resp.StatusCode = 200) :
    (∀ e, resp.Body.json = .error e →
        (FetchLatestRelease client log).1 = .error (.parsing (.invalid e))) ∧
      (∀ v, resp.Body.json = .ok v →
        ((∃ r, (FetchLatestRelease client log).1 = .ok r) ↔ isReleaseBody v = true) ∧
        (∀ r, (FetchLatestRelease client log).1 = .ok r →
          r.TagName = bodyTagName v ∧
            r.Assets.length = (bodyAssets v).length ∧
            (∀ (i : Nat) (item : Json), (bodyAssets v)[i]? = some item →
              ∃ a, r.Assets[i]? = some a ∧
                (∀ name, bodyAssetName item = some name → a.Name = name) ∧
                (∀ url, bodyAssetURL item = some url → a.BrowserDownloadURL = url)) ∧
            (assetsKeyCount v ≤ 1 → r.Assets = (bodyAssets v).map bodyAsset))) := by
  have hif : ¬ (resp.StatusCode ≠ 200) := by simp [h200]
  rw [fetch_of_response h, if_neg hif]
  refine ⟨?_, ?_⟩
  · intro e he
    rw [he]
  · intro v hv
    rw [hv]
    have hres : ∀ r, (match decodeRelease v with
        | .error e => (.error (.parsing e) : Except FetchError ReleaseInfo)
        | .ok release => .ok release) = .ok r ↔ decodeRelease v = .ok r := by
      intro r
      cases hd : decodeRelease v with
      | error e => simp
      | ok r2 => simp
    obtain ⟨hiff, hok⟩ := decodeRelease_spec v
    refine ⟨?_, ?_⟩
    · rw [← hiff]
      constructor
      · rintro ⟨r, hr⟩
        exact ⟨r, (hres r).mp hr⟩
      · rintro ⟨r, hr⟩
        exact ⟨r, (hres r).mpr hr⟩
    · intro r hr
      exact hok r ((hres r).mp hr)

/-- C19, at the bodies of `TestFetchLatestRelease` and
`TestFetchLatestRelease_BadJSON`: the body with tag "v0.2.0" and two assets
yields that tag and 2 assets, and the body "not json" yields an error.  A body
with other keys, the tag in capitals after the assets, an asset without
download URL and a `null` asset yields the tag and two assets in order; a
number under "tag_name" is refused; and a second "assets" array is decoded
into the elements of the first. -/
theorem FetchLatestRelease_decodes_witness :
    (mockHTTPClient 200 (jsonBody twoAssetsJson) [] metadataRequest
        = .ok ⟨200, jsonBody twoAssetsJson⟩ ∧ (200 : Nat) = 200) ∧
      (FetchLatestRelease (mockHTTPClient 200 (jsonBody twoAssetsJson)) []).1
        = .ok ⟨"v0.2.0".toList,
            [⟨"aw_darwin_arm64.tar.gz".toList, "https://example.com/darwin_arm64.tar.gz".toList⟩,
              ⟨"aw_linux_amd64.tar.gz".toList,
                "https://example.com/linux_amd64.tar.gz".toList⟩]⟩ ∧
      (∃ r, (FetchLatestRelease (mockHTTPClient 200 (jsonBody twoAssetsJson)) []).1 = .ok r) ∧
      (FetchLatestRelease (mockHTTPClient 200 notJsonBody) []).1
        = .error (.parsing (.invalid
            "invalid character 'o' in literal null (expecting 'u')".toList)) ∧
      (FetchLatestRelease (mockHTTPClient 200 (jsonBody looseReleaseJson)) []).1
        = .ok ⟨"v0.3.0".toList, [⟨"aw_linux_amd64.tar.gz".toList, []⟩, ⟨[], []⟩]⟩ ∧
      (FetchLatestRelease (mockHTTPClient 200
          (jsonBody (.obj [("tag_name".toList, .num "5".toList)]))) []).1
        = .error (.parsing (.mismatch "number".toList "string".toList)) ∧
      (FetchLatestRelease (mockHTTPClient 200 (jsonBody repeatedAssetsJson)) []).1
        = .ok ⟨[], [⟨"b".toList, "u".toList⟩]⟩ :=
  ⟨⟨rfl, rfl⟩, by decide,
    ((FetchLatestRelease_decodes (mockHTTPClient 200 (jsonBody twoAssetsJson)) []
      ⟨200, jsonBody twoAssetsJson⟩ rfl rfl).2 twoAssetsJson rfl).1.mpr (by decide),
    (FetchLatestRelease_decodes (mockHTTPClient 200 notJsonBody) []
      ⟨200, notJsonBody⟩ rfl rfl).1 _ rfl,
    by decide, by decide, by decide⟩

/-! ## Lemmas on `Execute` -/

theorem download_requests (os : OsEnv) (u : Updater) (url : List Char) (log : List Request) :
    (download os u url log).2 = log ∨ (download os u url log).2 = log ++ [downloadRequest url] := by
  unfold download
  split
  · exact Or.inl rfl
  · simp only
    split
    · exact Or.inr rfl
    · split_ifs
      · exact Or.inr rfl
      · split <;> exact Or.inr rfl

theorem download_ok (os : OsEnv) {u : Updater} {url : List Char} {log : List Request}
    {resp : Response} (hurl : os.urlErr url = none)
    (hresp : u.HTTPClient log (downloadRequest url) = .ok resp)
    (hstatus : resp.StatusCode = 200) (hread : resp.Body.readErr = none) :
    download os u url log = (.ok resp.Body.archive, log ++ [downloadRequest url]) := by
  simp only [download, hurl, hresp, hstatus, hread, ne_eq, not_true_eq_false, if_false]

theorem Execute_fetch_error {os : OsEnv} {u : Updater} {w : World} {e : FetchError}
    (hf : (FetchLatestRelease u.HTTPClient w.requests).1 = .error e) :
    Execute os u w = (some (.checkingLatestRelease e),
      ⟨w.fs, w.requests ++ [metadataRequest],
        w.stderr ++ ["Checking for updates...\n".toList], w.fsCalls⟩) := by
  simp only [Execute, World.print, hf, fetch_requests]

theorem Execute_compare_error {os : OsEnv} {u : Updater} {w : World} {release : ReleaseInfo}
    {b : Bool} {e : NewerError}
    (hf : (FetchLatestRelease u.HTTPClient w.requests).1 = .ok release)
    (hn : isNewer (trimLeading release.TagName "v".toList) u.CurrentVersion = (b, some e)) :
    Execute os u w = (some (.comparingVersions e),
      ⟨w.fs, w.requests ++ [metadataRequest],
        w.stderr ++ ["Checking for updates...\n".toList], w.fsCalls⟩) := by
  simp only [Execute, World.print, hf, hn, fetch_requests]

theorem Execute_not_newer {os : OsEnv} {u : Updater} {w : World} {release : ReleaseInfo}
    (hf : (FetchLatestRelease u.HTTPClient w.requests).1 = .ok release)
    (hn : isNewer (trimLeading release.TagName "v".toList) u.CurrentVersion = (false, none)) :
    Execute os u w = (none,
      ⟨w.fs, w.requests ++ [metadataRequest],
        w.stderr ++ ["Checking for updates...\n".toList] ++
          ["aw ".toList ++ u.CurrentVersion ++ " is already the latest version.\n".toList],
        w.fsCalls⟩) := by
  simp only [Execute, World.print, hf, hn, fetch_requests, Bool.not_false, if_true]

theorem Execute_asset_error {os : OsEnv} {u : Updater} {w : World} {release : ReleaseInfo}
    {e : AssetError}
    (hf : (FetchLatestRelease u.HTTPClient w.requests).1 = .ok release)
    (hn : isNewer (trimLeading release.TagName "v".toList) u.CurrentVersion = (true, none))
    (ha : FindAssetURL release u.GOOS u.GOARCH = .error e) :
    Execute os u w = (some (.assetNotFound e),
      ⟨w.fs, w.requests ++ [metadataRequest],
        w.stderr ++ ["Checking for updates...\n".toList] ++
          ["Updating aw: ".toList ++ u.CurrentVersion ++ " → ".toList
            ++ trimLeading release.TagName "v".toList ++ "\n".toList],
        w.fsCalls⟩) := by
  simp only [Execute, World.print, hf, hn, ha, fetch_requests, Bool.not_true, Bool.false_eq_true,
    if_false]

theorem Execute_download_error {os : OsEnv} {u : Updater} {w : World} {release : ReleaseInfo}
    {url : List Char} {e : DownloadError}
    (hf : (FetchLatestRelease u.HTTPClient w.requests).1 = .ok release)
    (hn : isNewer (trimLeading release.TagName "v".toList) u.CurrentVersion = (true, none))
    (ha : FindAssetURL release u.GOOS u.GOARCH = .ok url)
    (hd : (download os u url (w.requests ++ [metadataRequest])).1 = .error e) :
    Execute os u w = (some (.downloadingRelease e),
      ⟨w.fs, (download os u url (w.requests ++ [metadataRequest])).2,
        linesAtDownload u release w, w.fsCalls⟩) := by
  simp only [Execute, World.print, hf, hn, ha, hd, fetch_requests, Bool.not_true,
    Bool.false_eq_true, if_false, linesAtDownload]

theorem Execute_extract_error {os : OsEnv} {u : Updater} {w : World} {release : ReleaseInfo}
    {url : List Char} {archive : ArchiveData} {e : ExtractError}
    (hf : (FetchLatestRelease u.HTTPClient w.requests).1 = .ok release)
    (hn : isNewer (trimLeading release.TagName "v".toList) u.CurrentVersion = (true, none))
    (ha : FindAssetURL release u.GOOS u.GOARCH = .ok url)
    (hd : (download os u url (w.requests ++ [metadataRequest])).1 = .ok archive)
    (hx : extractBinary archive = .error e) :
    Execute os u w = (some (.extractingBinary e),
      ⟨w.fs, (download os u url (w.requests ++ [metadataRequest])).2,
        linesAtDownload u release w, w.fsCalls⟩) := by
  simp only [Execute, World.print, hf, hn, ha, hd, hx, fetch_requests, Bool.not_true,
    Bool.false_eq_true, if_false, linesAtDownload]

theorem Execute_path_error {os : OsEnv} {u : Updater} {w : World} {release : ReleaseInfo}
    {url : List Char} {archive : ArchiveData} {data : List UInt8} {e : List Char}
    (hf : (FetchLatestRelease u.HTTPClient w.requests).1 = .ok release)
    (hn : isNewer (trimLeading release.TagName "v".toList) u.CurrentVersion = (true, none))
    (ha : FindAssetURL release u.GOOS u.GOARCH = .ok url)
    (hd : (download os u url (w.requests ++ [metadataRequest])).1 = .ok archive)
    (hx : extractBinary archive = .ok data)
    (hp : executablePath os u = .error e) :
    Execute os u w = (some (.determiningPath e),
      ⟨w.fs, (download os u url (w.requests ++ [metadataRequest])).2,
        linesAtDownload u release w, w.fsCalls⟩) := by
  simp only [Execute, World.print, hf, hn, ha, hd, hx, hp, fetch_requests, Bool.not_true,
    Bool.false_eq_true, if_false, linesAtDownload]

theorem Execute_replace {os : OsEnv} {u : Updater} {w : World} {release : ReleaseInfo}
    {url : List Char} {archive : ArchiveData} {data : List UInt8} {targetPath : List Char}
    (hf : (FetchLatestRelease u.HTTPClient w.requests).1 = .ok release)
    (hn : isNewer (trimLeading release.TagName "v".toList) u.CurrentVersion = (true, none))
    (ha : FindAssetURL release u.GOOS u.GOARCH = .ok url)
    (hd : (download os u url (w.requests ++ [metadataRequest])).1 = .ok archive)
    (hx : extractBinary archive = .ok data)
    (hp : executablePath os u = .ok targetPath) :
    Execute os u w =
      match (replaceBinary os.faults w.fs targetPath data).err with
      | some e => (some (.replacingBinary e),
          ⟨(replaceBinary os.faults w.fs targetPath data).fs,
            (download os u url (w.requests ++ [metadataRequest])).2,
            linesAtDownload u release w,
            w.fsCalls ++ (replaceBinary os.faults w.fs targetPath data).trace.map
              (fun s => s.1)⟩)
      | none => (none,
          ⟨(replaceBinary os.faults w.fs targetPath data).fs,
            (download os u url (w.requests ++ [metadataRequest])).2,
            linesAtDownload u release w ++
              ["Updated successfully! Run 'aw --version' to verify.\n".toList],
            w.fsCalls ++ (replaceBinary os.faults w.fs targetPath data).trace.map
              (fun s => s.1)⟩) := by
  simp only [Execute, World.print, hf, hn, ha, hd, hx, hp, fetch_requests, Bool.not_true,
    Bool.false_eq_true, if_false, linesAtDownload]

theorem download_ok_requests {os : OsEnv} {u : Updater} {url : List Char}
    {log : List Request} {archive : ArchiveData}
    (h : (download os u url log).1 = .ok archive) :
    (download os u url log).2 = log ++ [downloadRequest url] := by
  unfold download at h ⊢
  split
  · rename_i e he
    simp [he] at h
  · rename_i he
    simp only [he] at h ⊢
    split
    · rfl
    · split_ifs
      · rfl
      · split <;> rfl

theorem findAssetLoop_first {expected : List Char} {pre post : List Asset} {a : Asset}
    (hpre : ∀ x ∈ pre, x.Name ≠ expected) (ha : a.Name = expected) :
    findAssetLoop expected (pre ++ a :: post) = some a.BrowserDownloadURL := by
  induction pre with
  | nil => simp [findAssetLoop, ha]
  | cons x rest ih =>
    have hx : x.Name ≠ expected := hpre x (by simp)
    rw [List.cons_append, findAssetLoop, if_neg hx]
    exact ih (fun y hy => hpre y (List.mem_cons_of_mem _ hy))

theorem parseVersion_trim_of_ok {s : List Char} {t : Int × Int × Int}
    (h : parseVersion s = .ok t) : parseVersion (trimLeading s "v".toList) = .ok t := by
  obtain ⟨a, b, c⟩ := t
  obtain ⟨p0, p1, p2, hs, h0, -, -⟩ := parseVersion_ok_parts h
  have hv : "v".toList = ['v'] := rfl
  rw [hv, ← h]
  apply parseVersion_congr
  cases ht : trimLeading s ['v'] with
  | nil => exact trimLeading_v_nil
  | cons c cs =>
    rw [ht] at hs
    by_cases hc : c = '.'
    · subst hc
      simp only [splitOnByte, if_true, List.cons.injEq] at hs
      rw [← hs.1] at h0
      simp [atoi] at h0
    · obtain ⟨p, ps, -, h2⟩ := splitOnByte_cons_ne hc cs
      rw [h2] at hs
      simp only [List.cons.injEq] at hs
      have hdec := (atoi_ok h0).1
      rw [← hs.1] at hdec
      have hcv : c ≠ 'v' := by
        rintro rfl
        simp [isDecimalInteger, isDigitString, isDecimalDigit] at hdec
      exact trimLeading_v_of_head_ne hcv cs

theorem isNewer_trim_of_parsed {tag cur : List Char} {tl tc : Int × Int × Int}
    (hl : parseVersion tag = .ok tl) (hc : parseVersion cur = .ok tc) :
    isNewer (trimLeading tag "v".toList) cur = (decide (tripleGreater tl tc), none) :=
  isNewer_of_parsed (parseVersion_trim_of_ok hl) hc

theorem fetch_ok_of_response {client : HTTPClient} {log : List Request} {resp : Response}
    {v : Json} {release : ReleaseInfo} (hmeta : client log metadataRequest = .ok resp)
    (h200 : resp.StatusCode = 200) (hjson : resp.Body.json = .ok v)
    (hdec : decodeRelease v = .ok release) :
    (FetchLatestRelease client log).1 = .ok release := by
  rw [fetch_of_response hmeta, if_neg (by simp [h200]), hjson]
  simp only [hdec]

theorem Execute_up_to_date_run (os : OsEnv) {u : Updater} (w : World) {resp : Response}
    {v : Json} {release : ReleaseInfo} {tl tc : Int × Int × Int}
    (hmeta : u.HTTPClient w.requests metadataRequest = .ok resp)
    (h200 : resp.StatusCode = 200) (hjson : resp.Body.json = .ok v)
    (hdec : decodeRelease v = .ok release)
    (hl : parseVersion release.TagName = .ok tl) (hc : parseVersion u.CurrentVersion = .ok tc)
    (hnot : ¬ tripleGreater tl tc) :
    Execute os u w = (none,
      ⟨w.fs, w.requests ++ [metadataRequest],
        w.stderr ++ ["Checking for updates...\n".toList] ++
          ["aw ".toList ++ u.CurrentVersion ++ " is already the latest version.\n".toList],
        w.fsCalls⟩) := by
  apply Execute_not_newer (fetch_ok_of_response hmeta h200 hjson hdec)
  rw [isNewer_trim_of_parsed hl hc]
  simp [hnot]

/-! ## The update orchestrator -/

/-- C14: end-to-end update.  If the metadata response has status 200 and
decodes to a release whose tag is strictly newer than the current version, the
first asset named `aw_<GOOS>_<GOARCH>.tar.gz` has a URL whose download returns
status 200 with an archive whose first entry of base name "aw" is the entry
"aw", the executable path resolves to `targetPath`, and the filesystem calls
in the directory of `targetPath` succeed, then `Execute` returns success and
the file at `targetPath` holds exactly the bytes of that entry, with mode
0755. -/
theorem Execute_update (os : OsEnv) (u : Updater) (w : World) (meta archive : Body)
    (v : Json) (release : ReleaseInfo) (tl tc : Int × Int × Int)
    (pre post : List Asset) (a : Asset) (before : List (List Char × List UInt8))
    (content : List UInt8) (rest : TarReader) (targetPath tmp : List Char)
    (hmeta : u.HTTPClient w.requests metadataRequest = .ok ⟨200, meta⟩)
    (hjson : meta.json = .ok v) (hdec : decodeRelease v = .ok release)
    (hl : parseVersion release.TagName = .ok tl) (hc : parseVersion u.CurrentVersion = .ok tc)
    (hnewer : tripleGreater tl tc)
    (hassets : release.Assets = pre ++ a :: post)
    (hpre : ∀ x ∈ pre, x.Name ≠ expectedAssetName u.GOOS u.GOARCH)
    (hname : a.Name = expectedAssetName u.GOOS u.GOARCH)
    (hurl : os.urlErr a.BrowserDownloadURL = none)
    (hdl : u.HTTPClient (w.requests ++ [metadataRequest])
      (downloadRequest a.BrowserDownloadURL) = .ok ⟨200, archive⟩)
    (hread : archive.readErr = none)
    (harch : archive.archive
      = .gzip (TarReader.after before (.entry ⟨binaryName⟩ (.ok content) rest)))
    (hbefore : ∀ e ∈ before, filepathBase e.1 ≠ binaryName)
    (hpath : executablePath os u = .ok targetPath)
    (hcreate : createTemp os.faults w.fs (filepathDir targetPath)
      (binaryName ++ ".update.*".toList) = .ok tmp)
    (hwrite : os.faults.writeErr = none) (hchmod : os.faults.chmodErr = none)
    (hclose : os.faults.closeErr = none) (hrename : os.faults.renameErr = none) :
    (Execute os u w).1 = none ∧
      (Execute os u w).2.fs targetPath = some ⟨content, 0o755⟩ := by
  have hf := fetch_ok_of_response hmeta rfl hjson hdec
  have hn : isNewer (trimLeading release.TagName "v".toList) u.CurrentVersion = (true, none) := by
    rw [isNewer_trim_of_parsed hl hc]
    simp [hnewer]
  have ha : FindAssetURL release u.GOOS u.GOARCH = .ok a.BrowserDownloadURL := by
    simp only [FindAssetURL, hassets, findAssetLoop_first hpre hname]
  have hd := download_ok os hurl hdl rfl hread
  have hx : extractBinary archive.archive = .ok content := by
    rw [harch, extractBinary, extractLoop_after before _ hbefore, extractLoop,
      if_pos filepathBase_binaryName]
  have hd1 : (download os u a.BrowserDownloadURL (w.requests ++ [metadataRequest])).1
      = .ok archive.archive := by rw [hd]
  rw [Execute_replace hf hn ha hd1 hx hpath, replaceBinary_unfold content hcreate, hwrite,
    hchmod, hclose, hrename]
  exact ⟨rfl, fsPut_same _ _ _⟩

/-- C14, in the world of `TestExecute_NewVersionAvailable`: tag "v0.2.0",
current version "0.1.0", one asset for testOS/testArch whose archive holds
"aw" with the bytes 7, 8, 9; the run succeeds and "/opt/bin/aw" holds those
bytes with mode 0755. -/
theorem Execute_update_witness :
    (parseVersion "v0.2.0".toList = .ok (0, 2, 0) ∧ parseVersion "0.1.0".toList = .ok (0, 1, 0) ∧
        tripleGreater (0, 2, 0) (0, 1, 0)) ∧
      createTemp noFaults installedFS (filepathDir "/opt/bin/aw".toList)
          (binaryName ++ ".update.*".toList) = .ok "/opt/bin/aw.update.123".toList ∧
      (Execute plainOs
          ⟨newVersionClient, "0.1.0".toList, "testOS".toList, "testArch".toList,
            "/opt/bin/aw".toList⟩ freshWorld).1 = none ∧
      (Execute plainOs
          ⟨newVersionClient, "0.1.0".toList, "testOS".toList, "testArch".toList,
            "/opt/bin/aw".toList⟩ freshWorld).2.fs "/opt/bin/aw".toList
        = some ⟨[7, 8, 9], 0o755⟩ :=
  ⟨⟨by decide, by decide, by decide⟩, by decide,
    Execute_update plainOs
      ⟨newVersionClient, "0.1.0".toList, "testOS".toList, "testArch".toList,
        "/opt/bin/aw".toList⟩ freshWorld (jsonBody newVersionJson)
      (archiveBody (createTestArchive [7, 8, 9])) newVersionJson
      ⟨"v0.2.0".toList, [⟨"aw_testOS_testArch.tar.gz".toList,
        "http://127.0.0.1/download/archive.tar.gz".toList⟩]⟩
      (0, 2, 0) (0, 1, 0) []
      [] ⟨"aw_testOS_testArch.tar.gz".toList, "http://127.0.0.1/download/archive.tar.gz".toList⟩
      [] [7, 8, 9] .eof "/opt/bin/aw".toList "/opt/bin/aw.update.123".toList
      rfl rfl (by decide) (by decide) (by decide) (by decide) rfl (by simp) (by decide) rfl rfl
      rfl rfl (by simp) (by decide) (by decide) rfl rfl rfl rfl⟩

/-- C15: if the metadata response has status 200 and decodes to a release whose
tag is not strictly newer than the current version, `Execute` returns success
after exactly one transport request, the metadata GET; the filesystem is
unchanged and no filesystem call is made (no temporary file, no rename), and
the diagnostic stream receives "Checking for updates..." and then
"aw <current> is already the latest version.". -/
theorem Execute_up_to_date (os : OsEnv) (u : Updater) (w : World) (resp : Response)
    (v : Json) (release : ReleaseInfo) (tl tc : Int × Int × Int)
    (hmeta : u.HTTPClient w.requests metadataRequest = .ok resp)
    (h200 : resp.StatusCode = 200) (hjson : resp.Body.json = .ok v)
    (hdec : decodeRelease v = .ok release)
    (hl : parseVersion release.TagName = .ok tl) (hc : parseVersion u.CurrentVersion = .ok tc)
    (hnot : ¬ tripleGreater tl tc) :
    (Execute os u w).1 = none ∧
      (Execute os u w).2.requests = w.requests ++ [metadataRequest] ∧
      (Execute os u w).2.fs = w.fs ∧
      (Execute os u w).2.fsCalls = w.fsCalls ∧
      (Execute os u w).2.stderr
        = w.stderr ++ ["Checking for updates...\n".toList] ++
            ["aw ".toList ++ u.CurrentVersion ++ " is already the latest version.\n".toList] := by
  rw [Execute_up_to_date_run os w hmeta h200 hjson hdec hl hc hnot]
  exact ⟨rfl, rfl, rfl, rfl, rfl⟩

/-- C15, in the world of `TestExecute_AlreadyUpToDate`: tag "v0.1.0" with
current version "0.1.0". -/
theorem Execute_up_to_date_witness :
    (parseVersion "v0.1.0".toList = .ok (0, 1, 0) ∧ parseVersion "0.1.0".toList = .ok (0, 1, 0) ∧
        ¬ tripleGreater (0, 1, 0) (0, 1, 0)) ∧
      (Execute plainOs ⟨upToDateClient, "0.1.0".toList, "darwin".toList, "arm64".toList, []⟩
          freshWorld).1 = none ∧
      (Execute plainOs ⟨upToDateClient, "0.1.0".toList, "darwin".toList, "arm64".toList, []⟩
          freshWorld).2.requests = [] ++ [metadataRequest] ∧
      (Execute plainOs ⟨upToDateClient, "0.1.0".toList, "darwin".toList, "arm64".toList, []⟩
          freshWorld).2.fs = installedFS ∧
      (Execute plainOs ⟨upToDateClient, "0.1.0".toList, "darwin".toList, "arm64".toList, []⟩
          freshWorld).2.fsCalls = [] ∧
      (Execute plainOs ⟨upToDateClient, "0.1.0".toList, "darwin".toList, "arm64".toList, []⟩
          freshWorld).2.stderr
        = [] ++ ["Checking for updates...\n".toList] ++
            ["aw ".toList ++ "0.1.0".toList ++ " is already the latest version.\n".toList] :=
  ⟨⟨by decide, by decide, by decide⟩,
    Execute_up_to_date plainOs
      ⟨upToDateClient, "0.1.0".toList, "darwin".toList, "arm64".toList, []⟩ freshWorld
      ⟨200, jsonBody (.obj [("tag_name".toList, .str "v0.1.0".toList),
        ("assets".toList, .arr [])])⟩
      (.obj [("tag_name".toList, .str "v0.1.0".toList), ("assets".toList, .arr [])])
      ⟨"v0.1.0".toList, []⟩ (0, 1, 0) (0, 1, 0) rfl rfl rfl (by decide) (by decide) (by decide)
      (by decide)⟩

/-- C16: `Execute` stops at the first failing step and changes nothing on disk
before the replacement step.  If fetching the release fails, or the version
comparison fails, or no asset matches, or the download fails, or the
extraction fails, or the executable path cannot be resolved, then `Execute`
returns the error of that step, the transport has received the requests of
the steps up to that one and no other, the filesystem is what it was and no
filesystem call has been made. -/
theorem Execute_short_circuit (os : OsEnv) (u : Updater) (w : World) :
    (∀ e, (FetchLatestRelease u.HTTPClient w.requests).1 = .error e →
        (Execute os u w).1 = some (.checkingLatestRelease e) ∧
          (Execute os u w).2.requests = w.requests ++ [metadataRequest] ∧
          (Execute os u w).2.fs = w.fs ∧ (Execute os u w).2.fsCalls = w.fsCalls) ∧
      (∀ release, (FetchLatestRelease u.HTTPClient w.requests).1 = .ok release →
        (∀ b e, isNewer (trimLeading release.TagName "v".toList) u.CurrentVersion
            = (b, some e) →
          (Execute os u w).1 = some (.comparingVersions e) ∧
            (Execute os u w).2.requests = w.requests ++ [metadataRequest] ∧
            (Execute os u w).2.fs = w.fs ∧ (Execute os u w).2.fsCalls = w.fsCalls) ∧
        (isNewer (trimLeading release.TagName "v".toList) u.CurrentVersion = (true, none) →
          (∀ e, FindAssetURL release u.GOOS u.GOARCH = .error e →
            (Execute os u w).1 = some (.assetNotFound e) ∧
              (Execute os u w).2.requests = w.requests ++ [metadataRequest] ∧
              (Execute os u w).2.fs = w.fs ∧ (Execute os u w).2.fsCalls = w.fsCalls) ∧
          (∀ url, FindAssetURL release u.GOOS u.GOARCH = .ok url →
            (∀ e, (download os u url (w.requests ++ [metadataRequest])).1 = .error e →
              (Execute os u w).1 = some (.downloadingRelease e) ∧
                ((Execute os u w).2.requests = w.requests ++ [metadataRequest] ∨
                  (Execute os u w).2.requests
                    = w.requests ++ [metadataRequest] ++ [downloadRequest url]) ∧
                (Execute os u w).2.fs = w.fs ∧ (Execute os u w).2.fsCalls = w.fsCalls) ∧
            (∀ archive, (download os u url (w.requests ++ [metadataRequest])).1
                = .ok archive →
              (∀ e, extractBinary archive = .error e →
                (Execute os u w).1 = some (.extractingBinary e) ∧
                  (Execute os u w).2.requests
                    = w.requests ++ [metadataRequest] ++ [downloadRequest url] ∧
                  (Execute os u w).2.fs = w.fs ∧ (Execute os u w).2.fsCalls = w.fsCalls) ∧
              (∀ data e, extractBinary archive = .ok data → executablePath os u = .error e →
                (Execute os u w).1 = some (.determiningPath e) ∧
                  (Execute os u w).2.requests
                    = w.requests ++ [metadataRequest] ++ [downloadRequest url] ∧
                  (Execute os u w).2.fs = w.fs ∧
                  (Execute os u w).2.fsCalls = w.fsCalls))))) := by
  refine ⟨fun e hf => ?_, fun release hf => ⟨fun b e hn => ?_, fun hn => ⟨fun e ha => ?_,
    fun url ha => ⟨fun e hd => ?_, fun archive hd => ⟨fun e hx => ?_,
      fun data e hx hp => ?_⟩⟩⟩⟩⟩
  · rw [Execute_fetch_error hf]
    exact ⟨rfl, rfl, rfl, rfl⟩
  · rw [Execute_compare_error hf hn]
    exact ⟨rfl, rfl, rfl, rfl⟩
  · rw [Execute_asset_error hf hn ha]
    exact ⟨rfl, rfl, rfl, rfl⟩
  · rw [Execute_download_error hf hn ha hd]
    exact ⟨rfl, download_requests os u url _, rfl, rfl⟩
  · rw [Execute_extract_error hf hn ha hd hx]
    exact ⟨rfl, download_ok_requests hd, rfl, rfl⟩
  · rw [Execute_path_error hf hn ha hd hx hp]
    exact ⟨rfl, download_ok_requests hd, rfl, rfl⟩

/-- C16, in the world of `TestExecute_NetworkError`, where the server answers
with status 500: the run fails at the first step after one request, and the
filesystem is untouched. -/
theorem Execute_short_circuit_witness :
    (FetchLatestRelease serverErrorClient []).1
        = .error (.badStatus 500 "Internal Server Error\n".toList) ∧
      ((Execute plainOs ⟨serverErrorClient, "0.1.0".toList, "darwin".toList, "arm64".toList, []⟩
          freshWorld).1
          = some (.checkingLatestRelease (.badStatus 500 "Internal Server Error\n".toList)) ∧
        (Execute plainOs ⟨serverErrorClient, "0.1.0".toList, "darwin".toList, "arm64".toList, []⟩
          freshWorld).2.requests = [] ++ [metadataRequest] ∧
        (Execute plainOs ⟨serverErrorClient, "0.1.0".toList, "darwin".toList, "arm64".toList, []⟩
          freshWorld).2.fs = installedFS ∧
        (Execute plainOs ⟨serverErrorClient, "0.1.0".toList, "darwin".toList, "arm64".toList, []⟩
          freshWorld).2.fsCalls = []) :=
  ⟨by decide,
    (Execute_short_circuit plainOs
      ⟨serverErrorClient, "0.1.0".toList, "darwin".toList, "arm64".toList, []⟩ freshWorld).1
      (.badStatus 500 "Internal Server Error\n".toList) (by decide)⟩

/-- C17 fails on the code at the third step: in the world of
`TestExecute_NoMatchingAsset` (tag "v0.2.0", current "0.1.0", windows/amd64,
only a linux asset) `Execute` returns the error of `FindAssetURL` as it is,
without the text of a step in front of it; the message is
"no release asset found for windows/amd64". -/
theorem Execute_asset_error_unwrapped :
    (Execute plainOs ⟨linuxOnlyClient, "0.1.0".toList, "windows".toList, "amd64".toList, []⟩
        freshWorld).1 = some (.assetNotFound ⟨"windows".toList, "amd64".toList⟩) ∧
      (ExecuteError.assetNotFound ⟨"windows".toList, "amd64".toList⟩).stepText = none ∧
      (AssetError.mk "windows".toList "amd64".toList).message
        = "no release asset found for windows/amd64".toList := by
  decide

/-- C20: idempotence when up to date.  For a transport that answers the
metadata request the same way each time, with status 200 and a release whose
tag is not strictly newer than the current version, two runs of `Execute` in
succession both return success with the up-to-date message, and the
filesystem after the second run is the filesystem before the first; no
filesystem call is made. -/
theorem Execute_twice_up_to_date (os : OsEnv) (u : Updater) (w : World) (resp : Response)
    (v : Json) (release : ReleaseInfo) (tl tc : Int × Int × Int)
    (hmeta : ∀ log, u.HTTPClient log metadataRequest = .ok resp)
    (h200 : resp.StatusCode = 200) (hjson : resp.Body.json = .ok v)
    (hdec : decodeRelease v = .ok release)
    (hl : parseVersion release.TagName = .ok tl) (hc : parseVersion u.CurrentVersion = .ok tc)
    (hnot : ¬ tripleGreater tl tc) :
    ((Execute os u w).1 = none ∧ (Execute os u (Execute os u w).2).1 = none) ∧
      ((Execute os u w).2.fs = w.fs ∧ (Execute os u (Execute os u w).2).2.fs = w.fs) ∧
      (Execute os u (Execute os u w).2).2.fsCalls = w.fsCalls ∧
      ((Execute os u w).2.stderr
          = w.stderr ++ ["Checking for updates...\n".toList] ++
              ["aw ".toList ++ u.CurrentVersion ++ " is already the latest version.\n".toList] ∧
        (Execute os u (Execute os u w).2).2.stderr
          = (Execute os u w).2.stderr ++ ["Checking for updates...\n".toList] ++
              ["aw ".toList ++ u.CurrentVersion
                ++ " is already the latest version.\n".toList]) := by
  have h1 := Execute_up_to_date_run os w (hmeta _) h200 hjson hdec hl hc hnot
  have h2 := Execute_up_to_date_run os (Execute os u w).2 (hmeta _) h200 hjson hdec hl hc hnot
  rw [h2, h1]
  exact ⟨⟨rfl, rfl⟩, ⟨rfl, rfl⟩, rfl, rfl, rfl⟩

/-- C20, in the world of `TestExecute_AlreadyUpToDate`, run twice. -/
theorem Execute_twice_up_to_date_witness :
    (∀ log, upToDateClient log metadataRequest
        = .ok ⟨200, jsonBody (.obj [("tag_name".toList, .str "v0.1.0".toList),
            ("assets".toList, .arr [])])⟩) ∧
      ((Execute plainOs ⟨upToDateClient, "0.1.0".toList, "darwin".toList, "arm64".toList, []⟩
            freshWorld).1 = none ∧
        (Execute plainOs ⟨upToDateClient, "0.1.0".toList, "darwin".toList, "arm64".toList, []⟩
            (Execute plainOs
              ⟨upToDateClient, "0.1.0".toList, "darwin".toList, "arm64".toList, []⟩
              freshWorld).2).1 = none) ∧
      (Execute plainOs ⟨upToDateClient, "0.1.0".toList, "darwin".toList, "arm64".toList, []⟩
          (Execute plainOs
            ⟨upToDateClient, "0.1.0".toList, "darwin".toList, "arm64".toList, []⟩
            freshWorld).2).2.fs = installedFS :=
  ⟨fun _ => rfl,
    (Execute_twice_up_to_date plainOs
      ⟨upToDateClient, "0.1.0".toList, "darwin".toList, "arm64".toList, []⟩ freshWorld
      ⟨200, jsonBody (.obj [("tag_name".toList, .str "v0.1.0".toList),
        ("assets".toList, .arr [])])⟩
      (.obj [("tag_name".toList, .str "v0.1.0".toList), ("assets".toList, .arr [])])
      ⟨"v0.1.0".toList, []⟩ (0, 1, 0) (0, 1, 0) (fun _ => rfl) rfl rfl (by decide) (by decide)
      (by decide) (by decide)).1,
    (Execute_twice_up_to_date plainOs
      ⟨upToDateClient, "0.1.0".toList, "darwin".toList, "arm64".toList, []⟩ freshWorld
      ⟨200, jsonBody (.obj [("tag_name".toList, .str "v0.1.0".toList),
        ("assets".toList, .arr [])])⟩
      (.obj [("tag_name".toList, .str "v0.1.0".toList), ("assets".toList, .arr [])])
      ⟨"v0.1.0".toList, []⟩ (0, 1, 0) (0, 1, 0) (fun _ => rfl) rfl rfl (by decide) (by decide)
      (by decide) (by decide)).2.1.2⟩

/-! ## The command and the override of the executable path -/

/-- C21, as stated, fails: the argument list "update", "-v" has "update" as its
first element and `update.Run` would fail, yet `cmd.Run` prints the version,
returns exit code 0 and does not run the update (no request is made, nothing
is written to the diagnostic stream). -/
theorem Cmd_Run_version_flag_first :
    (Update.Run failingCmdEnv.run failingCmdEnv.Version freshWorld).1 ≠ none ∧
      (Cmd.Run failingCmdEnv noProfilePath ["update".toList, "-v".toList]
        ⟨freshWorld, []⟩).1 = 0 ∧
      (Cmd.Run failingCmdEnv noProfilePath ["update".toList, "-v".toList]
        ⟨freshWorld, []⟩).2.stdout = ["aw 0.1.0\n".toList] ∧
      (Cmd.Run failingCmdEnv noProfilePath ["update".toList, "-v".toList]
        ⟨freshWorld, []⟩).2.world.requests = [] ∧
      (Cmd.Run failingCmdEnv noProfilePath ["update".toList, "-v".toList]
        ⟨freshWorld, []⟩).2.world.stderr = [] := by
  decide

theorem hasVersionFlag_iff (args : List (List Char)) :
    hasVersionFlag args = true ↔ ("--version".toList ∈ args ∨ "-v".toList ∈ args) := by
  induction args with
  | nil => simp [hasVersionFlag]
  | cons a rest ih =>
    unfold hasVersionFlag
    by_cases h : a = "--version".toList ∨ a = "-v".toList
    · rw [if_pos h]
      refine ⟨fun _ => ?_, fun _ => rfl⟩
      rcases h with h | h
      · exact Or.inl (by rw [h]; exact List.mem_cons_self _ _)
      · exact Or.inr (by rw [h]; exact List.mem_cons_self _ _)
    · rw [if_neg h, ih]
      have h1 : ¬ "--version".toList = a := fun e => h (Or.inl e.symm)
      have h2 : ¬ "-v".toList = a := fun e => h (Or.inr e.symm)
      constructor
      · rintro (hm | hm)
        · exact Or.inl (List.mem_cons_of_mem _ hm)
        · exact Or.inr (List.mem_cons_of_mem _ hm)
      · rintro (hm | hm)
        · rcases List.mem_cons.mp hm with e | hr
          · exact absurd e h1
          · exact Or.inl hr
        · rcases List.mem_cons.mp hm with e | hr
          · exact absurd e h2
          · exact Or.inr hr

/-- C21, amended: for every argument list whose first element is "update" and
which contains neither "--version" nor "-v", `cmd.Run` returns exit code 0
when `update.Run(version.Version)` succeeds, and exit code 1 when it fails,
after writing "Error: <message>" to the diagnostic stream; in both cases the
world is the one `update.Run` leaves, whatever the profile path of the command
would do: no profile is loaded and no pipeline is run.  For every argument
list that contains "--version" or "-v" anywhere, `cmd.Run` prints "aw", the
version and a newline, returns exit code 0 and leaves the world as it was: the
update is not run. -/
theorem Cmd_Run_update (env : CmdEnv)
    (profilePath : List (List Char) → CmdWorld → Nat × CmdWorld)
    (args : List (List Char)) (w : CmdWorld) :
    (∀ rest, args = "update".toList :: rest →
        "--version".toList ∉ args → "-v".toList ∉ args →
        ((Update.Run env.run env.Version w.world).1 = none →
          Cmd.Run env profilePath args w
            = (0, ⟨(Update.Run env.run env.Version w.world).2, w.stdout⟩)) ∧
        (∀ err, (Update.Run env.run env.Version w.world).1 = some err →
          Cmd.Run env profilePath args w
            = (1, ⟨(Update.Run env.run env.Version w.world).2.print
                ("Error: ".toList ++ env.errorText err ++ "\n".toList), w.stdout⟩))) ∧
      (("--version".toList ∈ args ∨ "-v".toList ∈ args) →
        Cmd.Run env profilePath args w
          = (0, ⟨w.world, w.stdout ++ ["aw ".toList ++ env.Version ++ "\n".toList]⟩)) := by
  constructor
  · intro rest hargs hv1 hv2
    have hflag : hasVersionFlag args = false := by
      cases hf : hasVersionFlag args with
      | false => rfl
      | true =>
        rcases (hasVersionFlag_iff args).mp hf with hm | hm
        · exact absurd hm hv1
        · exact absurd hm hv2
    have hhead : args.head? = some "update".toList := by rw [hargs]; rfl
    constructor
    · intro h
      rw [Cmd.Run, hflag, if_neg (by simp), if_pos hhead]
      cases hr : Update.Run env.run env.Version w.world with
      | mk e world =>
        rw [hr] at h
        simp only at h
        subst h
        rfl
    · intro err h
      rw [Cmd.Run, hflag, if_neg (by simp), if_pos hhead]
      cases hr : Update.Run env.run env.Version w.world with
      | mk e world =>
        rw [hr] at h
        simp only at h
        subst h
        rfl
  · intro hm
    have hflag : hasVersionFlag args = true := (hasVersionFlag_iff args).mpr hm
    rw [Cmd.Run, hflag, if_pos rfl]

/-- C21, amended, at the argument list "update": with a transport that reports
the current version the exit code is 0, and with a transport that answers
with status 500 it is 1 and the diagnostic stream ends with the error line;
and at the argument list "update", "--version" with the failing transport:
the version is printed, the exit code is 0 and the world is unchanged. -/
theorem Cmd_Run_update_witness :
    ((Update.Run upToDateCmdEnv.run upToDateCmdEnv.Version freshWorld).1 = none ∧
        (Update.Run failingCmdEnv.run failingCmdEnv.Version freshWorld).1
          = some (.checkingLatestRelease (.badStatus 500 "Internal Server Error\n".toList))) ∧
      Cmd.Run upToDateCmdEnv noProfilePath ["update".toList] ⟨freshWorld, []⟩
        = (0, ⟨(Update.Run upToDateCmdEnv.run upToDateCmdEnv.Version freshWorld).2, []⟩) ∧
      Cmd.Run failingCmdEnv noProfilePath ["update".toList] ⟨freshWorld, []⟩
        = (1, ⟨(Update.Run failingCmdEnv.run failingCmdEnv.Version freshWorld).2.print
            ("Error: ".toList ++ failingCmdEnv.errorText
              (.checkingLatestRelease (.badStatus 500 "Internal Server Error\n".toList))
              ++ "\n".toList), []⟩) ∧
      Cmd.Run failingCmdEnv noProfilePath ["update".toList, "--version".toList] ⟨freshWorld, []⟩
        = (0, ⟨freshWorld, [] ++ ["aw ".toList ++ failingCmdEnv.Version ++ "\n".toList]⟩) :=
  ⟨⟨by decide, by decide⟩,
    ((Cmd_Run_update upToDateCmdEnv noProfilePath ["update".toList] ⟨freshWorld, []⟩).1 [] rfl
      (by decide) (by decide)).1 (by decide),
    ((Cmd_Run_update failingCmdEnv noProfilePath ["update".toList] ⟨freshWorld, []⟩).1 [] rfl
      (by decide) (by decide)).2 _ (by decide),
    (Cmd_Run_update failingCmdEnv noProfilePath ["update".toList, "--version".toList]
      ⟨freshWorld, []⟩).2 (Or.inl (by decide))⟩

/-- C22: `executablePath` returns the override verbatim.  For an `Updater`
whose `ExecPath` is not empty it returns exactly `ExecPath` and no error,
whatever `os.Executable` and `filepath.EvalSymlinks` would answer; only for an
empty `ExecPath` is the result the path of the running executable with its
symbolic links resolved, or the error of one of the two calls. -/
theorem executablePath_override (u : Updater) :
    (u.ExecPath ≠ [] → ∀ os : OsEnv, executablePath os u = .ok u.ExecPath) ∧
      (u.ExecPath = [] → ∀ os : OsEnv,
        (∀ e, os.executable = .error e → executablePath os u = .error e) ∧
        (∀ exe, os.executable = .ok exe → executablePath os u = os.evalSymlinks exe)) := by
  constructor
  · intro h os
    rw [executablePath, if_pos h]
  · intro h os
    constructor
    · intro e he
      rw [executablePath, if_neg (by simp [h]), he]
    · intro exe he
      rw [executablePath, if_neg (by simp [h]), he]

/-- C22, at the override "/tmp/aw" on an operating system whose running
executable cannot be found, and at an empty override on one whose running
executable is "/opt/bin/aw". -/
theorem executablePath_override_witness :
    executablePath ⟨fun _ => none, .error "not found".toList, fun _ => .error "loop".toList,
        noFaults⟩ ⟨upToDateClient, [], [], [], "/tmp/aw".toList⟩ = .ok "/tmp/aw".toList ∧
      executablePath plainOs ⟨upToDateClient, [], [], [], []⟩ = .ok "/opt/bin/aw".toList :=
  ⟨(executablePath_override ⟨upToDateClient, [], [], [], "/tmp/aw".toList⟩).1 (by decide) _,
    ((executablePath_override ⟨upToDateClient, [], [], [], []⟩).2 rfl plainOs).2 _ rfl⟩

/-! ## Profiles: validation, stages and launchers -/

theorem validateEnvironment_none (p : Profile) :
    validateEnvironment p = none ↔
      (p.Environment = "host".toList ∨ p.Environment = "docker".toList) := by
  unfold validateEnvironment
  split_ifs with h1 h2
  · exact ⟨fun _ => h1, fun _ => rfl⟩
  · exact ⟨fun h => by simp at h, fun h => absurd h h1⟩
  · exact ⟨fun h => by simp at h, fun h => absurd h h1⟩

theorem validateLaunch_none (p : Profile) :
    validateLaunch p = none ↔
      (p.Launch = "shell".toList ∨ p.Launch = "claude".toList ∨ p.Launch = "zellij".toList) := by
  unfold validateLaunch
  split_ifs with h1 h2
  · exact ⟨fun _ => h1, fun _ => rfl⟩
  · exact ⟨fun h => by simp at h, fun h => absurd h h1⟩
  · exact ⟨fun h => by simp at h, fun h => absurd h h1⟩

theorem Validate_none_iff (p : Profile) :
    Validate p = none ↔
      (p.Environment = "host".toList ∨ p.Environment = "docker".toList) ∧
        (p.Launch = "shell".toList ∨ p.Launch = "claude".toList ∨ p.Launch = "zellij".toList) ∧
        (p.Zellij = none ∨ p.Launch = "zellij".toList) := by
  rw [← validateEnvironment_none, ← validateLaunch_none]
  unfold Validate
  cases he : validateEnvironment p with
  | some e => simp
  | none =>
    cases hl : validateLaunch p with
    | some e => simp
    | none =>
      simp only [true_and]
      split_ifs with hz
      · constructor
        · intro h; simp at h
        · rintro (h | h)
          · exact absurd h hz.1
          · exact absurd h hz.2
      · constructor
        · intro _
          by_cases h1 : p.Zellij = none
          · exact Or.inl h1
          · by_cases h2 : p.Launch = LaunchZellij
            · exact Or.inr h2
            · exact absurd ⟨h1, h2⟩ hz
        · intro _; rfl

/-- C23: `Validate p` returns no error exactly when the environment is "host"
or "docker", the launch mode is "shell", "claude" or "zellij", and the zellij
configuration is absent or the launch mode is "zellij".  Otherwise it returns
the error of the first failing check, in the order environment (required when
empty, unknown otherwise), launch mode (required when empty, unknown
otherwise), zellij.  The field `Worktree` never affects the result. -/
theorem Validate_spec (p : Profile) :
    (Validate p = none ↔
        (p.Environment = "host".toList ∨ p.Environment = "docker".toList) ∧
          (p.Launch = "shell".toList ∨ p.Launch = "claude".toList ∨
            p.Launch = "zellij".toList) ∧
          (p.Zellij = none ∨ p.Launch = "zellij".toList)) ∧
      (¬ (p.Environment = "host".toList ∨ p.Environment = "docker".toList) →
        Validate p
          = some (if p.Environment = [] then .environmentRequired
              else .unknownEnvironment p.Environment)) ∧
      ((p.Environment = "host".toList ∨ p.Environment = "docker".toList) →
        ¬ (p.Launch = "shell".toList ∨ p.Launch = "claude".toList ∨
            p.Launch = "zellij".toList) →
        Validate p
          = some (if p.Launch = [] then .launchRequired else .unknownLaunchMode p.Launch)) ∧
      ((p.Environment = "host".toList ∨ p.Environment = "docker".toList) →
        (p.Launch = "shell".toList ∨ p.Launch = "claude".toList ∨
            p.Launch = "zellij".toList) →
        p.Zellij ≠ none → p.Launch ≠ "zellij".toList →
        Validate p = some .zellijWithoutZellijLaunch) ∧
      (∀ wt, Validate ⟨wt, p.Environment, p.Launch, p.Zellij⟩ = Validate p) ∧
      (∀ quote : List Char → List Char,
        (∃ r, ValidateError.environmentRequired.message quote
            = "environment is required".toList ++ r) ∧
        (∀ e, ∃ r, (ValidateError.unknownEnvironment e).message quote
            = "unknown environment".toList ++ r) ∧
        (∃ r, ValidateError.launchRequired.message quote = "launch is required".toList ++ r) ∧
        (∀ l, ∃ r, (ValidateError.unknownLaunchMode l).message quote
            = "unknown launch mode".toList ++ r) ∧
        ValidateError.zellijWithoutZellijLaunch.message quote
            = "zellij config is only valid with launch: zellij".toList) := by
  refine ⟨Validate_none_iff p, ?_, ?_, ?_, ?_, ?_⟩
  · intro h
    have he : validateEnvironment p
        = some (if p.Environment = [] then .environmentRequired
            else .unknownEnvironment p.Environment) := by
      have h0 : ¬ (p.Environment = EnvironmentHost ∨ p.Environment = EnvironmentDocker) := h
      unfold validateEnvironment
      rw [if_neg h0]
      split_ifs <;> rfl
    simp only [Validate, he]
  · intro h1 h2
    have he := (validateEnvironment_none p).mpr h1
    have hl : validateLaunch p
        = some (if p.Launch = [] then .launchRequired else .unknownLaunchMode p.Launch) := by
      have h0 : ¬ (p.Launch = LaunchShell ∨ p.Launch = LaunchClaude ∨ p.Launch = LaunchZellij) :=
        h2
      unfold validateLaunch
      rw [if_neg h0]
      split_ifs <;> rfl
    simp only [Validate, he, hl]
  · intro h1 h2 h3 h4
    have he := (validateEnvironment_none p).mpr h1
    have hl := (validateLaunch_none p).mpr h2
    simp only [Validate, he, hl]
    rw [if_pos ⟨h3, h4⟩]
  · intro wt
    rfl
  · intro quote
    refine ⟨⟨" (\"host\" or \"docker\")".toList, rfl⟩,
      fun e => ⟨": ".toList ++ quote e ++ " (must be \"host\" or \"docker\")".toList, ?_⟩,
      ⟨" (\"shell\", \"claude\", or \"zellij\")".toList, rfl⟩,
      fun l => ⟨": ".toList ++ quote l
        ++ " (must be \"shell\", \"claude\", or \"zellij\")".toList, ?_⟩, rfl⟩
    · simp [ValidateError.message]
    · simp [ValidateError.message]

/-- C23, at profiles of `TestValidate`: docker with claude is valid; an empty
environment, an unknown launch mode and a zellij configuration with launch
"claude" give the three kinds of error; a worktree changes nothing. -/
theorem Validate_spec_witness :
    Validate ⟨none, "docker".toList, "claude".toList, none⟩ = none ∧
      Validate ⟨some ⟨[]⟩, "docker".toList, "claude".toList, none⟩ = none ∧
      Validate ⟨none, [], "claude".toList, none⟩ = some .environmentRequired ∧
      Validate ⟨none, "host".toList, "vim".toList, none⟩
        = some (.unknownLaunchMode "vim".toList) ∧
      Validate ⟨none, "host".toList, "claude".toList, some ⟨[]⟩⟩
        = some .zellijWithoutZellijLaunch ∧
      (Validate ⟨none, "host".toList, "zellij".toList, some ⟨[]⟩⟩ = none ↔
        ("host".toList = "host".toList ∨ "host".toList = "docker".toList) ∧
          ("zellij".toList = "shell".toList ∨ "zellij".toList = "claude".toList ∨
            "zellij".toList = "zellij".toList) ∧
          ((some (ZellijConfig.mk []) = none) ∨ "zellij".toList = "zellij".toList)) :=
  ⟨by decide, by decide, by decide, by decide, by decide,
    (Validate_spec ⟨none, "host".toList, "zellij".toList, some ⟨[]⟩⟩).1⟩

/-- C25: `buildStages p` is the "worktree" stage exactly when `p.Worktree` is
present, then the "docker" stage exactly when the environment is "docker",
then the "launch" stage, always and last; so it has between 1 and 3 stages. -/
theorem buildStages_spec (p : Profile) :
    buildStages p
        = (if p.Worktree ≠ none then [StageKind.worktree] else []) ++
          (if p.Environment = "docker".toList then [StageKind.docker] else []) ++
          [StageKind.launch] ∧
      (1 ≤ (buildStages p).length ∧ (buildStages p).length ≤ 3) ∧
      (buildStages p).getLast? = some .launch ∧
      (StageKind.worktree ∈ buildStages p ↔ p.Worktree ≠ none) ∧
      (StageKind.docker ∈ buildStages p ↔ p.Environment = "docker".toList) ∧
      (StageKind.worktree.Name = "worktree".toList ∧ StageKind.docker.Name = "docker".toList ∧
        StageKind.launch.Name = "launch".toList) := by
  have hn : StageKind.worktree.Name = "worktree".toList ∧
      StageKind.docker.Name = "docker".toList ∧ StageKind.launch.Name = "launch".toList :=
    ⟨rfl, rfl, rfl⟩
  by_cases h1 : p.Worktree ≠ none <;> by_cases h2 : p.Environment = "docker".toList
  · have hb : buildStages p = [.worktree, .docker, .launch] := by
      have h0 : p.Environment = EnvironmentDocker := h2
      simp only [buildStages, if_pos h1, if_pos h0, List.nil_append, List.cons_append]
    rw [hb, if_pos h1, if_pos h2]
    exact ⟨rfl, ⟨by decide, by decide⟩, rfl, by simp [h1], by simp [h2], hn⟩
  · have hb : buildStages p = [.worktree, .launch] := by
      have h0 : ¬ p.Environment = EnvironmentDocker := h2
      simp only [buildStages, if_pos h1, if_neg h0, List.nil_append, List.cons_append]
    rw [hb, if_pos h1, if_neg h2]
    exact ⟨rfl, ⟨by decide, by decide⟩, rfl, by simp [h1],
      ⟨fun h => by simp at h, fun h => absurd h h2⟩, hn⟩
  · have hb : buildStages p = [.docker, .launch] := by
      have h0 : p.Environment = EnvironmentDocker := h2
      simp only [buildStages, if_neg h1, if_pos h0, List.nil_append, List.cons_append]
    rw [hb, if_neg h1, if_pos h2]
    exact ⟨rfl, ⟨by decide, by decide⟩, rfl, by simp [h1], by simp [h2], hn⟩
  · have hb : buildStages p = [.launch] := by
      have h0 : ¬ p.Environment = EnvironmentDocker := h2
      simp only [buildStages, if_neg h1, if_neg h0, List.nil_append]
    rw [hb, if_neg h1, if_neg h2]
    exact ⟨rfl, ⟨by decide, by decide⟩, rfl, by simp [h1],
      ⟨fun h => by simp at h, fun h => absurd h h2⟩, hn⟩

/-- C25, at the four profiles of the tests of `buildStages`. -/
theorem buildStages_spec_witness :
    (buildStages ⟨none, "docker".toList, "claude".toList, none⟩).map StageKind.Name
        = ["docker".toList, "launch".toList] ∧
      (buildStages ⟨some ⟨[]⟩, "host".toList, "shell".toList, none⟩).map StageKind.Name
        = ["worktree".toList, "launch".toList] ∧
      (buildStages ⟨some ⟨[]⟩, "docker".toList, "zellij".toList, none⟩).map StageKind.Name
        = ["worktree".toList, "docker".toList, "launch".toList] ∧
      (buildStages ⟨none, "host".toList, "claude".toList, none⟩).map StageKind.Name
        = ["launch".toList] ∧
      buildStages ⟨some ⟨[]⟩, "docker".toList, "zellij".toList, none⟩
        = (if (some (WorktreeConfig.mk []) : Option WorktreeConfig) ≠ none
            then [StageKind.worktree] else []) ++
          (if "docker".toList = "docker".toList then [StageKind.docker] else []) ++
          [StageKind.launch] :=
  ⟨by decide, by decide, by decide, by decide,
    (buildStages_spec ⟨some ⟨[]⟩, "docker".toList, "zellij".toList, none⟩).1⟩

/-- C30: a validated profile never reaches the rejection branches of the
launch.  For every profile `p` that `Validate` accepts,
`defaultLauncherFactory p.Launch` returns a launcher and no error, and the
`switch` on the environment of `ShellLauncher.Launch` and of
`ClaudeLauncher.Launch`, on a context that carries `p`, never returns the
error "unsupported environment", whatever the launches themselves return. -/
theorem validated_profile_launches (p : Profile) (h : Validate p = none) :
    (∃ l, defaultLauncherFactory p.Launch = .ok l) ∧
      ∀ (μ : Type) (out : LaunchOutcomes μ) (ec : ExecutionContext μ), ec.Profile = p →
        ∀ environment,
          ShellLauncher.Launch out ec ≠ some (.unsupportedEnvironment environment) ∧
            ClaudeLauncher.Launch out ec ≠ some (.unsupportedEnvironment environment) := by
  obtain ⟨he, hl, -⟩ := (Validate_none_iff p).mp h
  constructor
  · rcases hl with hl | hl | hl
    · exact ⟨.ShellLauncher, by rw [hl]; rfl⟩
    · exact ⟨.ClaudeLauncher, by rw [hl]; decide⟩
    · exact ⟨.ZellijLauncher, by rw [hl]; decide⟩
  · intro μ out ec hp environment
    have key : launchDispatch out ec ≠ some (.unsupportedEnvironment environment) := by
      unfold launchDispatch
      rw [hp]
      rcases he with he | he
      · rw [if_pos (by rw [he]; rfl)]
        cases out.host ec <;> simp
      · rw [if_neg (by rw [he]; decide), if_pos (by rw [he]; rfl)]
        cases out.docker ec <;> simp
    exact ⟨key, key⟩

/-- C30, at the profile docker with claude: it is valid, the factory returns
the launcher of Claude, and a launch whose docker run fails returns that
failure, not "unsupported environment". -/
theorem validated_profile_launches_witness :
    Validate ⟨none, "docker".toList, "claude".toList, none⟩ = none ∧
      defaultLauncherFactory "claude".toList = .ok .ClaudeLauncher ∧
      ClaudeLauncher.Launch
          (⟨fun _ => none, fun _ => some "exit status 1".toList⟩ : LaunchOutcomes Unit)
          ⟨⟨none, "docker".toList, "claude".toList, none⟩, [], [], [], [], [], [], [], [], []⟩
        = some (.failed "exit status 1".toList) ∧
      ((∃ l, defaultLauncherFactory "claude".toList = .ok l) ∧
        ∀ (μ : Type) (out : LaunchOutcomes μ) (ec : ExecutionContext μ),
          ec.Profile = ⟨none, "docker".toList, "claude".toList, none⟩ →
          ∀ environment,
            ShellLauncher.Launch out ec ≠ some (.unsupportedEnvironment environment) ∧
              ClaudeLauncher.Launch out ec ≠ some (.unsupportedEnvironment environment)) :=
  ⟨by decide, by decide, by decide,
    validated_profile_launches ⟨none, "docker".toList, "claude".toList, none⟩ (by decide)⟩

/-! ## Validation of a configuration -/

theorem lookup_isNone_iff (name : List Char) :
    ∀ l : List (List Char × Profile), (l.lookup name).isNone = true ↔ name ∉ l.map Prod.fst
  | [] => by simp
  | (k, p) :: rest => by
    have ih := lookup_isNone_iff name rest
    by_cases h : name = k
    · subst h
      constructor
      · intro hn
        rw [List.lookup_cons, beq_self_eq_true] at hn
        have hn0 : false = true := hn
        exact Bool.noConfusion hn0
      · intro hn
        exact absurd (List.mem_cons_self _ _) hn
    · have hb : (name == k) = false := by simpa using h
      simp only [List.lookup_cons, hb, ih, List.map_cons, List.mem_cons, not_or]
      exact ⟨fun hr => ⟨h, hr⟩, fun hr => hr.2⟩

theorem mem_collectErrors (name : List Char) (e : ValidateError) :
    ∀ l : List (List Char × Profile),
      (name, e) ∈ collectErrors l ↔ ∃ p, (name, p) ∈ l ∧ Validate p = some e
  | [] => by simp [collectErrors]
  | (k, q) :: rest => by
    have ih := mem_collectErrors name e rest
    cases hv : Validate q with
    | none =>
      simp only [collectErrors, hv, ih, List.mem_cons, Prod.mk.injEq]
      constructor
      · rintro ⟨p, hp, hpe⟩
        exact ⟨p, Or.inr hp, hpe⟩
      · rintro ⟨p, (⟨-, rfl⟩ | hp), hpe⟩
        · rw [hv] at hpe
          exact absurd hpe (by simp)
        · exact ⟨p, hp, hpe⟩
    | some err =>
      simp only [collectErrors, hv, ih, List.mem_cons, Prod.mk.injEq]
      constructor
      · rintro (⟨rfl, rfl⟩ | ⟨p, hp, hpe⟩)
        · exact ⟨q, Or.inl ⟨rfl, rfl⟩, hv⟩
        · exact ⟨p, Or.inr hp, hpe⟩
      · rintro ⟨p, (⟨rfl, rfl⟩ | hp), hpe⟩
        · rw [hv] at hpe
          exact Or.inl ⟨rfl, (Option.some.inj hpe).symm⟩
        · exact Or.inr ⟨p, hp, hpe⟩

theorem collectErrors_sublist :
    ∀ l : List (List Char × Profile),
      ((collectErrors l).map Prod.fst).Sublist (l.map Prod.fst)
  | [] => by simp [collectErrors]
  | (k, q) :: rest => by
    have ih := collectErrors_sublist rest
    cases hv : Validate q with
    | none =>
      simp only [collectErrors, hv, List.map_cons]
      exact ih.cons k
    | some err =>
      simp only [collectErrors, hv, List.map_cons]
      exact ih.cons₂ k

theorem collectErrors_eq_nil_iff :
    ∀ l : List (List Char × Profile),
      collectErrors l = [] ↔ ∀ np ∈ l, Validate np.2 = none
  | [] => by simp [collectErrors]
  | (k, q) :: rest => by
    have ih := collectErrors_eq_nil_iff rest
    cases hv : Validate q with
    | none =>
      simp only [collectErrors, hv]
      rw [ih]
      constructor
      · intro h np hnp
        rcases List.mem_cons.mp hnp with rfl | hr
        · exact hv
        · exact h np hr
      · intro h np hnp
        exact h np (List.mem_cons_of_mem _ hnp)
    | some err =>
      simp only [collectErrors, hv]
      constructor
      · intro h
        exact absurd h (List.cons_ne_nil _ _)
      · intro h
        have hq : Validate q = none := h (k, q) (List.mem_cons_self _ _)
        rw [hv] at hq
        exact absurd hq (Option.some_ne_none _)

/-- C24: `ValidateConfig cfg` returns no error exactly when the configuration
defines at least one profile, its default is empty or names a defined profile,
and every defined profile passes `Validate`.  It fails with "no profiles
defined" when there is no profile; otherwise with "default profile <name> not
found in profiles" when a non-empty default is not defined; otherwise, when
some profile is invalid, with "config validation errors" and a list that has
an element for a name and an error exactly when the profile of that name fails
with that error, the names being taken from the profiles in their order, so
that no name occurs twice when the names of the profiles are distinct (they
are the keys of a Go map). -/
theorem ValidateConfig_spec (cfg : Config) :
    (ValidateConfig cfg = none ↔
        cfg.Profiles ≠ [] ∧
          (cfg.Default = [] ∨ cfg.Default ∈ cfg.Profiles.map Prod.fst) ∧
          ∀ np ∈ cfg.Profiles, Validate np.2 = none) ∧
      (cfg.Profiles = [] → ValidateConfig cfg = some .noProfiles) ∧
      (cfg.Profiles ≠ [] → cfg.Default ≠ [] → cfg.Default ∉ cfg.Profiles.map Prod.fst →
        ValidateConfig cfg = some (.defaultNotFound cfg.Default)) ∧
      (cfg.Profiles ≠ [] → (cfg.Default = [] ∨ cfg.Default ∈ cfg.Profiles.map Prod.fst) →
        (∃ np ∈ cfg.Profiles, Validate np.2 ≠ none) →
        ∃ errs, ValidateConfig cfg = some (.validationErrors errs) ∧
          (∀ name e, (name, e) ∈ errs ↔ ∃ p, (name, p) ∈ cfg.Profiles ∧ Validate p = some e) ∧
          (errs.map Prod.fst).Sublist (cfg.Profiles.map Prod.fst) ∧
          ((cfg.Profiles.map Prod.fst).Nodup → (errs.map Prod.fst).Nodup)) ∧
      (∀ quote : List Char → List Char,
        ConfigError.noProfiles.message quote = "no profiles defined".toList ∧
        (∀ name, (ConfigError.defaultNotFound name).message quote
          = "default profile ".toList ++ quote name ++ " not found in profiles".toList) ∧
        (∀ errs, ∃ r, (ConfigError.validationErrors errs).message quote
          = "config validation errors".toList ++ r)) := by
  have hlen : cfg.Profiles.length = 0 ↔ cfg.Profiles = [] := List.length_eq_zero
  have hdef : (cfg.Default ≠ [] ∧ (cfg.Profiles.lookup cfg.Default).isNone = true) ↔
      ¬ (cfg.Default = [] ∨ cfg.Default ∈ cfg.Profiles.map Prod.fst) := by
    rw [lookup_isNone_iff, not_or]
  have herrs : (collectErrors cfg.Profiles).length > 0 ↔
      ∃ np ∈ cfg.Profiles, Validate np.2 ≠ none := by
    rw [gt_iff_lt, List.length_pos, Ne, collectErrors_eq_nil_iff]
    constructor
    · intro h
      by_contra hc
      exact h fun np hnp => by
        by_contra hv
        exact hc ⟨np, hnp, hv⟩
    · rintro ⟨np, hnp, hv⟩ h
      exact hv (h np hnp)
  refine ⟨?_, ?_, ?_, ?_, ?_⟩
  · unfold ValidateConfig
    by_cases h1 : cfg.Profiles = []
    · rw [if_pos (hlen.mpr h1)]
      simp [h1]
    · rw [if_neg (fun h => h1 (hlen.mp h))]
      by_cases h2 : cfg.Default = [] ∨ cfg.Default ∈ cfg.Profiles.map Prod.fst
      · rw [if_neg (fun h => (hdef.mp h) h2)]
        by_cases h3 : ∃ np ∈ cfg.Profiles, Validate np.2 ≠ none
        · simp only [if_pos (herrs.mpr h3)]
          constructor
          · intro h; exact absurd h (by simp)
          · rintro ⟨-, -, hall⟩
            obtain ⟨np, hnp, hne⟩ := h3
            exact absurd (hall np hnp) hne
        · simp only [if_neg (fun h => h3 (herrs.mp h))]
          have hall : ∀ np ∈ cfg.Profiles, Validate np.2 = none := fun np hnp => by
            by_contra hv
            exact h3 ⟨np, hnp, hv⟩
          exact ⟨fun _ => ⟨h1, h2, hall⟩, fun _ => trivial⟩
      · rw [if_pos (hdef.mpr h2)]
        constructor
        · intro h; exact absurd h (by simp)
        · rintro ⟨-, hd, -⟩
          exact absurd hd h2
  · intro h1
    unfold ValidateConfig
    rw [if_pos (hlen.mpr h1)]
  · intro h1 h2 h3
    unfold ValidateConfig
    rw [if_neg (fun h => h1 (hlen.mp h)),
      if_pos (hdef.mpr (fun h => h.elim (fun h => h2 h) (fun h => h3 h)))]
  · intro h1 h2 h3
    refine ⟨collectErrors cfg.Profiles, ?_, fun name e => mem_collectErrors name e cfg.Profiles,
      collectErrors_sublist cfg.Profiles, fun hnd => (collectErrors_sublist cfg.Profiles).nodup hnd⟩
    unfold ValidateConfig
    rw [if_neg (fun h => h1 (hlen.mp h)), if_neg (fun h => (hdef.mp h) h2)]
    simp only [if_pos (herrs.mpr h3)]
  · intro quote
    exact ⟨rfl, fun _ => rfl, fun errs => ⟨":\n  ".toList ++
      List.intercalate "\n  ".toList
        (errs.map fun ne => "profile ".toList ++ quote ne.1 ++ ": ".toList ++ ne.2.message quote),
      by simp [ConfigError.message]⟩⟩

/-- C24, at configurations of `TestValidateConfig`: no profile; a default that
is not defined; a valid configuration; and a configuration with one valid and
two invalid profiles, whose error lists the two invalid ones by name, once
each. -/
theorem ValidateConfig_spec_witness :
    ValidateConfig ⟨[], []⟩ = some .noProfiles ∧
      ValidateConfig ⟨"missing".toList,
          [("dev".toList, ⟨none, "host".toList, "shell".toList, none⟩)]⟩
        = some (.defaultNotFound "missing".toList) ∧
      ValidateConfig ⟨"dev".toList,
          [("dev".toList, ⟨none, "host".toList, "shell".toList, none⟩)]⟩ = none ∧
      ValidateConfig mixedConfig
        = some (.validationErrors [("bad".toList, .environmentRequired),
            ("worse".toList, .unknownLaunchMode "vim".toList)]) ∧
      (∃ errs, ValidateConfig mixedConfig = some (.validationErrors errs) ∧
        (∀ name e, (name, e) ∈ errs ↔
          ∃ p, (name, p) ∈ mixedConfig.Profiles ∧ Validate p = some e) ∧
        (errs.map Prod.fst).Sublist (mixedConfig.Profiles.map Prod.fst) ∧
        ((mixedConfig.Profiles.map Prod.fst).Nodup → (errs.map Prod.fst).Nodup)) :=
  ⟨by decide, by decide, by decide, by decide,
    (ValidateConfig_spec mixedConfig).2.2.2.1 (by decide) (Or.inl rfl)
      ⟨("bad".toList, ⟨none, [], "shell".toList, none⟩), by decide, by decide⟩⟩

/-! ## The pipeline -/

theorem stateAfter_zero {σ ε : Type} (stages : List (Stage σ ε)) (st : σ) :
    stateAfter stages 0 st = st := rfl

theorem stateAfter_cons_succ {σ ε : Type} (s : Stage σ ε) (rest : List (Stage σ ε)) (n : Nat)
    (st : σ) : stateAfter (s :: rest) (n + 1) st = stateAfter rest n (s.Run st).2 := rfl

theorem range_succ_map_add (n k : Nat) :
    (List.range (n + 1)).map (· + k) = k :: (List.range n).map (· + (k + 1)) := by
  rw [List.range_succ_eq_map, List.map_cons, List.map_map]
  congr 1
  · omega
  · apply List.map_congr_left
    intro j _
    simp only [Function.comp]
    omega

theorem executeLoop_all_ok {σ ε : Type} :
    ∀ (stages : List (Stage σ ε)) (k : Nat) (st : σ),
      (∀ j (hj : j < stages.length),
        ((stages.get ⟨j, hj⟩).Run (stateAfter stages j st)).1 = none) →
      (executeLoop stages k st).err = none ∧
        (executeLoop stages k st).state = stateAfter stages stages.length st ∧
        (executeLoop stages k st).ran = (List.range stages.length).map (· + k) ∧
        (executeLoop stages k st).stderr
          = stages.map fun s => "[".toList ++ s.Name ++ "]\n".toList
  | [], _, _, _ => ⟨rfl, rfl, rfl, rfl⟩
  | s :: rest, k, st, h => by
    have h0 : (s.Run st).1 = none := h 0 (Nat.succ_pos _)
    have ih := executeLoop_all_ok rest (k + 1) (s.Run st).2
      (fun j hj => h (j + 1) (Nat.succ_lt_succ hj))
    cases hrun : s.Run st with
    | mk o st1 =>
      rw [hrun] at h0 ih
      have ho : o = none := h0
      subst ho
      obtain ⟨i1, i2, i3, i4⟩ := ih
      simp only [executeLoop, hrun]
      refine ⟨i1, ?_, ?_, ?_⟩
      · rw [i2, List.length_cons, stateAfter_cons_succ, hrun]
      · rw [i3, List.length_cons, range_succ_map_add]
      · rw [i4, List.map_cons]

theorem executeLoop_first_failure {σ ε : Type} :
    ∀ (stages : List (Stage σ ε)) (k : Nat) (st : σ) (i : Nat) (hi : i < stages.length) (e : ε),
      ((stages.get ⟨i, hi⟩).Run (stateAfter stages i st)).1 = some e →
      (∀ j (hj : j < i),
        ((stages.get ⟨j, hj.trans hi⟩).Run (stateAfter stages j st)).1 = none) →
      (executeLoop stages k st).err = some ⟨(stages.get ⟨i, hi⟩).Name, e⟩ ∧
        (executeLoop stages k st).state = stateAfter stages (i + 1) st ∧
        (executeLoop stages k st).ran = (List.range (i + 1)).map (· + k) ∧
        (executeLoop stages k st).stderr
          = (stages.take (i + 1)).map fun s => "[".toList ++ s.Name ++ "]\n".toList
  | [], _, _, _, hi, _, _, _ => absurd hi (Nat.not_lt_zero _)
  | s :: rest, k, st, 0, _, e, hfail, _ => by
    have h0 : (s.Run st).1 = some e := hfail
    cases hrun : s.Run st with
    | mk o st1 =>
      rw [hrun] at h0
      have ho : o = some e := h0
      subst ho
      simp only [executeLoop, hrun]
      refine ⟨rfl, ?_, ?_, ?_⟩
      · rw [stateAfter_cons_succ, hrun]
        rfl
      · rw [range_succ_map_add]
        rfl
      · rfl
  | s :: rest, k, st, i + 1, hi, e, hfail, hpre => by
    have h0 : (s.Run st).1 = none := hpre 0 (Nat.succ_pos _)
    have ih := executeLoop_first_failure rest (k + 1) (s.Run st).2 i (Nat.lt_of_succ_lt_succ hi) e
      hfail (fun j hj => hpre (j + 1) (Nat.succ_lt_succ hj))
    cases hrun : s.Run st with
    | mk o st1 =>
      rw [hrun] at h0 ih
      have ho : o = none := h0
      subst ho
      obtain ⟨i1, i2, i3, i4⟩ := ih
      simp only [executeLoop, hrun]
      refine ⟨i1, ?_, ?_, ?_⟩
      · rw [i2, stateAfter_cons_succ s rest (i + 1) st, hrun]
      · rw [i3, range_succ_map_add (i + 1)]
      · rw [i4, List.take_succ_cons, List.map_cons]

/-- C26: `Pipeline.Execute` runs the stages in the order given to `New`, each
on the state the stages before it have left, and stops at the first failure.
If the stage at position `i` is the first whose `Run` returns an error `e`,
the stages at positions 0 to `i` have run, once each and in this order, no
later stage has run, and the error returned carries the name of stage `i` and
`e` (its text is the name, ": " and the text of `e`).  If no stage fails, the
empty pipeline included, every stage has run once, in order, and no error is
returned. -/
theorem Pipeline_Execute_spec {σ ε : Type} (stages : List (Stage σ ε)) (ec : σ) :
    (∀ (i : Nat) (hi : i < stages.length) (e : ε),
        ((stages.get ⟨i, hi⟩).Run (stateAfter stages i ec)).1 = some e →
        (∀ j (hj : j < i),
          ((stages.get ⟨j, hj.trans hi⟩).Run (stateAfter stages j ec)).1 = none) →
        ((New stages).Execute ec).err = some ⟨(stages.get ⟨i, hi⟩).Name, e⟩ ∧
          ((New stages).Execute ec).ran = List.range (i + 1) ∧
          ((New stages).Execute ec).state = stateAfter stages (i + 1) ec ∧
          ((New stages).Execute ec).stderr
            = (stages.take (i + 1)).map (fun s => "[".toList ++ s.Name ++ "]\n".toList) ∧
          ∀ text : ε → List Char,
            ((New stages).Execute ec).err.map (PipelineError.message text)
              = some ((stages.get ⟨i, hi⟩).Name ++ ": ".toList ++ text e)) ∧
      ((∀ j (hj : j < stages.length),
          ((stages.get ⟨j, hj⟩).Run (stateAfter stages j ec)).1 = none) →
        ((New stages).Execute ec).err = none ∧
          ((New stages).Execute ec).ran = List.range stages.length ∧
          ((New stages).Execute ec).state = stateAfter stages stages.length ec ∧
          ((New stages).Execute ec).stderr
            = stages.map (fun s => "[".toList ++ s.Name ++ "]\n".toList)) ∧
      (((New ([] : List (Stage σ ε))).Execute ec).err = none ∧
        ((New ([] : List (Stage σ ε))).Execute ec).ran = [] ∧
        ((New ([] : List (Stage σ ε))).Execute ec).state = ec) := by
  have hmap : ∀ n : Nat, (List.range n).map (· + 0) = List.range n := fun n => by simp
  refine ⟨?_, ?_, ⟨rfl, rfl, rfl⟩⟩
  · intro i hi e hfail hpre
    obtain ⟨h1, h2, h3, h4⟩ := executeLoop_first_failure stages 0 ec i hi e hfail hpre
    refine ⟨h1, ?_, h2, h4, ?_⟩
    · show (executeLoop stages 0 ec).ran = _
      rw [h3, hmap]
    · intro text
      show (executeLoop stages 0 ec).err.map _ = _
      rw [h1]
      rfl
  · intro hall
    obtain ⟨h1, h2, h3, h4⟩ := executeLoop_all_ok stages 0 ec hall
    refine ⟨h1, ?_, h2, h4⟩
    show (executeLoop stages 0 ec).ran = _
    rw [h3, hmap]

/-- C26, at the stages of `TestPipeline_Execute_StopsOnError`: "stage-2" at
position 1 fails with "boom"; the stages at positions 0 and 1 have run, the
third has not, and the error is "stage-2: boom". -/
theorem Pipeline_Execute_spec_witness :
    ((New mockStages).Execute []).err = some ⟨"stage-2".toList, "boom".toList⟩ ∧
      ((New mockStages).Execute []).ran = [0, 1] ∧
      ((New mockStages).Execute []).state = ["stage-1".toList, "stage-2".toList] ∧
      ((New mockStages).Execute []).stderr = ["[stage-1]\n".toList, "[stage-2]\n".toList] ∧
      ((New mockStages).Execute []).err.map (PipelineError.message id)
        = some "stage-2: boom".toList ∧
      (((New mockStagesOk).Execute []).err = none ∧
        ((New mockStagesOk).Execute []).ran = [0, 1] ∧
        ((New mockStagesOk).Execute []).state = ["stage-1".toList, "stage-2".toList] ∧
        ((New mockStagesOk).Execute []).stderr
          = ["[stage-1]\n".toList, "[stage-2]\n".toList]) := by
  have hfail := (Pipeline_Execute_spec mockStages []).1 1 (by decide) "boom".toList rfl
    (fun j hj => by
      have hj0 : j = 0 := by omega
      subst hj0
      rfl)
  have hok := (Pipeline_Execute_spec mockStagesOk []).2.1
    (fun j hj => by
      have hj2 : j < 2 := hj
      have hj01 : j = 0 ∨ j = 1 := by omega
      rcases hj01 with rfl | rfl <;> rfl)
  exact ⟨hfail.1, hfail.2.1, hfail.2.2.1, hfail.2.2.2.1, hfail.2.2.2.2 id, hok⟩

/-! ## The name of a worktree -/

theorem length_le_byteLen (s : List Char) : s.length ≤ byteLen s := by
  induction s with
  | nil => simp [byteLen]
  | cons c cs ih =>
    have hc := Char.utf8Size_pos c
    simp only [byteLen, List.map_cons, List.sum_cons, List.length_cons] at ih ⊢
    omega

theorem byteLen_map_le {f : Char → Char} (h : ∀ c, (f c).utf8Size ≤ c.utf8Size) (s : List Char) :
    byteLen (s.map f) ≤ byteLen s := by
  induction s with
  | nil => simp [byteLen]
  | cons c cs ih =>
    have hc := h c
    simp only [byteLen, List.map_cons, List.sum_cons] at ih ⊢
    omega

theorem scanWords_cons (toLower : Char → Char) (line : List Char) (rest : List (List Char)) :
    scanWords toLower (line :: rest)
      = if isEligible line = true then (TrimSpace line).map toLower :: scanWords toLower rest
        else scanWords toLower rest := by
  by_cases h : 0 < byteLen (TrimSpace line) ∧ byteLen (TrimSpace line) ≤ maxWordLen
  · have he : isEligible line = true := decide_eq_true h
    rw [if_pos he]
    simp only [scanWords]
    exact if_pos h
  · have he : ¬ isEligible line = true := fun hc => h (of_decide_eq_true hc)
    rw [if_neg he]
    simp only [scanWords]
    exact if_neg h

theorem mem_scanWords (toLower : Char → Char) (w : List Char) :
    ∀ lines : List (List Char),
      w ∈ scanWords toLower lines ↔
        ∃ line ∈ lines, isEligible line = true ∧ w = (TrimSpace line).map toLower
  | [] => by simp [scanWords]
  | line :: rest => by
    have ih := mem_scanWords toLower w rest
    rw [scanWords_cons]
    by_cases he : isEligible line = true
    · rw [if_pos he, List.mem_cons, ih]
      constructor
      · rintro (h | ⟨l, hl, h1, h2⟩)
        · exact ⟨line, List.mem_cons_self _ _, he, h⟩
        · exact ⟨l, List.mem_cons_of_mem _ hl, h1, h2⟩
      · rintro ⟨l, hl, h1, h2⟩
        rcases List.mem_cons.mp hl with rfl | hr
        · exact Or.inl h2
        · exact Or.inr ⟨l, hr, h1, h2⟩
    · rw [if_neg he, ih]
      constructor
      · rintro ⟨l, hl, h1, h2⟩
        exact ⟨l, List.mem_cons_of_mem _ hl, h1, h2⟩
      · rintro ⟨l, hl, h1, h2⟩
        rcases List.mem_cons.mp hl with rfl | hr
        · exact absurd h1 he
        · exact ⟨l, hr, h1, h2⟩

theorem scanWords_length (toLower : Char → Char) :
    ∀ lines : List (List Char),
      (scanWords toLower lines).length = (lines.filter isEligible).length
  | [] => rfl
  | line :: rest => by
    have ih := scanWords_length toLower rest
    rw [scanWords_cons]
    by_cases he : isEligible line = true
    · rw [if_pos he, List.filter_cons_of_pos he, List.length_cons, List.length_cons, ih]
    · rw [if_neg he, List.filter_cons_of_neg he, ih]

theorem getD_mod_mem (words : List (List Char)) (h : 0 < words.length) (n : Nat) :
    words.getD (n % words.length) [] ∈ words := by
  rw [List.getD_eq_getElem _ _ (Nat.mod_lt _ h)]
  exact List.getElem_mem _

theorem intercalate_three (a b c : List Char) :
    List.intercalate "-".toList [a, b, c] = a ++ '-' :: (b ++ '-' :: c) := by
  simp [List.intercalate]

/-- C27 fails in the code: `TestGenerateName` requires exactly 3 parts on "-",
each of 1 to `maxWordLen` bytes and lowercase, yet a dictionary with three
eligible words, one of them "a-b", and random choices that pick it three times
give the name "a-b-a-b-a-b", which splits on "-" into 6 parts.  And a
dictionary whose first word is three times U+023A, 6 bytes long, gives parts
of 9 bytes once lower-cased, since `unicode.ToLower` maps that letter to one
of 3 bytes. -/
theorem GenerateName_hyphenated_word :
    (hyphenDictionary.lines.filter isEligible).length = 3 ∧
      GenerateName hyphenDictionary asciiToLower (fun _ => 0) = .ok "a-b-a-b-a-b".toList ∧
      (splitOnByte '-' "a-b-a-b-a-b".toList).length = 6 ∧
      (strokeDictionary.lines.filter isEligible).length = 3 ∧
      (GenerateName strokeDictionary strokeToLower (fun _ => 0)).toOption.map
          (fun name => (splitOnByte '-' name).map byteLen) = some [9, 9, 9] := by
  decide

/-- Where `GenerateName` does meet `TestGenerateName`: for every dictionary
that opens and is read without error, whose lines are sequences of Unicode
characters, with at least three eligible lines (1 to 6 bytes once trimmed)
none of which contains "-" once lower-cased, and for every outcome of the
random choices, `GenerateName` returns a name that splits on "-" into exactly
3 parts; part number `i` is the word the
draw number `i` selects; each part is the lower-casing of an eligible trimmed
line, has between 1 and 6 characters and at least 1 byte; it has at most 6
bytes if lower-casing lengthens the encoding of no character, and it is
unchanged by lower-casing if lower-casing a character twice is the same as
once. -/
theorem GenerateName_parts (dict : Dictionary) (toLower : Char → Char) (draws : Nat → Nat)
    (hopen : dict.openErr = none) (hscan : dict.scanErr = none)
    (hcount : 3 ≤ (dict.lines.filter isEligible).length)
    (hhyphen : ∀ line ∈ dict.lines, isEligible line = true →
      '-' ∉ (TrimSpace line).map toLower) :
    ∃ name p0 p1 p2, GenerateName dict toLower draws = .ok name ∧
      splitOnByte '-' name = [p0, p1, p2] ∧
      [p0, p1, p2] = (List.range 3).map (fun i =>
        (scanWords toLower dict.lines).getD
          (draws i % (scanWords toLower dict.lines).length) []) ∧
      ∀ part ∈ [p0, p1, p2],
        (∃ line ∈ dict.lines, isEligible line = true ∧ part = (TrimSpace line).map toLower) ∧
          1 ≤ part.length ∧ part.length ≤ maxWordLen ∧ 1 ≤ byteLen part ∧
          ((∀ c, (toLower c).utf8Size ≤ c.utf8Size) → byteLen part ≤ maxWordLen) ∧
          ((∀ c, toLower (toLower c) = toLower c) → part.map toLower = part) := by
  have hlen : (scanWords toLower dict.lines).length = (dict.lines.filter isEligible).length :=
    scanWords_length toLower dict.lines
  have hpos : 0 < (scanWords toLower dict.lines).length := by omega
  have hnot : ¬ (scanWords toLower dict.lines).length < wordCount := by
    show ¬ (scanWords toLower dict.lines).length < 3
    omega
  have hmem : ∀ n, (scanWords toLower dict.lines).getD
      (draws n % (scanWords toLower dict.lines).length) [] ∈ scanWords toLower dict.lines :=
    fun n => getD_mod_mem _ hpos (draws n)
  have hno : ∀ w ∈ scanWords toLower dict.lines, '-' ∉ w := by
    intro w hw
    obtain ⟨line, hl, he, rfl⟩ := (mem_scanWords toLower w dict.lines).mp hw
    exact hhyphen line hl he
  have hgen : GenerateName dict toLower draws
      = .ok (List.intercalate "-".toList
          (pickWords (scanWords toLower dict.lines) draws wordCount 0)) := by
    simp only [GenerateName, hopen, hscan]
    rw [if_neg hnot]
  have hpick : pickWords (scanWords toLower dict.lines) draws wordCount 0
      = [(scanWords toLower dict.lines).getD
            (draws 0 % (scanWords toLower dict.lines).length) [],
          (scanWords toLower dict.lines).getD
            (draws 1 % (scanWords toLower dict.lines).length) [],
          (scanWords toLower dict.lines).getD
            (draws 2 % (scanWords toLower dict.lines).length) []] := rfl
  rw [hpick, intercalate_three] at hgen
  refine ⟨_, _, _, _, hgen, ?_, rfl, ?_⟩
  · rw [splitOnByte_append_sep (hno _ (hmem 0)), splitOnByte_append_sep (hno _ (hmem 1)),
      splitOnByte_no_sep (hno _ (hmem 2))]
  · intro part hpart
    have hw : part ∈ scanWords toLower dict.lines := by
      simp only [List.mem_cons, List.mem_singleton, List.not_mem_nil, or_false] at hpart
      rcases hpart with rfl | rfl | rfl
      · exact hmem 0
      · exact hmem 1
      · exact hmem 2
    obtain ⟨line, hl, he, rfl⟩ := (mem_scanWords toLower part dict.lines).mp hw
    have hb : 0 < byteLen (TrimSpace line) ∧ byteLen (TrimSpace line) ≤ maxWordLen :=
      of_decide_eq_true he
    have hne : TrimSpace line ≠ [] := by
      intro h0
      rw [h0] at hb
      exact absurd hb.1 (by decide)
    have hl1 : 1 ≤ (TrimSpace line).length := List.length_pos.mpr hne
    have hl2 := length_le_byteLen (TrimSpace line)
    have hl3 := length_le_byteLen ((TrimSpace line).map toLower)
    rw [List.length_map] at hl3
    refine ⟨⟨line, hl, he, rfl⟩, ?_, ?_, ?_, ?_, ?_⟩
    · rw [List.length_map]
      exact hl1
    · rw [List.length_map]
      exact hl2.trans hb.2
    · omega
    · intro hsize
      exact (byteLen_map_le hsize _).trans hb.2
    · intro hidem
      rw [List.map_map]
      apply List.map_congr_left
      intro c _
      exact hidem c

/-- The name `GenerateName` returns at a dictionary with proper names, a word
with trailing white space, a long word and an empty line: the draws 0, 5, 2 pick the first,
second and third eligible word (5 modulo 4 is 1), which gives "aaron-apple-zebra". -/
theorem GenerateName_parts_witness :
    GenerateName sampleDictionary asciiToLower (fun i => [0, 5, 2].getD i 0)
        = .ok "aaron-apple-zebra".toList ∧
      splitOnByte '-' "aaron-apple-zebra".toList
        = ["aaron".toList, "apple".toList, "zebra".toList] ∧
      ∃ name p0 p1 p2,
        GenerateName sampleDictionary asciiToLower (fun i => [0, 5, 2].getD i 0) = .ok name ∧
        splitOnByte '-' name = [p0, p1, p2] ∧
        [p0, p1, p2] = (List.range 3).map (fun i =>
          (scanWords asciiToLower sampleDictionary.lines).getD
            ((fun i => [0, 5, 2].getD i 0) i
              % (scanWords asciiToLower sampleDictionary.lines).length) []) ∧
        ∀ part ∈ [p0, p1, p2],
          (∃ line ∈ sampleDictionary.lines,
              isEligible line = true ∧ part = (TrimSpace line).map asciiToLower) ∧
            1 ≤ part.length ∧ part.length ≤ maxWordLen ∧ 1 ≤ byteLen part ∧
            ((∀ c, (asciiToLower c).utf8Size ≤ c.utf8Size) → byteLen part ≤ maxWordLen) ∧
            ((∀ c, asciiToLower (asciiToLower c) = asciiToLower c) →
              part.map asciiToLower = part) :=
  ⟨by decide, by decide,
    GenerateName_parts sampleDictionary asciiToLower (fun i => [0, 5, 2].getD i 0) rfl rfl
      (by decide) (by decide)⟩

/-! ## The double removal of "v" and the selection of the archive entry -/

theorem trimLeading_v_idem_of_not_vv (t : List Char)
    (h : List.isPrefixOf "vv".toList t = false) :
    trimLeading (trimLeading t ['v']) ['v'] = trimLeading t ['v'] := by
  cases t with
  | nil => rw [trimLeading_v_nil, trimLeading_v_nil]
  | cons c cs =>
    by_cases hc : c = 'v'
    · subst hc
      rw [trimLeading_v_cons]
      cases cs with
      | nil => exact trimLeading_v_nil
      | cons d ds =>
        by_cases hd : d = 'v'
        · subst hd
          exact absurd h (by simp [List.isPrefixOf])
        · exact trimLeading_v_of_head_ne hd ds
    · rw [trimLeading_v_of_head_ne hc, trimLeading_v_of_head_ne hc]

/-- C28: `Execute` removes one leading "v" from the tag of the release before
it calls `isNewer`, which removes one more.  For every tag `t` that does not
begin with "vv" and every current version `c`, the comparison `Execute` makes
equals `isNewer t c`.  The outcome of `Execute` follows that comparison: its
error is returned as "comparing versions", and a release that is not newer
ends the run with success.  The tag "vv0.2.0" with current version "0.1.0" is
accepted and compared as "0.2.0", so that `Execute` goes on to the selection
of the asset, although `parseVersion` and `isNewer` reject "vv0.2.0". -/
theorem executeComparison_spec (t c : List Char) :
    (List.isPrefixOf "vv".toList t = false → executeComparison t c = isNewer t c) ∧
      (∀ (os : OsEnv) (u : Updater) (w : World) (release : ReleaseInfo),
        (FetchLatestRelease u.HTTPClient w.requests).1 = .ok release →
        release.TagName = t → u.CurrentVersion = c →
        (∀ b e, executeComparison t c = (b, some e) →
            (Execute os u w).1 = some (.comparingVersions e)) ∧
          (executeComparison t c = (false, none) → (Execute os u w).1 = none) ∧
          (executeComparison t c = (true, none) →
            ∀ e, FindAssetURL release u.GOOS u.GOARCH = .error e →
              (Execute os u w).1 = some (.assetNotFound e))) ∧
      executeComparison "vv0.2.0".toList "0.1.0".toList = (true, none) ∧
      executeComparison "vv0.2.0".toList "0.1.0".toList
        = isNewer "0.2.0".toList "0.1.0".toList ∧
      (parseVersion "vv0.2.0".toList).toOption = none ∧
      ((isNewer "vv0.2.0".toList "0.1.0".toList).1 = false ∧
        (isNewer "vv0.2.0".toList "0.1.0".toList).2.isSome = true) ∧
      (Execute plainOs ⟨doubleVClient, "0.1.0".toList, "windows".toList, "amd64".toList, []⟩
          freshWorld).1 = some (.assetNotFound ⟨"windows".toList, "amd64".toList⟩) ∧
      (Execute plainOs ⟨doubleVClient, "0.1.0".toList, "windows".toList, "amd64".toList, []⟩
          freshWorld).2.stderr
        = ["Checking for updates...\n".toList, "Updating aw: 0.1.0 → v0.2.0\n".toList] := by
  refine ⟨?_, ?_, by decide, by decide, by decide, by decide, by decide, by decide⟩
  · intro h
    have hv : "v".toList = ['v'] := rfl
    unfold executeComparison
    rw [hv]
    exact isNewer_congr (parseVersion_congr (trimLeading_v_idem_of_not_vv t h)) rfl
  · intro os u w release hf ht hc
    subst ht hc
    refine ⟨?_, ?_, ?_⟩
    · intro b e hn
      rw [Execute_compare_error hf hn]
    · intro hn
      rw [Execute_not_newer hf hn]
    · intro hn e ha
      rw [Execute_asset_error hf hn ha]

/-- C28, at the tags "v0.2.0" and "0.2.0", which do not begin with "vv": the
comparison of `Execute` with the current version "0.1.0" equals `isNewer` on
the tag itself. -/
theorem executeComparison_spec_witness :
    (executeComparison "v0.2.0".toList "0.1.0".toList
        = isNewer "v0.2.0".toList "0.1.0".toList) ∧
      isNewer "v0.2.0".toList "0.1.0".toList = (true, none) ∧
      (executeComparison "0.2".toList "0.1.0".toList = isNewer "0.2".toList "0.1.0".toList) ∧
      executeComparison "vv0.2.0".toList "0.1.0".toList
        ≠ isNewer "vv0.2.0".toList "0.1.0".toList :=
  ⟨(executeComparison_spec "v0.2.0".toList "0.1.0".toList).1 (by decide), by decide,
    (executeComparison_spec "0.2".toList "0.1.0".toList).1 (by decide), by decide⟩

theorem extractLoop_behind (pre : List (TarHeader × Except (List Char) (List UInt8)))
    (tr : TarReader) (h : ∀ e ∈ pre, filepathBase e.1.Name ≠ binaryName) :
    extractLoop (TarReader.behind pre tr) = extractLoop tr := by
  induction pre with
  | nil => rfl
  | cons e rest ih =>
    obtain ⟨hdr, body⟩ := e
    have hn : filepathBase hdr.Name ≠ binaryName := h (hdr, body) (List.mem_cons_self _ _)
    have hrest := ih (fun x hx => h x (List.mem_cons_of_mem _ hx))
    cases body <;> rw [TarReader.behind, extractLoop, if_neg hn] <;> exact hrest

/-- C29: `extractBinary` selects an entry by its base name alone and inspects
neither the type of the entry nor anything after it.  For an archive whose
first entry of base name "aw" has the header `hdr`, behind any entries of other
base names, the result is what `io.ReadAll` gives for that entry (its content,
or the error "reading binary from archive"), whatever follows the entry
(further entries, the end, or a malformed stream), and whatever the type flag
of the entry: for a well-formed entry it is the content the tar reader
delivers for that type, which is empty for a directory.  So the archive of the
directory "aw/" followed by the regular file "aw/aw" gives the empty payload
and no error. -/
theorem extractBinary_ignores_type_and_tail
    (pre : List (TarHeader × Except (List Char) (List UInt8))) (hdr : TarHeader)
    (body : Except (List Char) (List UInt8)) (rest rest2 : TarReader)
    (hpre : ∀ e ∈ pre, filepathBase e.1.Name ≠ binaryName)
    (hm : filepathBase hdr.Name = binaryName) :
    extractBinary (.gzip (TarReader.behind pre (.entry hdr body rest)))
        = extractBinary (.gzip (TarReader.behind pre (.entry hdr body rest2))) ∧
      extractBinary (.gzip (TarReader.behind pre (.entry hdr body rest)))
        = (match body with
          | .ok data => .ok data
          | .error e => .error (.readingBinary e)) ∧
      (∀ (flag : Char) (content : List UInt8),
        extractBinary (.gzip (TarReader.behind pre
            (TarReader.ofMembers [⟨hdr.Name, flag, content⟩] rest)))
          = .ok (TarMember.body ⟨hdr.Name, flag, content⟩)) ∧
      (∀ content : List UInt8,
        extractBinary (.gzip (TarReader.behind pre (TarReader.ofMembers
            [⟨"aw/".toList, '5', content⟩, ⟨"aw/aw".toList, '0', content⟩] rest))) = .ok []) := by
  have hone : ∀ (h : TarHeader) (b : Except (List Char) (List UInt8)) (r : TarReader),
      filepathBase h.Name = binaryName →
      extractBinary (.gzip (TarReader.behind pre (.entry h b r)))
        = (match b with
          | .ok data => .ok data
          | .error e => .error (.readingBinary e)) := by
    intro h b r hb
    show extractLoop _ = _
    rw [extractLoop_behind pre _ hpre]
    cases b <;> rw [extractLoop, if_pos hb]
  refine ⟨?_, hone hdr body rest hm, ?_, ?_⟩
  · rw [hone hdr body rest hm, hone hdr body rest2 hm]
  · intro flag content
    exact hone ⟨hdr.Name⟩ (.ok (TarMember.body ⟨hdr.Name, flag, content⟩)) _ hm
  · intro content
    exact hone ⟨"aw/".toList⟩ (.ok (TarMember.body ⟨"aw/".toList, '5', content⟩)) _ (by decide)

/-- C29, at the archive "README.md", directory "aw/", file "aw/aw" with the
bytes 1, 2, 3: the result is the empty payload, and it is the same when the
stream is cut off right after the directory entry. -/
theorem extractBinary_ignores_type_and_tail_witness :
    extractBinary (.gzip (TarReader.ofMembers
        [⟨"README.md".toList, '0', [9]⟩, ⟨"aw/".toList, '5', []⟩, ⟨"aw/aw".toList, '0', [1, 2, 3]⟩]
        .eof)) = .ok [] ∧
      extractBinary (.gzip (TarReader.ofMembers
        [⟨"README.md".toList, '0', [9]⟩, ⟨"aw/aw".toList, '0', [1, 2, 3]⟩] .eof))
        = .ok [1, 2, 3] ∧
      extractBinary (.gzip (TarReader.behind [(⟨"README.md".toList⟩, .ok [9])]
          (.entry ⟨"aw/".toList⟩ (.ok [])
            (.entry ⟨"aw/aw".toList⟩ (.ok [1, 2, 3]) .eof))))
        = extractBinary (.gzip (TarReader.behind [(⟨"README.md".toList⟩, .ok [9])]
          (.entry ⟨"aw/".toList⟩ (.ok []) (.failed "unexpected EOF".toList)))) :=
  ⟨by decide, by decide,
    (extractBinary_ignores_type_and_tail [(⟨"README.md".toList⟩, .ok [9])] ⟨"aw/".toList⟩
      (.ok []) (.entry ⟨"aw/aw".toList⟩ (.ok [1, 2, 3]) .eof) (.failed "unexpected EOF".toList)
      (by decide) (by decide)).1⟩

end Update
